import Mathlib

/-! Booster draw engine, collection ledger and reveal sequencer.

A shallow embedding of `src/src/core/booster.js` and of the collection and
reveal code of `src/public/main.js`, followed by theorems about it.

Conventions of the embedding:

* A JavaScript number is a `Dbl`: a finite IEEE 754 double given by its rational value, an
  infinity, or NaN; `+` and `-` round their exact result to the nearest double. A value
  of `Math.random()` is the rational value of a finite double. Only the product
  `Math.random() * arr.length` of `pickRandom` is taken exactly (see there).
* A property read `o[k]` finds the own properties of `o` and the members of its prototype
  chain, which is the one the engine starts with.
* A property that may be missing on a JavaScript object is an `Option`;
  `none` stands for `undefined`/`null`, and `a ?? b` is `Option.getD a b`.
* `Math.random()` is an explicit stream `rnd : Nat → ℚ` read at an explicit position.
* `CARDS` (module `cards.js`) is a parameter `catalog : List Card`.
-/

namespace Booster

/-! ## JavaScript numbers

Every number of the program is an IEEE 754 double. A finite double is given by its value, a
rational; `flq` rounds a rational to the nearest double and the operators round their exact
result. -/

/-- Round to the nearest integer, a tie going to the even one. -/
def roundHalfEven (x : ℚ) : Int :=
  if x - (Rat.floor x : ℚ) < 1 / 2 then Rat.floor x
  else if 1 / 2 < x - (Rat.floor x : ℚ) then Rat.floor x + 1
  else if Rat.floor x % 2 = 0 then Rat.floor x
  else Rat.floor x + 1

/-- The position of the highest set bit of `n` (0 for `n < 2`), by halving at most `fuel`
times. -/
def bitLog : Nat → Nat → Nat
  | 0, _ => 0
  | fuel + 1, n => if n < 2 then 0 else bitLog fuel (n / 2) + 1

/-- The spacing exponent of the doubles around `n` units of `2^-1074`, `n ≥ 0`: the doubles
below `2^53` units are one unit apart, those in `[2^(52+e), 2^(53+e))` are `2^e` apart. -/
def ulpExp (n : ℚ) : Nat :=
  bitLog (Rat.floor n).toNat (Rat.floor n).toNat - 52

/-- The multiple of `2^e` nearest to `n`, a tie going to the even multiple. -/
def gridRound (e : Nat) (n : ℚ) : Int :=
  roundHalfEven (n / ((2 ^ e : Nat) : ℚ)) * ((2 ^ e : Nat) : Int)

/-- The double nearest to `n ≥ 0`, both in units of `2^-1074`. -/
def roundUnits (n : ℚ) : Int :=
  gridRound (ulpExp n) n

/-- The number of units of `2^-1074`, the smallest positive double, in 1. -/
def unitsInOne : Nat := 2 ^ 1074

/-- The value of the double nearest to the rational `x` (round to nearest, ties to even), with
no upper limit on the exponent. -/
def flq (x : ℚ) : ℚ :=
  if 0 ≤ x then (roundUnits (x * (unitsInOne : ℚ)) : ℚ) / (unitsInOne : ℚ)
  else -((roundUnits (-x * (unitsInOne : ℚ)) : ℚ) / (unitsInOne : ℚ))

/-- A JavaScript number: a finite double (given by its value), an infinity, or NaN. The two
zeros are one value. -/
inductive Dbl
  | fin (q : ℚ)
  | posInf
  | negInf
  | nan
deriving DecidableEq, Repr

/-- The first power of two above every finite double, `2^1024`. -/
def overflowBound : Nat := 2 ^ 1024

/-- The double nearest to the rational `x`: IEEE 754 round to nearest, ties to even, a result
of magnitude `2^1024` or more being an infinity. -/
def fl (x : ℚ) : Dbl :=
  if (overflowBound : ℚ) ≤ flq x then Dbl.posInf
  else if flq x ≤ -(overflowBound : ℚ) then Dbl.negInf
  else Dbl.fin (flq x)

/-- The rational `q` is the value of a finite double. -/
def IsDouble (q : ℚ) : Prop :=
  flq q = q ∧ -(overflowBound : ℚ) < q ∧ q < (overflowBound : ℚ)

/-- The operator `-a` on numbers. -/
def Dbl.neg : Dbl → Dbl
  | .fin q => .fin (-q)
  | .posInf => .negInf
  | .negInf => .posInf
  | .nan => .nan

/-- The operator `a + b` on numbers. -/
def Dbl.add : Dbl → Dbl → Dbl
  | .fin a, .fin b => fl (a + b)
  | .nan, _ => .nan
  | _, .nan => .nan
  | .posInf, .negInf => .nan
  | .negInf, .posInf => .nan
  | .posInf, _ => .posInf
  | _, .posInf => .posInf
  | .negInf, _ => .negInf
  | _, .negInf => .negInf

/-- The operator `a - b` on numbers. -/
def Dbl.sub (a b : Dbl) : Dbl :=
  Dbl.add a (Dbl.neg b)

/-- The operator `a < b` on numbers: false when either side is NaN. -/
def Dbl.lt : Dbl → Dbl → Bool
  | .fin a, .fin b => decide (a < b)
  | .nan, _ => false
  | _, .nan => false
  | _, .negInf => false
  | .posInf, _ => false
  | .negInf, _ => true
  | _, .posInf => true

/-- A non-negative number: a finite double that is at least 0, or `Infinity`. -/
def Dbl.Nonneg : Dbl → Prop
  | .fin q => 0 ≤ q ∧ flq q = q
  | .posInf => True
  | .negInf => False
  | .nan => False

/-- The value of a finite double, 0 for an infinity or NaN. -/
def Dbl.val : Dbl → ℚ
  | .fin q => q
  | _ => 0

/-- The natural number a count denotes when it is one; 0 for an infinity or NaN. -/
def Dbl.toNat : Dbl → Nat
  | .fin q => (Rat.floor q).toNat
  | _ => 0

/-- The test the sort makes of a comparator result `v`: `v` is read as `+0` when it is NaN,
and the first argument stays before the second when `v ≤ 0`. -/
def Dbl.keepsOrder : Dbl → Bool
  | .fin q => decide (q ≤ 0)
  | .negInf => true
  | .posInf => false
  | .nan => true

/-- The number is not NaN: a finite double or an infinity. -/
def Dbl.NotNaN : Dbl → Prop
  | .fin q => IsDouble q
  | .posInf => True
  | .negInf => True
  | .nan => False

/-! ## JavaScript objects

A property read `o[k]` looks at the own properties of `o` and then at its prototype chain,
which ends in `Object.prototype`. -/

/-- The property names of `Object.prototype` (ECMAScript 2024 with Annex B): eleven functions
and the accessor `__proto__`, which reads as the prototype object. Each of them reads as an
object, hence truthy and not `null`. -/
def objectPrototypeKeys : List String :=
  ["constructor", "__defineGetter__", "__defineSetter__", "hasOwnProperty",
   "__lookupGetter__", "__lookupSetter__", "isPrototypeOf", "propertyIsEnumerable",
   "toString", "valueOf", "__proto__", "toLocaleString"]

/-! ## Data model -/

/-- A catalog card as the code reads it: every property may be missing. -/
structure Card where
  id : Option String
  name : Option String
  booster : Option String
  rarity : Option String
  image : Option String
deriving DecidableEq, Repr

/-- The `odds` object handed to `rollRarity`; a missing entry is `none`. -/
structure Odds where
  common : Option Dbl
  rare : Option Dbl
  epic : Option Dbl
  legendary : Option Dbl
deriving DecidableEq

/-! ## `booster.js` -/

/-- Source `rollRarity(odds)` (booster.js 4-14), with the value of `Math.random()` as `r`. The
two sums are sums of doubles. -/
def rollRarity (odds : Odds) (r : ℚ) : String :=
  let c := odds.common.getD (Dbl.fin 0)
  let ra := Dbl.add (odds.rare.getD (Dbl.fin 0)) c
  let e := Dbl.add (odds.epic.getD (Dbl.fin 0)) ra
  if Dbl.lt (Dbl.fin r) c then "common"
  else if Dbl.lt (Dbl.fin r) ra then "rare"
  else if Dbl.lt (Dbl.fin r) e then "epic"
  else "legendary"

/-- The sum `odds.common + odds.rare` as JavaScript evaluates it, a missing entry counting
as 0. -/
def Odds.commonRare (odds : Odds) : Dbl :=
  Dbl.add (odds.common.getD (Dbl.fin 0)) (odds.rare.getD (Dbl.fin 0))

/-- The sum `odds.common + odds.rare + odds.epic` as JavaScript evaluates it, a missing entry
counting as 0. -/
def Odds.commonRareEpic (odds : Odds) : Dbl :=
  Dbl.add odds.commonRare (odds.epic.getD (Dbl.fin 0))

/-- Source `pickRandom(arr)` (booster.js 16-18): `arr[Math.floor(r * arr.length)]`;
an index outside the array reads `undefined`, here `none`. The product is the exact one: the
rounding of the product to a double can move the index to the next one, which is still an
index of the array when `r < 1`. -/
def pickRandom {α : Type} (arr : List α) (r : ℚ) : Option α :=
  let i : Int := Rat.floor (r * (arr.length : ℚ))
  if i < 0 then none else arr[i.toNat]?

/-- The object literal `byRarity` (booster.js 41-46): four keys, any other key reads `undefined`. -/
def byRarity (pool : List Card) (rarity : String) : Option (List Card) :=
  if rarity = "common" then some (pool.filter (fun c => decide (c.rarity = some "common")))
  else if rarity = "rare" then some (pool.filter (fun c => decide (c.rarity = some "rare")))
  else if rarity = "epic" then some (pool.filter (fun c => decide (c.rarity = some "epic")))
  else if rarity = "legendary" then
    some (pool.filter (fun c => decide (c.rarity = some "legendary")))
  else none

/-- The loop condition `!byRarity[rarity] || byRarity[rarity].length === 0` (booster.js 54). -/
def bucketEmpty (pool : List Card) (rarity : String) : Bool :=
  match byRarity pool rarity with
  | none => true
  | some b => b.length == 0

/-- The assignment in the body of the step-down loop (booster.js 55-57). -/
def downgrade (rarity : String) : String :=
  if rarity = "legendary" then "epic"
  else if rarity = "epic" then "rare"
  else "common"

/-- The `while (tries < 10 && ...)` loop (booster.js 53-59). `fuel` is `10 - tries`, so
`tries < 10` is `fuel ≠ 0`; the result is the final `rarity` and the final `tries`. -/
def stepDown (pool : List Card) : Nat → String → Nat → String × Nat
  | 0, rarity, tries => (rarity, tries)
  | fuel + 1, rarity, tries =>
    if bucketEmpty pool rarity then stepDown pool fuel (downgrade rarity) (tries + 1)
    else (rarity, tries)

/-- The array handed to `pickRandom` on booster.js 61:
`byRarity[rarity] && byRarity[rarity].length ? byRarity[rarity] : pool`. -/
def resolveBucket (pool : List Card) (rarity : String) : List Card :=
  match byRarity pool rarity with
  | none => pool
  | some b => if b.length ≠ 0 then b else pool

/-- One iteration of the `for` loop (booster.js 50-62) from an already sampled tier:
the step-down loop, then `pickRandom`. -/
def drawFromTier (pool : List Card) (tier : String) (r : ℚ) : Option Card :=
  pickRandom (resolveBucket pool (stepDown pool 10 tier 0).1) r

/-- One iteration of the `for` loop (booster.js 50-62): `r1` is the random value read by
`rollRarity`, `r2` the one read by `pickRandom`. -/
def drawOne (pool : List Card) (odds : Odds) (r1 r2 : ℚ) : Option Card :=
  drawFromTier pool (rollRarity odds r1) r2

/-- The `for (let i = 0; i < count; i++)` loop (booster.js 49-63); each iteration reads two
random values, so the stream position advances by two. -/
def drawLoop (pool : List Card) (odds : Odds) (rnd : Nat → ℚ) : Nat → Nat → List (Option Card)
  | 0, _ => []
  | n + 1, pos => drawOne pool odds (rnd pos) (rnd (pos + 1)) :: drawLoop pool odds rnd n (pos + 2)

/-- The filter on booster.js 24. -/
def basePool (catalog : List Card) (boosterId : String) : List Card :=
  catalog.filter (fun c => decide (c.booster = some boosterId))

/-- The predicate of the filter on booster.js 33: `allowNames.includes(c.name)`; a card
without a name is not included by an array of strings. -/
def allowedBy (names : List String) (c : Card) : Bool :=
  match c.name with
  | none => false
  | some n => names.contains n

/-- The pool after the optional name filter (booster.js 31-39). `allowNames` is `none` when
the argument is not an array. -/
def selectPool (base : List Card) (allowNames : Option (List String)) : List Card :=
  match allowNames with
  | none => base
  | some names =>
    if names.length > 0 then
      if (base.filter (allowedBy names)).length = 0 then base
      else base.filter (allowedBy names)
    else base

/-- Source `openBooster(count, boosterId, odds, allowNames)` (booster.js 23-66). An element
`none` of the result is an `undefined` pushed to `out`. -/
def openBooster (catalog : List Card) (rnd : Nat → ℚ) (count : Nat) (boosterId : String)
    (odds : Odds) (allowNames : Option (List String)) : List (Option Card) :=
  let base := basePool catalog boosterId
  if base.length = 0 then []
  else drawLoop (selectPool base allowNames) odds rnd count 0

/-- The value `rarityRank(r)` returns: a number of the table or the default 1, or, for a name
of `objectPrototypeKeys`, the member the object literal inherits from `Object.prototype`. -/
inductive RankValue
  | number (n : Nat)
  | inherited (key : String)
deriving DecidableEq, Repr

/-- The relation `a <= b` of JavaScript on rank values: the order of the numbers; false when
a side is an inherited member, which converts to NaN. -/
instance : LE RankValue :=
  ⟨fun a b =>
    match a, b with
    | RankValue.number m, RankValue.number n => m ≤ n
    | _, _ => False⟩

/-- The relation `a < b` of JavaScript on rank values: the order of the numbers; false when a
side is an inherited member, which converts to NaN. -/
instance : LT RankValue :=
  ⟨fun a b =>
    match a, b with
    | RankValue.number m, RankValue.number n => m < n
    | _, _ => False⟩

/-- The conversion of a rank value to a number that `-` makes: an inherited member is NaN. -/
def RankValue.toNumber : RankValue → Dbl
  | .number n => Dbl.fin (n : ℚ)
  | .inherited _ => Dbl.nan

/-- Source `rarityRank(r)` (main.js 201-203): `{ common: 1, rare: 2, epic: 3, legendary: 4 }[r]
?? 1`. The read finds the four own keys, then the members of `Object.prototype`, none of which
is `null`; every other name reads `undefined` and ranks 1. -/
def rarityRank (r : String) : RankValue :=
  if r = "common" then RankValue.number 1
  else if r = "rare" then RankValue.number 2
  else if r = "epic" then RankValue.number 3
  else if r = "legendary" then RankValue.number 4
  else if r ∈ objectPrototypeKeys then RankValue.inherited r
  else RankValue.number 1

/-- The four tiers, the keys of `byRarity` and the values `rollRarity` can return. -/
def tiers : List String := ["common", "rare", "epic", "legendary"]

/-- The random stream respects the contract of `Math.random()`: values in `[0, 1)`. -/
def UnitStream (rnd : Nat → ℚ) : Prop := ∀ i, 0 ≤ rnd i ∧ rnd i < 1

/-! ## `main.js`: the collection ledger

The ledger is the object `loadCollection()` returns and `saveCollection(col)` stores: a mapping
from identity to entry, kept as the list of its own properties (key/entry pairs) in the order
of enumeration. Its prototype is `Object.prototype` in the state the engine starts it in, so a
property read also finds the members of `objectPrototypeKeys`, and enumeration finds own
properties only. Counts are numbers (the precondition of the ledger claims). -/

/-- A ledger entry `{ id, name, image, rarity, count }`. Entries read back from storage may
lack `name`, `image` or `rarity`, which the code reads through `??`. -/
structure Entry where
  id : String
  name : Option String
  image : Option String
  rarity : Option String
  count : Dbl
deriving DecidableEq, Repr

/-- The ledger object: its own properties, key/entry pairs in the order of enumeration. -/
abbrev Collection := List (String × Entry)

/-- The own property `id` of the ledger object; `none` when it has no such own property. -/
def ownEntry : Collection → String → Option Entry
  | [], _ => none
  | (k, e) :: rest, id => if k = id then some e else ownEntry rest id

/-- What a property read on the ledger object finds: an own entry, a member inherited from
`Object.prototype` (a function, or for `__proto__` the prototype object), or `undefined`. -/
inductive Found
  | own (e : Entry)
  | inherited
  | undefined
deriving DecidableEq, Repr

/-- The property read `col[id]` (main.js 163 and 166): an own property first, then the
prototype. -/
def lookup (col : Collection) (id : String) : Found :=
  match ownEntry col id with
  | some e => Found.own e
  | none => if id ∈ objectPrototypeKeys then Found.inherited else Found.undefined

/-- The value `count + 1` of the update `count += 1`: an addition of doubles. -/
def increment (count : Dbl) : Dbl :=
  Dbl.add count (Dbl.fin 1)

/-- The update `col[id].count += 1` on the entry stored under the own key `id`
(main.js 166). -/
def bump : Collection → String → Collection
  | [], _ => []
  | (k, e) :: rest, id =>
    if k = id then (k, { e with count := increment e.count }) :: rest
    else (k, e) :: bump rest id

/-- The identity computed on main.js 162: ``c.id ?? `${c.name ?? "card"}|${c.image ?? ""}` ``. -/
def cardId (c : Card) : String :=
  c.id.getD (c.name.getD "card" ++ "|" ++ c.image.getD "")

/-- The entry created on main.js 164 for an identity that `col[id]` does not find. -/
def newEntry (c : Card) : Entry :=
  { id := cardId c, name := some (c.name.getD "Sans nom"), image := some (c.image.getD ""),
    rarity := some (c.rarity.getD "common"), count := Dbl.fin 0 }

/-- The body of the `for (const c of cardsPulled)` loop (main.js 162-166). When `col[id]` is
`undefined` the entry is created and then counted. When it is an own entry, that entry is
counted. When it is a member inherited from `Object.prototype`, the test `!col[id]` fails
because the member is an object, and line 166 writes `count` on that member: the ledger gets
no property. (For the id `__proto__` the member written to is `Object.prototype` itself; the
property `count` it gets is then seen by every later enumeration, which `computeStats` below
does not describe.) -/
def addCard (col : Collection) (c : Card) : Collection :=
  match lookup col (cardId c) with
  | Found.undefined => bump (col ++ [(cardId c, newEntry c)]) (cardId c)
  | Found.own _ => bump col (cardId c)
  | Found.inherited => col

/-- Source `addToCollection(cardsPulled)` (main.js 159-170) as a function from the ledger that
`loadCollection()` returned to the ledger handed to `saveCollection`. -/
def addToCollection (col : Collection) (cardsPulled : List Card) : Collection :=
  cardsPulled.foldl addCard col

/-- A value stored in the object `by` of `computeStats`: a number, or the string that `+=`
makes of an inherited member and a count. -/
inductive StatValue
  | num (n : Dbl)
  | text
deriving DecidableEq, Repr

/-- The result `{ total, by }` of `computeStats`; `by` is an object, kept as its own
properties. -/
structure Stats where
  total : Dbl
  by_ : List (String × StatValue)
deriving DecidableEq, Repr

/-- The own property `r` of `by`. -/
def byGet : List (String × StatValue) → String → Option StatValue
  | [], _ => none
  | (k, v) :: rest, r => if k = r then some v else byGet rest r

/-- The value `v + n` for a stored value `v` and a count `n`: a sum of doubles, or again a
string. -/
def StatValue.plus : StatValue → Dbl → StatValue
  | .num v, n => .num (Dbl.add v n)
  | .text, _ => .text

/-- The update `by[r] += n` on an own key. -/
def byBump : List (String × StatValue) → String → Dbl → List (String × StatValue)
  | [], _, _ => []
  | (k, v) :: rest, r, n =>
    if k = r then (k, StatValue.plus v n) :: rest else (k, v) :: byBump rest r n

/-- The two statements `if (by[r] == null) by[r] = 0; by[r] += item.count;` (main.js 178-179).
When `r` is not an own key and names a member of `Object.prototype`, `by[r]` is not `null`:
the sum of the member and the count is a string, which the assignment stores as an own
property, except for `__proto__`, whose setter ignores a string. -/
def byAdd (b : List (String × StatValue)) (r : String) (n : Dbl) : List (String × StatValue) :=
  match byGet b r with
  | some _ => byBump b r n
  | none =>
    if r = "__proto__" then b
    else if r ∈ objectPrototypeKeys then b ++ [(r, StatValue.text)]
    else byBump (b ++ [(r, StatValue.num (Dbl.fin 0))]) r n

/-- The body of the `for (const id in col)` loop of `computeStats` (main.js 175-179). -/
def statsStep (st : Stats) (p : String × Entry) : Stats :=
  { total := Dbl.add st.total p.2.count,
    by_ := byAdd st.by_ (p.2.rarity.getD "common") p.2.count }

/-- The initial values `total = 0` and `by = { common: 0, rare: 0, epic: 0, legendary: 0 }`
of `computeStats` (main.js 172-173). -/
def emptyStats : Stats :=
  { total := Dbl.fin 0,
    by_ := [("common", StatValue.num (Dbl.fin 0)), ("rare", StatValue.num (Dbl.fin 0)),
            ("epic", StatValue.num (Dbl.fin 0)), ("legendary", StatValue.num (Dbl.fin 0))] }

/-- Source `computeStats(col)` (main.js 171-182). -/
def computeStats (col : Collection) : Stats :=
  col.foldl statsStep emptyStats

/-- The ledger after `k` calls of `addToCollection(d)`. -/
def recordTimes (d : List Card) : Nat → Collection → Collection
  | 0, col => col
  | k + 1, col => recordTimes d k (addToCollection col d)

/-- The count stored under an identity, 0 when the ledger has no entry under it. -/
def countAt (col : Collection) (id : String) : Dbl :=
  match ownEntry col id with
  | none => Dbl.fin 0
  | some e => e.count

/-- The tier a card is recorded under: `c.rarity ?? "common"`. -/
def recordedRarity (c : Card) : String := c.rarity.getD "common"

/-- The sum of the counts of a ledger whose counts are natural numbers. -/
def ledgerTotal (col : Collection) : Nat :=
  (col.map (fun p => p.2.count.toNat)).sum

/-- The sum of the counts of the entries of a ledger whose tier (`rarity ?? "common"`) is `t`,
for counts that are natural numbers. -/
def ledgerTier (col : Collection) (t : String) : Nat :=
  ((col.filter (fun p => decide (p.2.rarity.getD "common" = t))).map
    (fun p => p.2.count.toNat)).sum

/-- Every count of the ledger is a natural number. -/
def NatCounts (col : Collection) : Prop :=
  ∀ p ∈ col, p.2.count = Dbl.fin (p.2.count.toNat : ℚ)

/-- The number of cards of a draw result with identity `id`. -/
def occurrences (d : List Card) (id : String) : Nat :=
  d.countP (fun c => decide (cardId c = id))

/-- The number of cards of a draw result recorded under tier `t`. -/
def tierCount (d : List Card) (t : String) : Nat :=
  d.countP (fun c => decide (recordedRarity c = t))

/-- Every entry stored under the identity of a card of `d` has the tier of that card. -/
def Consistent (d : List Card) (col : Collection) : Prop :=
  ∀ c ∈ d, ∀ e, ownEntry col (cardId c) = some e → e.rarity.getD "common" = recordedRarity c

/-! ## `main.js`: the reveal sequencer

The module-level state is an explicit record. Card objects live in the global array `cards`
(every `createCard` pushes to it), and a reference to a card object is its position in that
array: `revealState.cardObjs` and the variable `current` captured by the callbacks of
`revealNextCard` are such references. A callback that has been handed to `rafTween` or to
the texture loader and has not run yet is a pending `Task`; running it is the function `fire`.
Positions, rotations and materials of the meshes are not modelled beyond the flags below. -/

/-- What the front face of a card object shows. -/
inductive Artwork
  | question
  | real
  | fallbackTint
deriving DecidableEq, Repr

/-- The object built by `createCard` (main.js 606-615), with the flags of its meshes the
sequencer writes: `group.visible`, membership of `group` in the scene, the front material,
and whether `basePos` holds the final row position. -/
structure CardObj where
  realUrl : Option String
  rarity : String
  isRevealed : Bool
  visible : Bool
  inScene : Bool
  artwork : Artwork
  settled : Bool
deriving DecidableEq, Repr

/-- A completion callback that is waiting to run; `cur` is the captured `current`. -/
inductive Task
  | flipOut (cur : Nat)
  | load (cur : Nat) (url : String)
  | flipBack (cur : Nat)
  | settle (cur : Nat)
deriving DecidableEq, Repr

/-- The card object a pending callback has captured. -/
def Task.cur : Task → Nat
  | .flipOut c => c
  | .load c _ => c
  | .flipBack c => c
  | .settle c => c

/-- An observable action the sequencer starts. -/
inductive Effect
  | tween (durationMs : Nat) (cur : Nat)
  | loadStart (url : String)
  | sfx (cue : String)
  | warn (cur : Nat)
  | showEndButtons
deriving DecidableEq, Repr

/-- The module-level state of `main.js` that the reveal code reads and writes: the five
fields of `revealState`, the array `cards`, `textureCache`, the `hidden` class of the end
buttons, the pending callbacks and the trace of started actions. -/
structure State where
  active : Bool
  index : Nat
  drawn : List Card
  cardObjs : List Nat
  isRevealing : Bool
  cards : List CardObj
  textureCache : List String
  endActionsHidden : Bool
  pending : List Task
  log : List Effect
deriving DecidableEq, Repr

/-- The state at page load: `revealState` as initialised on main.js 118-124, nothing created,
nothing pending. -/
def State.idle : State :=
  { active := false, index := 0, drawn := [], cardObjs := [], isRevealing := false,
    cards := [], textureCache := [], endActionsHidden := true, pending := [], log := [] }

/-- Apply `f` to the element at position `r` of a list. -/
def modifyAt {α : Type} (f : α → α) : Nat → List α → List α
  | _, [] => []
  | 0, x :: xs => f x :: xs
  | r + 1, x :: xs => x :: modifyAt f r xs

/-- A write to properties of the card object referenced by `r`. -/
def State.updCard (s : State) (r : Nat) (f : CardObj → CardObj) : State :=
  { s with cards := modifyAt f r s.cards }

/-- Source `createCard(realFrontUrl, rarity = "common")` (main.js 568-619): the new object is
pushed to `cards` and its group added to the scene; the result is the new state and the
reference to the object. The two texture loads for the card back and the question mark
(main.js 578-584, 596-599) write only the materials of the new meshes and are not modelled. -/
def createCard (s : State) (realFrontUrl : Option String) (rarity : Option String) :
    State × Nat :=
  ({ s with cards := s.cards ++ [{ realUrl := realFrontUrl, rarity := rarity.getD "common",
                                   isRevealed := false, visible := true, inScene := true,
                                   artwork := Artwork.question, settled := false }] },
   s.cards.length)

/-- The body of `drawn.forEach((data, i) => ...)` (main.js 522-527). -/
def beginCard (s : State) (data : Card) (i : Nat) : State :=
  let r := createCard s data.image data.rarity
  { (r.1.updCard r.2 (fun o => { o with visible := decide (i = 0) })) with
    cardObjs := r.1.cardObjs ++ [r.2] }

/-- The `forEach` loop of main.js 522-527, from position `i`. -/
def beginLoop (s : State) : List Card → Nat → State
  | [], _ => s
  | data :: rest, i => beginLoop (beginCard s data i) rest (i + 1)

/-- The start of a reveal in the callback of `openBooster3D` (main.js 515-527): the four
assignments to `revealState`, then one card object per drawn card. -/
def beginReveal (s : State) (drawn : List Card) : State :=
  beginLoop { s with active := true, index := 0, drawn := drawn, cardObjs := [] } drawn 0

/-- The loop of `clearRevealedCards` (main.js 629-638): each group leaves the scene. -/
def removeFromScene (s : State) : List Nat → State
  | [] => s
  | r :: rest => removeFromScene (s.updCard r (fun o => { o with inScene := false })) rest

/-- Source `clearRevealedCards()` (main.js 627-645). -/
def clearRevealedCards (s : State) : State :=
  { (removeFromScene s s.cardObjs) with
    active := false, index := 0, drawn := [], cardObjs := [], isRevealing := false }

/-- Source `showEndButtons()` (main.js 544-546). -/
def showEndButtons (s : State) : State :=
  { s with endActionsHidden := false, log := s.log ++ [Effect.showEndButtons] }

/-- Source `rafTween(durationMs, onUpdate, onDone)` (main.js 256-265) as the sequencer uses
it: the tween is started and `onDone` becomes a pending callback. -/
def rafTween (s : State) (durationMs : Nat) (onDone : Task) : State :=
  { s with pending := s.pending ++ [onDone],
           log := s.log ++ [Effect.tween durationMs onDone.cur] }

/-- The cue chosen on main.js 680-684. -/
def sfxFor (rarity : String) : String :=
  if rarity = "legendary" then "legendary"
  else if rarity = "epic" then "epic"
  else if rarity = "rare" then "rare"
  else "common"

/-- The rarity of the card object referenced by `cur`. -/
def State.rarityOf (s : State) (cur : Nat) : String :=
  match s.cards[cur]? with
  | none => "common"
  | some o => o.rarity

/-- Source `playSfx(audio)` (main.js 57-63) for the cue of a card. -/
def playSfx (s : State) (cue : String) : State :=
  { s with log := s.log ++ [Effect.sfx cue] }

/-- The call `console.warn("⚠️ Image manquante :", current.realUrl)` (main.js 710). -/
def warnMissing (s : State) (cur : Nat) : State :=
  { s with log := s.log ++ [Effect.warn cur] }

/-- The success callback of the load (main.js 694-706): bind the artwork, mark the card
revealed, play the cue, start the return flip. -/
def onLoad (s : State) (cur : Nat) : State :=
  rafTween
    (playSfx (s.updCard cur (fun o => { o with artwork := Artwork.real, isRevealed := true }))
      (sfxFor (s.rarityOf cur)))
    220 (Task.flipBack cur)

/-- The failure callback of the load (main.js 709-720): warn, tint the face, mark the card
revealed, start the return flip. -/
def onError (s : State) (cur : Nat) : State :=
  rafTween
    ((warnMissing s cur).updCard cur
      (fun o => { o with artwork := Artwork.fallbackTint, isRevealed := true }))
    220 (Task.flipBack cur)

/-- The statement `textureCache.set(url, tex)` (main.js 110). -/
def cacheTexture (s : State) (url : String) : State :=
  { s with textureCache := s.textureCache ++ [url] }

/-- A load is handed to `texLoader.load` (main.js 106-115); its completion is pending. -/
def startLoad (s : State) (url : String) (cur : Nat) : State :=
  { s with pending := s.pending ++ [Task.load cur url], log := s.log ++ [Effect.loadStart url] }

/-- Source `loadTextureCached(url, onLoad, onError)` (main.js 100-116) with the two
callbacks of `revealNextCard`: nothing at all for a falsy `url`, `onLoad` at once for a cached
one, otherwise a load is started and its completion is pending. -/
def loadTextureCached (s : State) (url : Option String) (cur : Nat) : State :=
  match url with
  | none => s
  | some u =>
    if u = "" then s
    else if u ∈ s.textureCache then onLoad s cur
    else startLoad s u cur

/-- The property read `current.realUrl`. -/
def State.realUrlOf (s : State) (cur : Nat) : Option String :=
  match s.cards[cur]? with
  | none => none
  | some o => o.realUrl

/-- Source `finishRevealMove()` (main.js 655-677), first part: the settle tween is started. -/
def finishRevealMove (s : State) (cur : Nat) : State :=
  rafTween s 320 (Task.settle cur)

/-- The statement `revealState.index++` (main.js 665). -/
def incrIndex (s : State) : State :=
  { s with index := s.index + 1 }

/-- The statements `const next = revealState.cardObjs[revealState.index];
if (next) next.group.visible = true;` (main.js 667-668). -/
def showNext (s : State) : State :=
  match s.cardObjs[s.index]? with
  | none => s
  | some next => s.updCard next (fun o => { o with visible := true })

/-- The statement `if (revealState.index >= revealState.cardObjs.length) showEndButtons();`
(main.js 671-673). -/
def signalEnd (s : State) : State :=
  if s.index ≥ s.cardObjs.length then showEndButtons s else s

/-- The completion callback of the settle tween (main.js 661-676): the base position is
recorded, the index incremented, the next card shown, session end signalled when the index
has reached the number of card objects, and `isRevealing` cleared. -/
def settleDone (s : State) (cur : Nat) : State :=
  { signalEnd (showNext (incrIndex (s.updCard cur (fun o => { o with settled := true })))) with
    isRevealing := false }

/-- The statement `revealState.isRevealing = true` (main.js 653). -/
def setRevealing (s : State) : State :=
  { s with isRevealing := true }

/-- Source `revealNextCard()` (main.js 647-723) up to its return: the two guards, the flag,
and the first flip tween whose completion is pending. -/
def revealNextCard (s : State) : State :=
  if !s.active || s.isRevealing then s
  else
    match s.cardObjs[s.index]? with
    | none => s
    | some current => rafTween (setRevealing s) 220 (Task.flipOut current)

/-- Run a callback: the completion of the first flip starts the load (main.js 689-721), the
completion of the load runs `onLoad` (after caching the texture, main.js 108-112) or
`onError` according to `ok`, the completion of the return flip calls `finishRevealMove`, the
completion of the settle tween runs the code of main.js 661-676. -/
def runTask (s : State) (ok : Bool) : Task → State
  | .flipOut cur => loadTextureCached s (s.realUrlOf cur) cur
  | .load cur url =>
    if ok then onLoad (cacheTexture s url) cur
    else onError s cur
  | .flipBack cur => finishRevealMove s cur
  | .settle cur => settleDone s cur

/-- The callback at position `i` leaves the pending list. -/
def dequeue (s : State) (i : Nat) : State :=
  { s with pending := s.pending.eraseIdx i }

/-- The pending callback at position `i` runs (it leaves the pending list first); `ok` is
the outcome of the load when the callback is a load completion. -/
def fire (i : Nat) (ok : Bool) (s : State) : State :=
  match s.pending[i]? with
  | none => s
  | some t => runTask (dequeue s i) ok t

/-- The reveal-mode branch of the `pointerdown` handler (main.js 766-778), taken when
`revealState.active`; `hit` is the result of the ray test on the current card. -/
def pointerdownReveal (hit : Bool) (s : State) : State :=
  if s.isRevealing then s
  else
    match s.cardObjs[s.index]? with
    | none => s
    | some current =>
      match s.cards[current]? with
      | none => s
      | some o => if hit && !o.isRevealed then revealNextCard s else s

/-- What can happen to the sequencer during a session: a call of `revealNextCard`, or the
run of a pending callback. -/
inductive Event
  | advance
  | fire (i : Nat) (ok : Bool)
deriving DecidableEq, Repr

/-- One event. -/
def step (s : State) : Event → State
  | .advance => revealNextCard s
  | .fire i ok => fire i ok s

/-- A sequence of events, in order. -/
def run (evs : List Event) (s : State) : State :=
  evs.foldl step s

/-- Fire the pending callbacks, oldest first, until none is left (at most `fuel` of them);
every load completes with outcome `ok`. -/
def drain : Nat → Bool → State → State
  | 0, _, s => s
  | fuel + 1, ok, s => if s.pending = [] then s else drain fuel ok (fire 0 ok s)

/-- An advance whose flip, load, return flip and settle all run to completion. -/
def completeAdvance (ok : Bool) (s : State) : State :=
  drain 4 ok (revealNextCard s)

/-- One complete advance per element of `oks`, the element being the outcome of its load. -/
def advances (oks : List Bool) (s : State) : State :=
  oks.foldl (fun st ok => completeAdvance ok st) s

/-- The number of times session end was signalled. -/
def endSignals (s : State) : Nat :=
  s.log.count Effect.showEndButtons

/-- The property read `image` is truthy: present and not the empty string. -/
def hasArtworkRef (c : Card) : Prop :=
  ∃ u, c.image = some u ∧ u ≠ ""

/-- At most one callback of the sequencer is pending, and a pending callback belongs to the
current item of a reveal that is flagged as in flight. -/
def OneInFlight (s : State) : Prop :=
  s.pending.length ≤ 1 ∧
  ∀ t ∈ s.pending, s.isRevealing = true ∧ s.cardObjs[s.index]? = some t.cur

/-- State `b` carries the session data of state `a`: same flags, same card objects at the
same index with the same artwork references, same number of end signals. -/
def Carried (a b : State) : Prop :=
  b.active = a.active ∧ b.cardObjs = a.cardObjs ∧ b.index = a.index ∧
  b.isRevealing = a.isRevealing ∧ (∀ x, b.realUrlOf x = a.realUrlOf x) ∧
  endSignals b = endSignals a

/-- A session that awaits an advance: active, nothing in flight, and every card object has a
truthy artwork reference. -/
def Ready (s : State) : Prop :=
  s.active = true ∧ s.isRevealing = false ∧ s.pending = [] ∧
  ∀ r ∈ s.cardObjs, ∃ u, s.realUrlOf r = some u ∧ u ≠ ""

/-- The index stays within the `n` card objects of the session, with at most one callback in
flight. -/
def Bounded (n : Nat) (s : State) : Prop :=
  s.cardObjs.length = n ∧ s.index ≤ n ∧ OneInFlight s

/-! ## `main.js`: the order of the collection grid -/

/-- The call `rarityRank(e.rarity)` of the comparator (main.js 218): an entry without a
rarity passes `undefined`, which is no key of the table and ranks 1. -/
def entryRank (e : Entry) : RankValue :=
  match e.rarity with
  | none => RankValue.number 1
  | some r => rarityRank r

/-- The comparator handed to `items.sort` (main.js 215-221); counts are numbers, so
`count ?? 0` is the count. `localeCompare` stands for the string method of the same name; it
is only used in mode `name`. The test `rr !== 0` holds for NaN. -/
def sortCompare (localeCompare : String → String → Int) (mode : String) (a b : Entry) : Dbl :=
  if mode = "name" then Dbl.fin (localeCompare (a.name.getD "") (b.name.getD "") : ℚ)
  else if mode = "count" then Dbl.sub b.count a.count
  else if Dbl.sub (entryRank b).toNumber (entryRank a).toNumber ≠ Dbl.fin 0 then
    Dbl.sub (entryRank b).toNumber (entryRank a).toNumber
  else Dbl.sub b.count a.count

/-- The method `Array.prototype.sort(cmp)`: ECMAScript requires a stable sort for a consistent
comparator, where a result `cmp(a, b) ≤ 0` keeps `a` before `b` and NaN counts as `+0`.
Insertion from the right end is such a sort; for a comparator that is not consistent the
order is left to the engine, except that two items are never exchanged on a result NaN. -/
def arraySort {α : Type} (cmp : α → α → Dbl) (items : List α) : List α :=
  items.insertionSort (fun a b => (cmp a b).keepsOrder = true)

/-- Source `renderCollection()` (main.js 205-244) as the order in which the entries are
appended to the grid: `Object.values(col)` sorted with the comparator of the mode
`sortSel?.value ?? "rarity"`. -/
def renderCollection (localeCompare : String → String → Int) (sortValue : Option String)
    (col : Collection) : List Entry :=
  arraySort (sortCompare localeCompare (sortValue.getD "rarity")) (col.map (fun p => p.2))

/-- The rank the claim gives a rarity: legendary 4, epic 3, rare 2, common or unknown 1. -/
def claimedRank (rarity : Option String) : Nat :=
  if rarity = some "legendary" then 4
  else if rarity = some "epic" then 3
  else if rarity = some "rare" then 2
  else 1

/-- An entry `a` may stand before an entry `b` in rarity mode by the claim: higher rank, or
the same rank and at least the count (`a.count < b.count` is false). -/
def RarityOrdered (a b : Entry) : Prop :=
  claimedRank a.rarity > claimedRank b.rarity ∨
    (claimedRank a.rarity = claimedRank b.rarity ∧ Dbl.lt a.count b.count = false)

/-- The rarity and the count of an entry are plain: the rarity is no name of
`Object.prototype`, the count is not NaN. -/
def PlainEntry (e : Entry) : Prop :=
  (∀ r, e.rarity = some r → r ∉ objectPrototypeKeys) ∧ e.count.NotNaN

/-- A ledger entry with the given name, rarity and count. -/
def mkEntry (name rarity : String) (count : ℚ) : Entry :=
  { id := name ++ "|", name := some name, image := some "", rarity := some rarity,
    count := Dbl.fin count }

/-! ## `main.js`: the persisted blob

The text stored under `STORAGE_KEY` is seen through what `localStorage.getItem` and
`JSON.parse` make of it. JSON arrays, and JSON objects that are not mappings of entries, are
not modelled. -/

/-- The value `JSON.parse` returns: `null`, a boolean, a number, a string, or a mapping of
entries. -/
inductive Parsed
  | null
  | bool (b : Bool)
  | num (n : ℚ)
  | str (s : String)
  | mapping (col : Collection)
deriving DecidableEq

/-- The stored text: no item under the key, a text that is not JSON, or the JSON text of a
value. -/
inductive Blob
  | absent
  | invalid
  | valid (v : Parsed)
deriving DecidableEq

/-- An exception raised by the ledger code, with the line of `main.js` that raises it. -/
inductive JsError
  | typeError (line : Nat)
deriving DecidableEq, Repr

/-- The operator `v ?? {}`: only `null` (and `undefined`) is replaced. -/
def orEmptyObject : Parsed → Parsed
  | .null => .mapping []
  | v => v

/-- Source `loadCollection()` (main.js 152-155). For an absent item `getItem` returns `null`
and `JSON.parse(null)` is `null`; for a text that is not JSON `JSON.parse` throws and the
`catch` returns `{}`. -/
def loadCollection : Blob → Parsed
  | .absent => orEmptyObject .null
  | .invalid => .mapping []
  | .valid v => orEmptyObject v

/-- The property names of `Number.prototype` (ECMAScript 2024), all functions. -/
def numberPrototypeKeys : List String :=
  ["constructor", "toExponential", "toFixed", "toLocaleString", "toPrecision", "toString",
   "valueOf"]

/-- The property names of `Boolean.prototype` (ECMAScript 2024), all functions. -/
def booleanPrototypeKeys : List String :=
  ["constructor", "toString", "valueOf"]

/-- The property names of `String.prototype` (ECMAScript 2024 with Annex B), all functions. -/
def stringPrototypeKeys : List String :=
  ["constructor", "at", "charAt", "charCodeAt", "codePointAt", "concat", "endsWith",
   "includes", "indexOf", "isWellFormed", "lastIndexOf", "localeCompare", "match", "matchAll",
   "normalize", "padEnd", "padStart", "repeat", "replace", "replaceAll", "search", "slice",
   "split", "startsWith", "substring", "toLocaleLowerCase", "toLocaleUpperCase",
   "toLowerCase", "toString", "toUpperCase", "toWellFormed", "trim", "trimEnd", "trimStart",
   "valueOf", "substr", "anchor", "big", "blink", "bold", "fixed", "fontcolor", "fontsize",
   "italics", "link", "small", "strike", "sub", "sup", "trimLeft", "trimRight"]

/-- What a property read on a primitive value finds: nothing (`undefined`), a falsy primitive
value, a truthy primitive value, or an object (a function or a prototype object) inherited
from the prototype chain. -/
inductive Member
  | undefined
  | falsy
  | truthy
  | object
deriving DecidableEq, Repr

/-- The length of a string in JavaScript: the number of its UTF-16 code units. -/
def utf16Length (s : String) : Nat :=
  (s.toList.map (fun ch => if ch.toNat < 65536 then 1 else 2)).sum

/-- The number a string of decimal digits denotes, read from the left with `acc` the value of
the digits read so far; `none` when a character is no digit. -/
def parseDigits : List Char → Nat → Option Nat
  | [], acc => some acc
  | ch :: rest, acc =>
    if ch.isDigit then parseDigits rest (acc * 10 + (ch.toNat - 48)) else none

/-- The index a property name denotes on a string: the name is the canonical numeral of a
natural number, that is `0` or decimal digits that do not start with `0`. -/
def canonicalIndex (id : String) : Option Nat :=
  match id.toList with
  | [] => none
  | ch :: rest =>
    if ch = '0' then (if rest = [] then some 0 else none) else parseDigits (ch :: rest) 0

/-- The own properties of a string: its `length`, which is falsy for the empty string, and
its code units under their index, each a string of length 1. -/
def stringOwn (s : String) (id : String) : Member :=
  if id = "length" then (if utf16Length s = 0 then Member.falsy else Member.truthy)
  else
    match canonicalIndex id with
    | none => Member.undefined
    | some i => if i < utf16Length s then Member.truthy else Member.undefined

/-- The property read `col[id]` on a primitive value: the own properties of a string, then
the prototype of the wrapper (`String.prototype`, `Number.prototype`, `Boolean.prototype`),
then `Object.prototype`. -/
def primGet (col : Parsed) (id : String) : Member :=
  match col with
  | .str s =>
    if stringOwn s id ≠ Member.undefined then stringOwn s id
    else if id ∈ stringPrototypeKeys ∨ id ∈ objectPrototypeKeys then Member.object
    else Member.undefined
  | .num _ =>
    if id ∈ numberPrototypeKeys ∨ id ∈ objectPrototypeKeys then Member.object
    else Member.undefined
  | .bool _ =>
    if id ∈ booleanPrototypeKeys ∨ id ∈ objectPrototypeKeys then Member.object
    else Member.undefined
  | _ => Member.undefined

/-- The body of the loop of `addToCollection` (main.js 162-166) on whatever `loadCollection`
returned. On a mapping it is `addCard`. On `null` the read `col[id]` raises. On a number, a
boolean or a string: when `col[id]` is `undefined` or a falsy value, the assignment
`col[id] = {...}` of line 164 raises (the file is a module, hence strict code); when it is a
truthy primitive value, the update of its `count` on line 166 raises; when it is a function
or an object inherited from a prototype, line 166 writes `count` on that member and nothing
is raised. -/
def addCardOn (col : Parsed) (c : Card) : Except JsError Parsed :=
  match col with
  | .mapping m => .ok (.mapping (addCard m c))
  | .null => .error (.typeError 163)
  | prim =>
    match primGet prim (cardId c) with
    | Member.undefined => .error (.typeError 164)
    | Member.falsy => .error (.typeError 164)
    | Member.truthy => .error (.typeError 166)
    | Member.object => .ok prim

/-- Source `addToCollection(cardsPulled)` (main.js 159-170) on whatever `loadCollection`
returned: the value handed to `saveCollection`, or the exception that ends the call. -/
def addToCollectionOn (col : Parsed) : List Card → Except JsError Parsed
  | [] => .ok col
  | c :: rest =>
    match addCardOn col c with
    | .error e => .error e
    | .ok col1 => addToCollectionOn col1 rest

/-! ## `main.js`: abort and restart of a reveal -/

/-- The five fields of `revealState` (main.js 118-124). -/
def revealFields (s : State) : Bool × Nat × List Card × List Nat × Bool :=
  (s.active, s.index, s.drawn, s.cardObjs, s.isRevealing)

/-- The card object `createCard` builds for the drawn card `data`, after the statement
`c.group.visible = i === 0` (main.js 523-525). -/
def newCardObj (data : Card) (i : Nat) : CardObj :=
  { realUrl := data.image, rarity := data.rarity.getD "common", isRevealed := false,
    visible := decide (i = 0), inScene := true, artwork := Artwork.question, settled := false }

/-! ## `main.js`: opening a booster

The orchestration around the reveal: the flags `isOpening`, `isSwitching`, `isClearing`, the
visibility of the booster mesh and of the shop, the current booster and the ledger. The
opening cinematic and the booster switch are animations whose only effect on this state is to
run their completion callback; each is a pending flag. The persisted ledger is taken to be a
mapping of entries. -/

/-- An entry of the table `BOOSTERS` (main.js 332-382). -/
structure BoosterConfig where
  id : String
  label : String
  texture : String
  odds : Odds
  pool : Option (List String)
deriving DecidableEq

/-- The module-level state around the reveal state. -/
structure Session where
  reveal : State
  isOpening : Bool
  isSwitching : Bool
  isClearing : Bool
  boosterVisible : Bool
  shopHidden : Bool
  cinematicPending : Bool
  switchPending : Bool
  currentBooster : BoosterConfig
  ledger : Collection
deriving DecidableEq

/-- The page showing the shop with booster `cfg` selected: nothing opened yet, nothing
pending, an empty ledger. -/
def Session.atShop (cfg : BoosterConfig) : Session :=
  { reveal := State.idle, isOpening := false, isSwitching := false, isClearing := false,
    boosterVisible := true, shopHidden := false, cinematicPending := false,
    switchPending := false, currentBooster := cfg, ledger := [] }

/-- Source `hideEndActions()` (main.js 548-550). -/
def hideEndActions (s : State) : State :=
  { s with endActionsHidden := true }

/-- Source `openBooster3D()` (main.js 497-531) up to its return: the guard, the flag, the
opening sound, `hideShop()` (which hides the end buttons too), `hideEndActions()`, and the
cinematic whose completion callback is pending. -/
def openBooster3D (ss : Session) : Session :=
  if ss.isOpening || ss.reveal.active then ss
  else
    { ss with isOpening := true, shopHidden := true,
              reveal := hideEndActions (hideEndActions (playSfx ss.reveal "open")),
              cinematicPending := true }

/-- The cards of a draw result when none of its elements is `undefined`. -/
def definedCards : List (Option Card) → Option (List Card)
  | [] => some []
  | none :: _ => none
  | some c :: rest => (definedCards rest).map (fun cs => c :: cs)

/-- The completion callback of the cinematic (main.js 506-530): clear the previous reveal,
hide the end buttons and the booster mesh, draw five cards, record them, start the reveal,
release `isOpening`. An `undefined` element of the draw result raises in `addToCollection`
(the read `c.id`, main.js 162). -/
def cinematicDone (catalog : List Card) (rnd : Nat → ℚ) (ss : Session) :
    Except JsError Session :=
  match definedCards (openBooster catalog rnd 5 ss.currentBooster.id ss.currentBooster.odds
      ss.currentBooster.pool) with
  | none => .error (.typeError 162)
  | some drawn =>
    .ok { ss with reveal := beginReveal (hideEndActions (clearRevealedCards ss.reveal)) drawn,
                  ledger := addToCollection ss.ledger drawn,
                  boosterVisible := false, isOpening := false, cinematicPending := false }

/-- The `pointerdown` handler (main.js 759-790): in reveal mode the branch
`pointerdownReveal`; otherwise, unless busy or the booster mesh is hidden, a hit on the
booster opens it. -/
def pointerdown (hitCard hitBooster : Bool) (ss : Session) : Session :=
  if ss.reveal.active then { ss with reveal := pointerdownReveal hitCard ss.reveal }
  else if ss.isOpening || ss.isSwitching || ss.isClearing then ss
  else if !ss.boosterVisible then ss
  else if hitBooster then openBooster3D ss
  else ss

/-- Source `switchBoosterTo(texturePath)` (main.js 453-495) up to its return: the guard and
the flag; the two tweens end in a completion callback that is pending. -/
def switchBoosterTo (ss : Session) : Session :=
  if ss.isOpening || ss.isSwitching || ss.isClearing || ss.reveal.active then ss
  else { ss with isSwitching := true, switchPending := true }

/-- The click handler of a booster button (main.js 394-405), `cfg` being
`BOOSTERS[key] ?? BOOSTERS.dragonborn`. -/
def boosterBtnClick (cfg : BoosterConfig) (ss : Session) : Session :=
  if ss.isOpening || ss.isSwitching || ss.isClearing || ss.reveal.active then ss
  else switchBoosterTo { ss with currentBooster := cfg, boosterVisible := true }

/-- The completion callback of the booster switch (main.js 486-493). -/
def switchDone (ss : Session) : Session :=
  { ss with isSwitching := false, switchPending := false }

/-- What can happen while the end buttons are hidden: a pointer press, a click on a booster
button, the run of a pending callback of the reveal, the completion of a booster switch. -/
inductive SessionEvent
  | pointerdown (hitCard hitBooster : Bool)
  | boosterBtn (cfg : BoosterConfig)
  | fire (i : Nat) (ok : Bool)
  | switchDone
deriving DecidableEq

/-- One event of the session. -/
def sessionStep (ss : Session) : SessionEvent → Session
  | .pointerdown hitCard hitBooster => pointerdown hitCard hitBooster ss
  | .boosterBtn cfg => boosterBtnClick cfg ss
  | .fire i ok => { ss with reveal := fire i ok ss.reveal }
  | .switchDone => if ss.switchPending then switchDone ss else ss

/-- A sequence of events of the session, in order. -/
def runSession (evs : List SessionEvent) (ss : Session) : Session :=
  evs.foldl sessionStep ss

/-! ## Sample data used by the concrete checks -/

/-- A card with a name, a booster, a rarity and an image, and no explicit id. -/
def mkCard (name booster rarity image : String) : Card :=
  { id := none, name := some name, booster := some booster, rarity := some rarity,
    image := some image }

/-- A small catalog: three cards of booster `abyssescourants`, one of `dragonborn`. -/
def sampleCatalog : List Card :=
  [ mkCard "Trilobite" "abyssescourants" "common" "/cards/trilobite.png",
    mkCard "Murène" "abyssescourants" "rare" "/cards/murene.png",
    mkCard "Kraken" "abyssescourants" "legendary" "/cards/kraken.png",
    mkCard "Drake" "dragonborn" "common" "/cards/drake.png" ]

/-- The odds of booster `abyssescourants` in `main.js`: the doubles the literals 0.78, 0.18,
0.035 and 0.005 denote. -/
def sampleOdds : Odds :=
  { common := some (fl (78 / 100)), rare := some (fl (18 / 100)), epic := some (fl (35 / 1000)),
    legendary := some (fl (5 / 1000)) }

/-- A constant random stream. -/
def constStream (r : ℚ) : Nat → ℚ := fun _ => r

/-- A card whose image reference is the empty string. -/
def blankImageCard : Card :=
  { id := none, name := some "Trilobite", booster := some "abyssescourants",
    rarity := some "common", image := some "" }

/-- A card without an image reference. -/
def noImageCard : Card :=
  { id := none, name := some "Trilobite", booster := some "abyssescourants",
    rarity := some "common", image := none }

/-- The state of a fresh session on the single card `c` after the player's advance
(`revealNextCard`) and the completion of the first flip tween. -/
def stalledState (c : Card) : State :=
  fire 0 true (revealNextCard (beginReveal State.idle [c]))

/-- A draw result of three commons, one rare and one epic (two of the commons are the same
card). -/
def sampleDraw : List Card :=
  [ mkCard "Trilobite" "abyssescourants" "common" "/cards/trilobite.png",
    mkCard "Murène" "abyssescourants" "rare" "/cards/murene.png",
    mkCard "Trilobite" "abyssescourants" "common" "/cards/trilobite.png",
    mkCard "Nautile" "abyssescourants" "epic" "/cards/nautile.png",
    mkCard "Oursin" "abyssescourants" "common" "/cards/oursin.png" ]

/-- A session on the sample draw in which the first card has been flipped, loaded and flipped
back, and the completion of its settle tween is pending. -/
def midSettle : State :=
  run [Event.advance, Event.fire 0 true, Event.fire 0 true, Event.fire 0 true]
    (beginReveal State.idle sampleDraw)

/-- The entry `wildlife` of `BOOSTERS` (main.js 376-381); the sample catalog has no card of
this booster. The odds are the doubles the literals 0.70, 0.22, 0.07 and 0.01 denote. -/
def wildlifeBooster : BoosterConfig :=
  { id := "wildlife", label := "WILDLIFE", texture := "/boosters/wildlife.png",
    odds := { common := some (fl (70 / 100)), rare := some (fl (22 / 100)),
              epic := some (fl (7 / 100)), legendary := some (fl (1 / 100)) },
    pool := none }

/-- The double `0.9199999999999999`, a value `Math.random()` can return. -/
def sampleRoll : ℚ := flq (9199999999999999 / 10000000000000000)

/-- A card whose explicit id is the name of a member of `Object.prototype`. -/
def inheritedIdCard : Card :=
  { id := some "toString", name := some "Trilobite", booster := some "abyssescourants",
    rarity := some "common", image := some "/cards/trilobite.png" }

/-- A ledger that holds Trilobite with the count `2^53 = 9007199254740992`. -/
def saturatedLedger : Collection :=
  [("Trilobite|/cards/trilobite.png",
    { id := "Trilobite|/cards/trilobite.png", name := some "Trilobite",
      image := some "/cards/trilobite.png", rarity := some "common",
      count := Dbl.fin 9007199254740992 })]

end Booster

/-! # Theorems -/

namespace Booster

/-! ## JavaScript numbers: rounding -/

theorem bitLog_bounds (fuel n : Nat) (hf : n < 2 ^ fuel) (hn : n ≠ 0) :
    2 ^ bitLog fuel n ≤ n ∧ n < 2 ^ (bitLog fuel n + 1) := by
  induction fuel generalizing n with
  | zero => simp at hf; exact absurd hf hn
  | succ f ih =>
    unfold bitLog
    by_cases h2 : n < 2
    · simp only [h2, if_true]
      omega
    · simp only [h2, if_false]
      have hdiv : n / 2 < 2 ^ f := by
        rw [Nat.div_lt_iff_lt_mul (by norm_num)]
        rw [pow_succ] at hf
        exact hf
      have hne : n / 2 ≠ 0 := by omega
      obtain ⟨h1, h3⟩ := ih (n / 2) hdiv hne
      constructor
      · rw [pow_succ]
        have := (Nat.le_div_iff_mul_le (by norm_num : 0 < 2)).mp h1
        exact this
      · rw [pow_succ]
        exact (Nat.div_lt_iff_lt_mul (by norm_num)).mp h3

theorem bitLog_self_bounds (n : Nat) (hn : n ≠ 0) :
    2 ^ bitLog n n ≤ n ∧ n < 2 ^ (bitLog n n + 1) :=
  bitLog_bounds n n (Nat.lt_two_pow n) hn

theorem bitLog_zero : bitLog 0 0 = 0 := rfl

theorem bitLog_self_eq (n k : Nat) (h1 : 2 ^ k ≤ n) (h2 : n < 2 ^ (k + 1)) :
    bitLog n n = k := by
  have hn : n ≠ 0 := by
    intro h0
    rw [h0] at h1
    exact absurd h1 (by simp)
  obtain ⟨b1, b2⟩ := bitLog_self_bounds n hn
  have hle : bitLog n n ≤ k := by
    by_contra hgt
    have : 2 ^ (k + 1) ≤ 2 ^ bitLog n n := Nat.pow_le_pow_right (by norm_num) (by omega)
    omega
  have hge : k ≤ bitLog n n := by
    by_contra hlt
    have : 2 ^ (bitLog n n + 1) ≤ 2 ^ k := Nat.pow_le_pow_right (by norm_num) (by omega)
    omega
  omega

theorem ratFloor_eq (x : ℚ) : Rat.floor x = ⌊x⌋ := rfl

theorem roundHalfEven_intCast (m : Int) : roundHalfEven (m : ℚ) = m := by
  unfold roundHalfEven
  simp only [ratFloor_eq, Int.floor_intCast, sub_self]
  norm_num

theorem roundHalfEven_bounds (x : ℚ) :
    ⌊x⌋ ≤ roundHalfEven x ∧ roundHalfEven x ≤ ⌊x⌋ + 1 := by
  unfold roundHalfEven
  simp only [ratFloor_eq]
  split_ifs <;> constructor <;> omega

theorem roundHalfEven_mono (x y : ℚ) (h : x ≤ y) : roundHalfEven x ≤ roundHalfEven y := by
  have hf : ⌊x⌋ ≤ ⌊y⌋ := Int.floor_mono h
  rcases lt_or_eq_of_le hf with hlt | heq
  · have h1 := (roundHalfEven_bounds x).2
    have h2 := (roundHalfEven_bounds y).1
    omega
  · unfold roundHalfEven
    simp only [ratFloor_eq, ← heq]
    split_ifs <;> first | omega | linarith

theorem roundHalfEven_le_of_le (x : ℚ) (m : Int) (h : x ≤ (m : ℚ)) : roundHalfEven x ≤ m := by
  have := roundHalfEven_mono x m h
  rwa [roundHalfEven_intCast] at this

theorem roundHalfEven_ge_of_ge (x : ℚ) (m : Int) (h : (m : ℚ) ≤ x) : m ≤ roundHalfEven x := by
  have := roundHalfEven_mono m x h
  rwa [roundHalfEven_intCast] at this

theorem ulpExp_eq_floor (N : ℚ) : ulpExp N = bitLog ⌊N⌋₊ ⌊N⌋₊ - 52 := by
  unfold ulpExp
  rw [ratFloor_eq, Int.floor_toNat]

theorem ulpExp_lt (N : ℚ) (h0 : 0 ≤ N) : N < ((2 ^ (ulpExp N + 53) : Nat) : ℚ) := by
  rw [← Nat.floor_lt h0, ulpExp_eq_floor]
  by_cases hn : ⌊N⌋₊ = 0
  · rw [hn]
    exact Nat.pow_pos (by norm_num)
  · have hb := (bitLog_self_bounds ⌊N⌋₊ hn).2
    have : 2 ^ (bitLog ⌊N⌋₊ ⌊N⌋₊ + 1) ≤ 2 ^ (bitLog ⌊N⌋₊ ⌊N⌋₊ - 52 + 53) :=
      Nat.pow_le_pow_right (by norm_num) (by omega)
    omega

theorem ulpExp_ge (N : ℚ) (h0 : 0 ≤ N) (h1 : 1 ≤ ulpExp N) :
    ((2 ^ (ulpExp N + 52) : Nat) : ℚ) ≤ N := by
  have hn : ⌊N⌋₊ ≠ 0 := by
    intro h
    rw [ulpExp_eq_floor, h, bitLog_zero] at h1
    omega
  have hb := (bitLog_self_bounds ⌊N⌋₊ hn).1
  have he : ulpExp N + 52 = bitLog ⌊N⌋₊ ⌊N⌋₊ := by
    rw [ulpExp_eq_floor] at h1 ⊢
    omega
  rw [he]
  calc ((2 ^ bitLog ⌊N⌋₊ ⌊N⌋₊ : Nat) : ℚ) ≤ (⌊N⌋₊ : ℚ) := by exact_mod_cast hb
    _ ≤ N := Nat.floor_le h0

theorem ulpExp_unique (N : ℚ) (e : Nat) (h1 : ((2 ^ (e + 52) : Nat) : ℚ) ≤ N)
    (h2 : N < ((2 ^ (e + 53) : Nat) : ℚ)) : ulpExp N = e := by
  have h0 : 0 ≤ N := le_trans (Nat.cast_nonneg _) h1
  have a1 : 2 ^ (e + 52) ≤ ⌊N⌋₊ := Nat.le_floor h1
  have a2 : ⌊N⌋₊ < 2 ^ (e + 53) := (Nat.floor_lt h0).mpr h2
  rw [ulpExp_eq_floor, bitLog_self_eq ⌊N⌋₊ (e + 52) a1 a2]
  omega

theorem ulpExp_small (N : ℚ) (h0 : 0 ≤ N) (h2 : N < ((2 ^ 53 : Nat) : ℚ)) : ulpExp N = 0 := by
  have a2 : ⌊N⌋₊ < 2 ^ 53 := (Nat.floor_lt h0).mpr h2
  rw [ulpExp_eq_floor]
  by_cases hn : ⌊N⌋₊ = 0
  · rw [hn, bitLog_zero]
  · have hb := (bitLog_self_bounds ⌊N⌋₊ hn).1
    have : bitLog ⌊N⌋₊ ⌊N⌋₊ < 53 := by
      by_contra hge
      have : 2 ^ 53 ≤ 2 ^ bitLog ⌊N⌋₊ ⌊N⌋₊ := Nat.pow_le_pow_right (by norm_num) (by omega)
      omega
    omega

theorem ulpExp_mono (N M : ℚ) (h0 : 0 ≤ N) (h : N ≤ M) : ulpExp N ≤ ulpExp M := by
  by_contra hlt
  have h1 : 1 ≤ ulpExp N := by omega
  have a := ulpExp_ge N h0 h1
  have b := ulpExp_lt M (le_trans h0 h)
  have c : ((2 ^ (ulpExp M + 53) : Nat) : ℚ) ≤ ((2 ^ (ulpExp N + 52) : Nat) : ℚ) := by
    exact_mod_cast Nat.pow_le_pow_right (by norm_num) (by omega)
  linarith

theorem twoPow_pos (e : Nat) : (0 : ℚ) < ((2 ^ e : Nat) : ℚ) := by
  exact_mod_cast Nat.pow_pos (by norm_num)

theorem gridRound_fixed (e : Nat) (m : Int) :
    gridRound e ((m : ℚ) * ((2 ^ e : Nat) : ℚ)) = m * ((2 ^ e : Nat) : Int) := by
  unfold gridRound
  rw [mul_div_assoc, div_self (ne_of_gt (twoPow_pos e)), mul_one, roundHalfEven_intCast]

theorem gridRound_mono (e : Nat) (N M : ℚ) (h : N ≤ M) : gridRound e N ≤ gridRound e M := by
  unfold gridRound
  apply Int.mul_le_mul_of_nonneg_right
  · apply roundHalfEven_mono
    exact div_le_div_of_nonneg_right h (le_of_lt (twoPow_pos e))
  · exact Int.ofNat_nonneg _

theorem gridRound_le (e : Nat) (N : ℚ) (m : Int) (h : N ≤ (m : ℚ) * ((2 ^ e : Nat) : ℚ)) :
    gridRound e N ≤ m * ((2 ^ e : Nat) : Int) := by
  have := gridRound_mono e _ _ h
  rwa [gridRound_fixed] at this

theorem gridRound_ge (e : Nat) (N : ℚ) (m : Int) (h : (m : ℚ) * ((2 ^ e : Nat) : ℚ) ≤ N) :
    m * ((2 ^ e : Nat) : Int) ≤ gridRound e N := by
  have := gridRound_mono e _ _ h
  rwa [gridRound_fixed] at this

theorem roundUnits_le (N : ℚ) (h0 : 0 ≤ N) :
    roundUnits N ≤ ((2 ^ (ulpExp N + 53) : Nat) : Int) := by
  have h := gridRound_le (ulpExp N) N ((2 ^ 53 : Nat) : Int) (by
    have := ulpExp_lt N h0
    rw [pow_add, mul_comm] at this
    push_cast at this ⊢
    exact le_of_lt this)
  unfold roundUnits
  rw [pow_add, mul_comm]
  push_cast at h ⊢
  exact h

theorem roundUnits_ge (N : ℚ) (h0 : 0 ≤ N) (h1 : 1 ≤ ulpExp N) :
    ((2 ^ (ulpExp N + 52) : Nat) : Int) ≤ roundUnits N := by
  have h := gridRound_ge (ulpExp N) N ((2 ^ 52 : Nat) : Int) (by
    have := ulpExp_ge N h0 h1
    rw [pow_add, mul_comm] at this
    push_cast at this ⊢
    exact this)
  unfold roundUnits
  rw [pow_add, mul_comm]
  push_cast at h ⊢
  exact h

theorem roundUnits_nonneg (N : ℚ) (h0 : 0 ≤ N) : 0 ≤ roundUnits N := by
  have h := gridRound_ge (ulpExp N) N 0 (by simpa using h0)
  unfold roundUnits
  simpa using h

theorem roundUnits_mono (N M : ℚ) (h0 : 0 ≤ N) (h : N ≤ M) : roundUnits N ≤ roundUnits M := by
  have hM : 0 ≤ M := le_trans h0 h
  rcases lt_or_eq_of_le (ulpExp_mono N M h0 h) with hlt | heq
  · have a := roundUnits_le N h0
    have b := roundUnits_ge M hM (by omega)
    have c : ((2 ^ (ulpExp N + 53) : Nat) : Int) ≤ ((2 ^ (ulpExp M + 52) : Nat) : Int) := by
      exact_mod_cast Nat.pow_le_pow_right (by norm_num) (by omega)
    omega
  · unfold roundUnits
    rw [heq]
    exact gridRound_mono _ _ _ h

theorem grid_of_small_mantissa (m k e : Nat) (hm : m ≤ 2 ^ 53)
    (he : 1 ≤ e → 2 ^ (e + 52) ≤ m * 2 ^ k) : ∃ n : Nat, m * 2 ^ k = n * 2 ^ e := by
  by_cases hek : e ≤ k
  · refine ⟨m * 2 ^ (k - e), ?_⟩
    rw [mul_assoc, ← pow_add, Nat.sub_add_cancel hek]
  · have h1 : 1 ≤ e := by omega
    have h2 := he h1
    have h3 : m * 2 ^ k ≤ 2 ^ 53 * 2 ^ k := Nat.mul_le_mul_right _ hm
    have h4 : 2 ^ (e + 52) ≤ 2 ^ (53 + k) := by
      rw [pow_add 2 53 k]
      exact le_trans h2 h3
    have h5 : e + 52 ≤ 53 + k := (Nat.pow_le_pow_iff_right (by norm_num)).mp h4
    have h6 : e = k + 1 := by omega
    subst h6
    have h7 : 2 ^ 53 * 2 ^ k ≤ m * 2 ^ k := by
      have : 2 ^ (k + 1 + 52) = 2 ^ 53 * 2 ^ k := by
        rw [← pow_add]
        congr 1
        omega
      rw [this] at h2
      exact h2
    have h8 : 2 ^ 53 ≤ m := Nat.le_of_mul_le_mul_right h7 (Nat.pow_pos (by norm_num))
    have h9 : m = 2 ^ 53 := le_antisymm hm h8
    refine ⟨2 ^ 52, ?_⟩
    rw [h9, ← pow_add, ← pow_add]
    congr 1
    omega

theorem roundUnits_exact (m k : Nat) (hm : m ≤ 2 ^ 53) :
    roundUnits ((m * 2 ^ k : Nat) : ℚ) = ((m * 2 ^ k : Nat) : Int) := by
  have h0 : (0 : ℚ) ≤ ((m * 2 ^ k : Nat) : ℚ) := Nat.cast_nonneg _
  obtain ⟨n, hn⟩ := grid_of_small_mantissa m k (ulpExp ((m * 2 ^ k : Nat) : ℚ)) hm (by
    intro h1
    have := ulpExp_ge _ h0 h1
    exact_mod_cast this)
  unfold roundUnits
  generalize ulpExp ((m * 2 ^ k : Nat) : ℚ) = e at hn
  rw [hn]
  have := gridRound_fixed e (n : Int)
  push_cast at this ⊢
  exact this

theorem roundUnits_idem (N : ℚ) (h0 : 0 ≤ N) :
    roundUnits ((roundUnits N : Int) : ℚ) = roundUnits N := by
  have hnn : 0 ≤ roundHalfEven (N / ((2 ^ ulpExp N : Nat) : ℚ)) :=
    roundHalfEven_ge_of_ge _ 0 (by
      simpa using div_nonneg h0 (le_of_lt (twoPow_pos (ulpExp N))))
  have hle : roundHalfEven (N / ((2 ^ ulpExp N : Nat) : ℚ)) ≤ ((2 ^ 53 : Nat) : Int) :=
    roundHalfEven_le_of_le _ _ (by
      rw [div_le_iff₀ (twoPow_pos (ulpExp N))]
      have := ulpExp_lt N h0
      rw [pow_add, mul_comm] at this
      push_cast at this ⊢
      exact le_of_lt this)
  obtain ⟨m, hm⟩ := Int.eq_ofNat_of_zero_le hnn
  have hm53 : m ≤ 2 ^ 53 := by
    rw [hm] at hle
    exact_mod_cast hle
  have hru : roundUnits N = ((m * 2 ^ ulpExp N : Nat) : Int) := by
    unfold roundUnits gridRound
    rw [hm]
    push_cast
    rfl
  rw [hru]
  have := roundUnits_exact m (ulpExp N) hm53
  exact_mod_cast this

theorem unitsInOne_pos : (0 : ℚ) < (unitsInOne : ℚ) := twoPow_pos 1074

theorem flq_of_nonneg (x : ℚ) (h : 0 ≤ x) :
    flq x = (roundUnits (x * (unitsInOne : ℚ)) : ℚ) / (unitsInOne : ℚ) := by
  unfold flq
  rw [if_pos h]

theorem flq_zero : flq 0 = 0 := by
  rw [flq_of_nonneg 0 (le_refl _), zero_mul]
  have := roundUnits_exact 0 0 (by norm_num)
  simp only [zero_mul, Nat.cast_zero] at this
  rw [this]
  simp

theorem flq_neg (x : ℚ) : flq (-x) = -flq x := by
  rcases lt_trichotomy x 0 with h | h | h
  · have h1 : 0 ≤ -x := by linarith
    have h2 : ¬ 0 ≤ x := by linarith
    unfold flq
    rw [if_pos h1, if_neg h2]
    ring
  · rw [h]
    simp [flq_zero]
  · have h1 : ¬ 0 ≤ -x := by linarith
    have h2 : 0 ≤ x := by linarith
    unfold flq
    rw [if_neg h1, if_pos h2]
    simp

theorem flq_nonneg (x : ℚ) (h : 0 ≤ x) : 0 ≤ flq x := by
  rw [flq_of_nonneg x h]
  apply div_nonneg
  · exact_mod_cast roundUnits_nonneg _ (mul_nonneg h (le_of_lt unitsInOne_pos))
  · exact le_of_lt unitsInOne_pos

theorem flq_mono_nonneg (x y : ℚ) (h0 : 0 ≤ x) (h : x ≤ y) : flq x ≤ flq y := by
  rw [flq_of_nonneg x h0, flq_of_nonneg y (le_trans h0 h)]
  apply div_le_div_of_nonneg_right _ (le_of_lt unitsInOne_pos)
  exact_mod_cast roundUnits_mono _ _ (mul_nonneg h0 (le_of_lt unitsInOne_pos))
    (mul_le_mul_of_nonneg_right h (le_of_lt unitsInOne_pos))

theorem flq_mono (x y : ℚ) (h : x ≤ y) : flq x ≤ flq y := by
  by_cases hx : 0 ≤ x
  · exact flq_mono_nonneg x y hx h
  · by_cases hy : 0 ≤ y
    · have h1 : 0 ≤ flq (-x) := flq_nonneg (-x) (by linarith)
      rw [flq_neg] at h1
      have h2 := flq_nonneg y hy
      linarith
    · have h1 := flq_mono_nonneg (-y) (-x) (by linarith) (by linarith)
      rw [flq_neg, flq_neg] at h1
      linarith

theorem flq_idem (x : ℚ) : flq (flq x) = flq x := by
  have key : ∀ y : ℚ, 0 ≤ y → flq (flq y) = flq y := by
    intro y hy
    have h1 := flq_nonneg y hy
    rw [flq_of_nonneg (flq y) h1]
    rw [flq_of_nonneg y hy]
    rw [div_mul_cancel₀ _ (ne_of_gt unitsInOne_pos)]
    rw [roundUnits_idem _ (mul_nonneg hy (le_of_lt unitsInOne_pos))]
  by_cases hx : 0 ≤ x
  · exact key x hx
  · have := key (-x) (by linarith)
    rw [flq_neg, flq_neg] at this
    linarith

theorem flq_natCast (n : Nat) (h : n ≤ 2 ^ 53) : flq (n : ℚ) = (n : ℚ) := by
  rw [flq_of_nonneg _ (Nat.cast_nonneg n)]
  have h1 := roundUnits_exact n 1074 h
  have e : ((n : ℚ) * (unitsInOne : ℚ)) = ((n * 2 ^ 1074 : Nat) : ℚ) := by
    rw [Nat.cast_mul]
    rfl
  rw [e, h1]
  have e2 : (((n * 2 ^ 1074 : Nat) : Int) : ℚ) = (n : ℚ) * (unitsInOne : ℚ) := by
    rw [Int.cast_natCast, Nat.cast_mul]
    rfl
  rw [e2, mul_div_assoc, div_self (ne_of_gt unitsInOne_pos), mul_one]

theorem flq_unit : flq (1 / (unitsInOne : ℚ)) = 1 / (unitsInOne : ℚ) := by
  rw [flq_of_nonneg _ (le_of_lt (div_pos one_pos unitsInOne_pos))]
  have := roundUnits_exact 1 0 (by norm_num)
  rw [div_mul_cancel₀ _ (ne_of_gt unitsInOne_pos)]
  simp only [pow_zero, mul_one, Nat.cast_one] at this
  rw [this]
  simp

theorem flq_units_int (x : ℚ) (h : flq x = x) :
    ∃ z : Int, x * (unitsInOne : ℚ) = (z : ℚ) := by
  by_cases hx : 0 ≤ x
  · rw [flq_of_nonneg x hx] at h
    refine ⟨roundUnits (x * (unitsInOne : ℚ)), ?_⟩
    rw [div_eq_iff (ne_of_gt unitsInOne_pos)] at h
    exact h.symm
  · have h1 : 0 ≤ -x := by linarith
    have h2 : flq (-x) = -x := by rw [flq_neg, h]
    rw [flq_of_nonneg (-x) h1] at h2
    refine ⟨-roundUnits (-x * (unitsInOne : ℚ)), ?_⟩
    rw [div_eq_iff (ne_of_gt unitsInOne_pos)] at h2
    push_cast
    linarith

theorem overflowBound_pos : (0 : ℚ) < (overflowBound : ℚ) := twoPow_pos 1024

theorem fl_of_isDouble (q : ℚ) (h : IsDouble q) : fl q = Dbl.fin q := by
  obtain ⟨h1, h2, h3⟩ := h
  unfold fl
  rw [h1, if_neg (not_le.mpr h3), if_neg (not_le.mpr h2)]

theorem fl_of_nonneg (x : ℚ) (h : 0 ≤ x) : fl x = Dbl.posInf ∨ fl x = Dbl.fin (flq x) := by
  unfold fl
  have h1 := flq_nonneg x h
  have h2 := overflowBound_pos
  split_ifs with a b
  · left; rfl
  · linarith
  · right; rfl

theorem fl_natCast (n : Nat) (h : n ≤ 2 ^ 53) : fl (n : ℚ) = Dbl.fin (n : ℚ) := by
  apply fl_of_isDouble
  have hb : ((2 ^ 53 : Nat) : ℚ) < (overflowBound : ℚ) := by
    unfold overflowBound
    exact_mod_cast Nat.pow_lt_pow_right (by norm_num) (by norm_num)
  have hn : (n : ℚ) ≤ ((2 ^ 53 : Nat) : ℚ) := by exact_mod_cast h
  have h0 : (0 : ℚ) ≤ (n : ℚ) := Nat.cast_nonneg n
  exact ⟨flq_natCast n h, by linarith [overflowBound_pos], by linarith⟩

theorem Dbl.add_fin (a b : ℚ) : Dbl.add (Dbl.fin a) (Dbl.fin b) = fl (a + b) := rfl

theorem Dbl.add_swap (a b : Dbl) : Dbl.add a b = Dbl.add b a := by
  cases a <;> cases b <;> first | rfl | (simp only [Dbl.add_fin, add_comm])

theorem Dbl.add_natCast (m n : Nat) (h : m + n ≤ 2 ^ 53) :
    Dbl.add (Dbl.fin (m : ℚ)) (Dbl.fin (n : ℚ)) = Dbl.fin ((m + n : Nat) : ℚ) := by
  rw [Dbl.add_fin, ← Nat.cast_add]
  exact fl_natCast (m + n) h

theorem Dbl.nonneg_fl (x : ℚ) (h : 0 ≤ x) : (fl x).Nonneg := by
  rcases fl_of_nonneg x h with e | e
  · rw [e]
    trivial
  · rw [e]
    exact ⟨flq_nonneg x h, flq_idem x⟩

theorem Dbl.nonneg_add (a b : Dbl) (ha : a.Nonneg) (hb : b.Nonneg) : (Dbl.add a b).Nonneg := by
  cases a <;> cases b <;> first | exact ha.elim | exact hb.elim | trivial | skip
  rw [Dbl.add_fin]
  exact Dbl.nonneg_fl _ (add_nonneg ha.1 hb.1)

theorem Dbl.lt_add_of_lt (r : ℚ) (a b : Dbl) (ha : a.Nonneg) (hb : b.Nonneg)
    (h : Dbl.lt (Dbl.fin r) a = true) : Dbl.lt (Dbl.fin r) (Dbl.add b a) = true := by
  cases a <;> cases b <;> first | exact ha.elim | exact hb.elim | rfl | skip
  rename_i x y
  rw [Dbl.add_fin]
  have hx : r < x := by simpa [Dbl.lt] using h
  rcases fl_of_nonneg (y + x) (add_nonneg hb.1 ha.1) with e | e
  · rw [e]
    rfl
  · rw [e]
    have h1 : flq x ≤ flq (y + x) := flq_mono x (y + x) (by linarith [hb.1])
    rw [ha.2] at h1
    simp only [Dbl.lt, decide_eq_true_eq]
    linarith

/-- Sample values of the rounding: the doubles of the literals 0.1, 0.2, 0.3, 0.7 and 0.22;
the sums `0.1 + 0.2 = 0.30000000000000004` and `0.22 + 0.7 = 0.9199999999999999`;
`2^53 + 1`, which is no double; the smallest positive double and half of it; and the overflow
to `Infinity`. -/
theorem fl_samples :
    fl (1 / 10) = Dbl.fin (3602879701896397 / 36028797018963968) ∧
    fl (2 / 10) = Dbl.fin (3602879701896397 / 18014398509481984) ∧
    fl (3 / 10) = Dbl.fin (5404319552844595 / 18014398509481984) ∧
    fl (7 / 10) = Dbl.fin (3152519739159347 / 4503599627370496) ∧
    fl (22 / 100) = Dbl.fin (7926335344172073 / 36028797018963968) ∧
    Dbl.add (fl (1 / 10)) (fl (2 / 10)) = Dbl.fin (1351079888211149 / 4503599627370496) ∧
    Dbl.add (fl (22 / 100)) (fl (7 / 10)) = Dbl.fin (517913957147607 / 562949953421312) ∧
    fl (9007199254740992 + 1) = Dbl.fin 9007199254740992 ∧
    fl (9007199254740992 + 3) = Dbl.fin (9007199254740992 + 4) ∧
    fl (1 / (unitsInOne : ℚ)) = Dbl.fin (1 / (unitsInOne : ℚ)) ∧
    fl (1 / (2 * (unitsInOne : ℚ))) = Dbl.fin 0 ∧
    fl ((overflowBound : ℚ) - 1) = Dbl.posInf ∧
    Dbl.add Dbl.posInf Dbl.negInf = Dbl.nan := by
  refine ⟨by decide!, by decide!, by decide!, by decide!, by decide!, by decide!, by decide!,
    by decide!, by decide!, by decide!, by decide!, by decide!, by decide!⟩

/-! ## Draw engine: auxiliary facts -/

theorem floor_index_bounds (n : Nat) (r : ℚ) (hn : 0 < n) (h0 : 0 ≤ r) (h1 : r < 1) :
    0 ≤ Rat.floor (r * (n : ℚ)) ∧ (Rat.floor (r * (n : ℚ))).toNat < n := by
  have hn' : (0 : ℚ) < (n : ℚ) := by exact_mod_cast hn
  have hfl : Rat.floor (r * (n : ℚ)) = ⌊r * (n : ℚ)⌋ := rfl
  rw [hfl]
  have hnonneg : 0 ≤ ⌊r * (n : ℚ)⌋ := Int.floor_nonneg.mpr (mul_nonneg h0 hn'.le)
  refine ⟨hnonneg, ?_⟩
  have hlt : ⌊r * (n : ℚ)⌋ < (n : Int) := by
    rw [Int.floor_lt]
    have : r * (n : ℚ) < 1 * (n : ℚ) := mul_lt_mul_of_pos_right h1 hn'
    simpa using this
  omega

theorem pickRandom_mem {α : Type} (arr : List α) (r : ℚ) (hne : arr ≠ []) (h0 : 0 ≤ r)
    (h1 : r < 1) : ∃ a, pickRandom arr r = some a ∧ a ∈ arr := by
  have hlen : 0 < arr.length := List.length_pos.mpr hne
  obtain ⟨hnn, hlt⟩ := floor_index_bounds arr.length r hlen h0 h1
  refine ⟨arr.get ⟨_, hlt⟩, ?_, List.get_mem _ _ _⟩
  unfold pickRandom
  simp only [not_lt.mpr hnn, if_false]
  exact List.getElem?_eq_getElem hlt

theorem byRarity_subset (pool : List Card) (rarity : String) (b : List Card)
    (h : byRarity pool rarity = some b) : ∀ c ∈ b, c ∈ pool ∧ c.rarity = some rarity := by
  intro c hc
  unfold byRarity at h
  split_ifs at h with h1 h2 h3 h4 <;> simp only [Option.some.injEq] at h <;> subst h <;>
    simp only [List.mem_filter, decide_eq_true_eq] at hc
  · exact ⟨hc.1, by rw [hc.2, h1]⟩
  · exact ⟨hc.1, by rw [hc.2, h2]⟩
  · exact ⟨hc.1, by rw [hc.2, h3]⟩
  · exact ⟨hc.1, by rw [hc.2, h4]⟩

theorem resolveBucket_subset (pool : List Card) (rarity : String) :
    ∀ c ∈ resolveBucket pool rarity, c ∈ pool := by
  intro c hc
  unfold resolveBucket at hc
  split at hc
  · exact hc
  · rename_i b hb
    split_ifs at hc
    · exact (byRarity_subset pool rarity b hb c hc).1
    · exact hc

theorem resolveBucket_ne_nil (pool : List Card) (rarity : String) (hp : pool ≠ []) :
    resolveBucket pool rarity ≠ [] := by
  unfold resolveBucket
  split
  · exact hp
  · rename_i b hb
    split_ifs with hlen
    · intro hnil
      exact hlen (by rw [hnil]; rfl)
    · exact hp

theorem drawFromTier_mem (pool : List Card) (tier : String) (r : ℚ) (hp : pool ≠ [])
    (h0 : 0 ≤ r) (h1 : r < 1) : ∃ c, drawFromTier pool tier r = some c ∧ c ∈ pool := by
  obtain ⟨c, hc, hmem⟩ :=
    pickRandom_mem (resolveBucket pool (stepDown pool 10 tier 0).1) r
      (resolveBucket_ne_nil pool _ hp) h0 h1
  exact ⟨c, hc, resolveBucket_subset pool _ c hmem⟩

theorem drawLoop_length (pool : List Card) (odds : Odds) (rnd : Nat → ℚ) (count pos : Nat) :
    (drawLoop pool odds rnd count pos).length = count := by
  induction count generalizing pos with
  | zero => rfl
  | succ n ih => simp [drawLoop, ih]

theorem drawLoop_mem (pool : List Card) (odds : Odds) (rnd : Nat → ℚ) (hp : pool ≠ [])
    (hr : UnitStream rnd) (count pos : Nat) :
    ∀ x ∈ drawLoop pool odds rnd count pos, ∃ c, x = some c ∧ c ∈ pool := by
  induction count generalizing pos with
  | zero => intro x hx; simp [drawLoop] at hx
  | succ n ih =>
    intro x hx
    simp only [drawLoop, List.mem_cons] at hx
    rcases hx with hx | hx
    · obtain ⟨c, hc, hmem⟩ :=
        drawFromTier_mem pool (rollRarity odds (rnd pos)) (rnd (pos + 1)) hp
          (hr (pos + 1)).1 (hr (pos + 1)).2
      exact ⟨c, by rw [hx]; exact hc, hmem⟩
    · exact ih (pos + 2) x hx

theorem basePool_ne_nil_iff (catalog : List Card) (boosterId : String) :
    basePool catalog boosterId ≠ [] ↔ ∃ c ∈ catalog, c.booster = some boosterId := by
  unfold basePool
  constructor
  · intro h
    obtain ⟨c, hc⟩ := List.exists_mem_of_ne_nil _ h
    simp only [List.mem_filter, decide_eq_true_eq] at hc
    exact ⟨c, hc.1, hc.2⟩
  · rintro ⟨c, hc, hb⟩ hnil
    have : c ∈ catalog.filter (fun c => decide (c.booster = some boosterId)) := by
      simp only [List.mem_filter, decide_eq_true_eq]
      exact ⟨hc, hb⟩
    rw [hnil] at this
    simp at this

theorem selectPool_subset (base : List Card) (allowNames : Option (List String)) :
    ∀ c ∈ selectPool base allowNames, c ∈ base := by
  intro c hc
  unfold selectPool at hc
  split at hc
  · exact hc
  · split_ifs at hc
    · exact hc
    · exact (List.mem_filter.mp hc).1
    · exact hc

theorem selectPool_ne_nil (base : List Card) (allowNames : Option (List String))
    (hb : base ≠ []) : selectPool base allowNames ≠ [] := by
  unfold selectPool
  split
  · exact hb
  · split_ifs with h1 h2
    · exact hb
    · intro hnil
      exact h2 (by rw [hnil]; rfl)
    · exact hb

/-! ## Draw engine: claims C1 to C3 -/

/-- C1: for every count, booster id, odds, allowNames and random stream, `openBooster`
returns a list of exactly `count` elements when some catalog card has the requested booster,
and the empty list when none has. -/
theorem openBooster_length_count (catalog : List Card) (rnd : Nat → ℚ) (count : Nat)
    (boosterId : String) (odds : Odds) (allowNames : Option (List String)) :
    ((∃ c ∈ catalog, c.booster = some boosterId) →
        (openBooster catalog rnd count boosterId odds allowNames).length = count) ∧
    ((¬ ∃ c ∈ catalog, c.booster = some boosterId) →
        openBooster catalog rnd count boosterId odds allowNames = []) := by
  constructor
  · intro h
    have hne : basePool catalog boosterId ≠ [] := (basePool_ne_nil_iff catalog boosterId).mpr h
    have hlen : (basePool catalog boosterId).length ≠ 0 := fun h0 =>
      hne (List.length_eq_zero.mp h0)
    simp only [openBooster, hlen, if_false]
    exact drawLoop_length _ odds rnd count 0
  · intro h
    have hnil : basePool catalog boosterId = [] := by
      by_contra hne
      exact h ((basePool_ne_nil_iff catalog boosterId).mp hne)
    simp [openBooster, hnil]

/-- Witness for C1: five cards from a booster of the sample catalog, none from an unknown one. -/
theorem openBooster_length_count_witness :
    (openBooster sampleCatalog (constStream (1 / 2)) 5 "abyssescourants" sampleOdds none).length
        = 5 ∧
      openBooster sampleCatalog (constStream (1 / 2)) 5 "nowhere" sampleOdds none = [] :=
  ⟨(openBooster_length_count sampleCatalog (constStream (1 / 2)) 5 "abyssescourants"
      sampleOdds none).1 ⟨_, List.mem_cons_self _ _, rfl⟩,
   (openBooster_length_count sampleCatalog (constStream (1 / 2)) 5 "nowhere"
      sampleOdds none).2 (by decide)⟩

/-- C2: with random values in `[0,1)`, the index `floor(r * length)` of `pickRandom` is inside
every non-empty array, and every element `openBooster` returns is a defined card of the catalog
whose booster is the requested one. -/
theorem openBooster_cards_of_booster (catalog : List Card) (rnd : Nat → ℚ) (count : Nat)
    (boosterId : String) (odds : Odds) (allowNames : Option (List String))
    (hr : UnitStream rnd) :
    (∀ (arr : List Card) (r : ℚ), arr ≠ [] → 0 ≤ r → r < 1 →
        0 ≤ Rat.floor (r * (arr.length : ℚ)) ∧
        (Rat.floor (r * (arr.length : ℚ))).toNat < arr.length ∧
        ∃ c, pickRandom arr r = some c ∧ c ∈ arr) ∧
    (∀ x ∈ openBooster catalog rnd count boosterId odds allowNames,
        ∃ c, x = some c ∧ c ∈ catalog ∧ c.booster = some boosterId) := by
  constructor
  · intro arr r hne h0 h1
    obtain ⟨hnn, hlt⟩ := floor_index_bounds arr.length r (List.length_pos.mpr hne) h0 h1
    exact ⟨hnn, hlt, pickRandom_mem arr r hne h0 h1⟩
  · intro x hx
    unfold openBooster at hx
    by_cases hlen : (basePool catalog boosterId).length = 0
    · simp [hlen] at hx
    · simp only [hlen, if_false] at hx
      have hne : basePool catalog boosterId ≠ [] := fun h0 => hlen (by rw [h0]; rfl)
      obtain ⟨c, hc, hmem⟩ :=
        drawLoop_mem _ odds rnd (selectPool_ne_nil _ allowNames hne) hr count 0 x hx
      have hbase : c ∈ basePool catalog boosterId := selectPool_subset _ allowNames c hmem
      unfold basePool at hbase
      simp only [List.mem_filter, decide_eq_true_eq] at hbase
      exact ⟨c, hc, hbase.1, hbase.2⟩

/-- Witness for C2: the constant stream `1/2` is a stream of values in `[0,1)`. -/
theorem openBooster_cards_of_booster_witness :
    UnitStream (constStream (1 / 2)) ∧
      ∀ x ∈ openBooster sampleCatalog (constStream (1 / 2)) 5 "abyssescourants" sampleOdds none,
        ∃ c, x = some c ∧ c ∈ sampleCatalog ∧ c.booster = some "abyssescourants" :=
  ⟨fun _ => ⟨by norm_num [constStream], by norm_num [constStream]⟩,
   (openBooster_cards_of_booster sampleCatalog (constStream (1 / 2)) 5 "abyssescourants"
      sampleOdds none (fun _ => ⟨by norm_num [constStream], by norm_num [constStream]⟩)).2⟩

/-- C3: with a non-empty `allowNames` array, if some card of the booster has its name in the
array then every returned card has its name in the array; if no card of the booster has, the
result is exactly the one obtained without `allowNames` (same count, odds, random values). -/
theorem openBooster_allowNames (catalog : List Card) (rnd : Nat → ℚ) (count : Nat)
    (boosterId : String) (odds : Odds) (names : List String) (hnames : names ≠ []) :
    ((∃ c ∈ basePool catalog boosterId, ∃ n, c.name = some n ∧ n ∈ names) →
        UnitStream rnd →
        ∀ x ∈ openBooster catalog rnd count boosterId odds (some names),
          ∃ c n, x = some c ∧ c.booster = some boosterId ∧ c.name = some n ∧ n ∈ names) ∧
    ((¬ ∃ c ∈ basePool catalog boosterId, ∃ n, c.name = some n ∧ n ∈ names) →
        openBooster catalog rnd count boosterId odds (some names) =
          openBooster catalog rnd count boosterId odds none) := by
  have hpos : names.length > 0 := List.length_pos.mpr hnames
  have hallowed : ∀ c : Card, allowedBy names c = true ↔ ∃ n, c.name = some n ∧ n ∈ names := by
    intro c
    unfold allowedBy
    cases hn : c.name with
    | none => simp
    | some n => simp
  constructor
  · rintro ⟨c0, hc0, hn0⟩ hr x hx
    have hne : basePool catalog boosterId ≠ [] := List.ne_nil_of_mem hc0
    have hfil : c0 ∈ (basePool catalog boosterId).filter (allowedBy names) :=
      List.mem_filter.mpr ⟨hc0, (hallowed c0).mpr hn0⟩
    have hfl : ((basePool catalog boosterId).filter (allowedBy names)).length ≠ 0 := fun h0 => by
      rw [List.length_eq_zero.mp h0] at hfil
      simp at hfil
    have hsel : selectPool (basePool catalog boosterId) (some names) =
        (basePool catalog boosterId).filter (allowedBy names) := by
      simp only [selectPool, hpos, if_true, hfl, if_false]
    have hlen : (basePool catalog boosterId).length ≠ 0 := fun h0 =>
      hne (List.length_eq_zero.mp h0)
    simp only [openBooster, hlen, if_false, hsel] at hx
    obtain ⟨c, hc, hmem⟩ :=
      drawLoop_mem _ odds rnd (List.ne_nil_of_mem hfil) hr count 0 x hx
    obtain ⟨hbase, hal⟩ := List.mem_filter.mp hmem
    obtain ⟨n, hn, hnm⟩ := (hallowed c).mp hal
    unfold basePool at hbase
    simp only [List.mem_filter, decide_eq_true_eq] at hbase
    exact ⟨c, n, hc, hbase.2, hn, hnm⟩
  · intro hnone
    have hfil : (basePool catalog boosterId).filter (allowedBy names) = [] := by
      rw [List.filter_eq_nil_iff]
      intro c hc hal
      exact hnone ⟨c, hc, (hallowed c).mp hal⟩
    have hsel : selectPool (basePool catalog boosterId) (some names) =
        selectPool (basePool catalog boosterId) none := by
      simp [selectPool, hfil]
    simp only [openBooster, hsel]

/-- Witness for C3: `allowNames = ["Nonexistent"]` on booster `abyssescourants` gives the
same five cards as no `allowNames`. -/
theorem openBooster_allowNames_witness :
    openBooster sampleCatalog (constStream (1 / 2)) 5 "abyssescourants" sampleOdds
        (some ["Nonexistent"]) =
      openBooster sampleCatalog (constStream (1 / 2)) 5 "abyssescourants" sampleOdds none ∧
    (openBooster sampleCatalog (constStream (1 / 2)) 5 "abyssescourants" sampleOdds
        (some ["Nonexistent"])).length = 5 :=
  ⟨(openBooster_allowNames sampleCatalog (constStream (1 / 2)) 5 "abyssescourants" sampleOdds
      ["Nonexistent"] (by decide)).2 (by decide),
   by decide!⟩


theorem bucketEmpty_false_iff (pool : List Card) (u : String) (hu : u ∈ tiers) :
    bucketEmpty pool u = false ↔ ∃ c ∈ pool, c.rarity = some u := by
  have key : ∀ (v : String), byRarity pool v = some (pool.filter (fun c => decide (c.rarity = some v))) →
      (bucketEmpty pool v = false ↔ ∃ c ∈ pool, c.rarity = some v) := by
    intro v hv
    unfold bucketEmpty
    rw [hv]
    simp only [beq_eq_false_iff_ne, ne_eq, List.length_eq_zero, List.filter_eq_nil_iff,
      decide_eq_true_eq, not_forall, not_not]
    constructor
    · rintro ⟨c, hc, h⟩; exact ⟨c, hc, h⟩
    · rintro ⟨c, hc, h⟩; exact ⟨c, hc, h⟩
  simp only [tiers, List.mem_cons, List.mem_singleton, List.not_mem_nil, or_false] at hu
  rcases hu with rfl | rfl | rfl | rfl <;> exact key _ (by simp [byRarity])

theorem stepDown_common_empty (pool : List Card) (h : bucketEmpty pool "common" = true)
    (fuel tries : Nat) : stepDown pool fuel "common" tries = ("common", tries + fuel) := by
  induction fuel generalizing tries with
  | zero => rfl
  | succ n ih =>
    simp only [stepDown, h, if_true]
    have hd : downgrade "common" = "common" := by decide
    rw [hd, ih]
    congr 1
    omega


theorem stepDown_tries_le (pool : List Card) (fuel : Nat) (rarity : String) (tries : Nat) :
    (stepDown pool fuel rarity tries).2 ≤ tries + fuel := by
  induction fuel generalizing rarity tries with
  | zero => simp [stepDown]
  | succ n ih =>
    unfold stepDown
    split_ifs
    · have := ih (downgrade rarity) (tries + 1)
      omega
    · simp

theorem stepDown_common (pool : List Card) (fuel tries : Nat) :
    (stepDown pool fuel "common" tries).1 = "common" := by
  induction fuel generalizing tries with
  | zero => rfl
  | succ n ih =>
    unfold stepDown
    split_ifs
    · have hd : downgrade "common" = "common" := by decide
      rw [hd]; exact ih _
    · rfl

theorem stepDown_rare (pool : List Card) (fuel tries : Nat) :
    (stepDown pool (fuel + 1) "rare" tries).1 =
      if bucketEmpty pool "rare" then "common" else "rare" := by
  unfold stepDown
  split_ifs
  · have hd : downgrade "rare" = "common" := by decide
    rw [hd]; exact stepDown_common pool _ _
  · rfl

theorem stepDown_epic (pool : List Card) (fuel tries : Nat) :
    (stepDown pool (fuel + 2) "epic" tries).1 =
      if bucketEmpty pool "epic" then
        if bucketEmpty pool "rare" then "common" else "rare"
      else "epic" := by
  unfold stepDown
  split_ifs <;> first
    | rfl
    | (have hd : downgrade "epic" = "rare" := by decide
       rw [hd, stepDown_rare]
       simp [*])

theorem stepDown_legendary (pool : List Card) (fuel tries : Nat) :
    (stepDown pool (fuel + 3) "legendary" tries).1 =
      if bucketEmpty pool "legendary" then
        if bucketEmpty pool "epic" then
          if bucketEmpty pool "rare" then "common" else "rare"
        else "epic"
      else "legendary" := by
  unfold stepDown
  split_ifs <;> first
    | rfl
    | (have hd : downgrade "legendary" = "epic" := by decide
       rw [hd, stepDown_epic]
       simp [*])

theorem RankValue.number_le (m n : Nat) :
    RankValue.number m ≤ RankValue.number n ↔ m ≤ n := Iff.rfl

theorem RankValue.number_lt (m n : Nat) :
    RankValue.number m < RankValue.number n ↔ m < n := Iff.rfl

theorem rarityRank_lt_of_not_le (u v : String) (hu : u ∈ tiers) (hv : v ∈ tiers)
    (h : ¬ rarityRank v ≤ rarityRank u) : rarityRank u < rarityRank v := by
  simp only [tiers, List.mem_cons, List.mem_singleton, List.not_mem_nil, or_false] at hu hv
  rcases hu with rfl | rfl | rfl | rfl <;> rcases hv with rfl | rfl | rfl | rfl <;>
    simp [rarityRank, RankValue.number_le, RankValue.number_lt] at h ⊢

/-- The tier the step-down loop ends on: a tier at or below the sampled one, every tier
strictly between the two has an empty bucket, and if its own bucket is empty then so is the
bucket of every tier at or below the sampled one. -/
theorem stepDown_resolved (pool : List Card) (t : String) (ht : t ∈ tiers) :
    (stepDown pool 10 t 0).1 ∈ tiers ∧
    rarityRank (stepDown pool 10 t 0).1 ≤ rarityRank t ∧
    (∀ v ∈ tiers, rarityRank (stepDown pool 10 t 0).1 < rarityRank v →
        rarityRank v ≤ rarityRank t → bucketEmpty pool v = true) ∧
    (bucketEmpty pool (stepDown pool 10 t 0).1 = true →
        ∀ v ∈ tiers, rarityRank v ≤ rarityRank t → bucketEmpty pool v = true) := by
  simp only [tiers, List.mem_cons, List.mem_singleton, List.not_mem_nil, or_false] at ht
  rcases ht with rfl | rfl | rfl | rfl
  · rw [stepDown_common]
    simp [tiers, rarityRank, RankValue.number_le, RankValue.number_lt]
  · rw [stepDown_rare pool 9 0]
    split_ifs with h1 <;> simp [tiers, rarityRank, RankValue.number_le, RankValue.number_lt, h1]
  · rw [stepDown_epic pool 8 0]
    split_ifs <;> simp [tiers, rarityRank, RankValue.number_le, RankValue.number_lt, *]
  · rw [stepDown_legendary pool 7 0]
    split_ifs <;> simp [tiers, rarityRank, RankValue.number_le, RankValue.number_lt, *]


theorem rollRarity_mem_tiers (odds : Odds) (r : ℚ) : rollRarity odds r ∈ tiers := by
  unfold rollRarity
  simp only [tiers]
  split_ifs <;> simp

/-! ## Draw engine: claims C4 and C5 -/

/-- C4 (counterexample): with the odds 0.70 / 0.22 / 0.07 / 0.01 and the value
`r = 0.9199999999999999 = 8286623314361712 / 2^53` of `Math.random()`, a double of `[0, 1)`,
`r` is not below `odds.common` and is below the sum of `odds.common` and `odds.rare` (the
exact sum of the two doubles, and also 0.70 + 0.22 = 0.92), so by the claim the result is
rare; but `rollRarity` returns epic, because the sum `0.22 + 0.70` it compares with is the
double `0.9199999999999999` itself. -/
theorem rollRarity_exact_sum_differs :
    sampleRoll = 8286623314361712 / 9007199254740992 ∧
    0 ≤ sampleRoll ∧ sampleRoll < 1 ∧ IsDouble sampleRoll ∧
    ¬ sampleRoll < (wildlifeBooster.odds.common.getD (Dbl.fin 0)).val ∧
    sampleRoll < (wildlifeBooster.odds.common.getD (Dbl.fin 0)).val +
      (wildlifeBooster.odds.rare.getD (Dbl.fin 0)).val ∧
    sampleRoll < 70 / 100 + 22 / 100 ∧
    wildlifeBooster.odds.commonRare = Dbl.fin sampleRoll ∧
    rollRarity wildlifeBooster.odds sampleRoll = "epic" := by
  refine ⟨by decide!, by decide!, by decide!, ⟨by decide!, by decide!, by decide!⟩, by decide!,
    by decide!, by decide!, by decide!, by decide!⟩

/-- C4 (amended): `rollRarity` is the cumulative-threshold selection common, rare, epic,
legendary, where the thresholds are `odds.common`, `odds.common + odds.rare` and
`odds.common + odds.rare + odds.epic` as JavaScript computes them, each sum rounded to a
double (a missing entry counting as 0). The result does not depend on `odds.legendary`. With
non-negative entries legendary is returned exactly when `r < s` is false for the sum `s` of the
first three odds, that is, when `s` is finite, exactly for `r ≥ s`. When the two exact sums are
doubles themselves, the thresholds are the exact sums. -/
theorem rollRarity_double_thresholds (odds : Odds) (r : ℚ) :
    (rollRarity odds r =
      if Dbl.lt (Dbl.fin r) (odds.common.getD (Dbl.fin 0)) = true then "common"
      else if Dbl.lt (Dbl.fin r) odds.commonRare = true then "rare"
      else if Dbl.lt (Dbl.fin r) odds.commonRareEpic = true then "epic"
      else "legendary") ∧
    (∀ l : Option Dbl, rollRarity { odds with legendary := l } r = rollRarity odds r) ∧
    ((odds.common.getD (Dbl.fin 0)).Nonneg → (odds.rare.getD (Dbl.fin 0)).Nonneg →
      (odds.epic.getD (Dbl.fin 0)).Nonneg →
      (rollRarity odds r = "legendary" ↔ Dbl.lt (Dbl.fin r) odds.commonRareEpic = false) ∧
      ∀ s : ℚ, odds.commonRareEpic = Dbl.fin s → (rollRarity odds r = "legendary" ↔ s ≤ r)) ∧
    (∀ c ra e : ℚ, odds.common = some (Dbl.fin c) → odds.rare = some (Dbl.fin ra) →
      odds.epic = some (Dbl.fin e) → IsDouble (c + ra) → IsDouble (c + ra + e) →
      rollRarity odds r =
        if r < c then "common"
        else if r < c + ra then "rare"
        else if r < c + ra + e then "epic"
        else "legendary") := by
  have e1 : Dbl.add (odds.rare.getD (Dbl.fin 0)) (odds.common.getD (Dbl.fin 0)) =
      odds.commonRare := Dbl.add_swap _ _
  have e2 : Dbl.add (odds.epic.getD (Dbl.fin 0)) odds.commonRare = odds.commonRareEpic :=
    Dbl.add_swap _ _
  have hroll : rollRarity odds r =
      if Dbl.lt (Dbl.fin r) (odds.common.getD (Dbl.fin 0)) = true then "common"
      else if Dbl.lt (Dbl.fin r) odds.commonRare = true then "rare"
      else if Dbl.lt (Dbl.fin r) odds.commonRareEpic = true then "epic"
      else "legendary" := by
    simp only [rollRarity, e1, e2]
  have hleg : (odds.common.getD (Dbl.fin 0)).Nonneg → (odds.rare.getD (Dbl.fin 0)).Nonneg →
      (odds.epic.getD (Dbl.fin 0)).Nonneg →
      (rollRarity odds r = "legendary" ↔ Dbl.lt (Dbl.fin r) odds.commonRareEpic = false) := by
    intro hc hra he
    have h12 : Dbl.lt (Dbl.fin r) (odds.common.getD (Dbl.fin 0)) = true →
        Dbl.lt (Dbl.fin r) odds.commonRare = true := by
      intro h
      rw [← e1]
      exact Dbl.lt_add_of_lt r _ _ hc hra h
    have h23 : Dbl.lt (Dbl.fin r) odds.commonRare = true →
        Dbl.lt (Dbl.fin r) odds.commonRareEpic = true := by
      intro h
      rw [← e2]
      exact Dbl.lt_add_of_lt r _ _ (Dbl.nonneg_add _ _ hc hra) he h
    rw [hroll]
    split_ifs with h1 h2 h3
    · constructor
      · intro h; exact absurd h (by decide)
      · intro h; rw [h23 (h12 h1)] at h; exact absurd h (by decide)
    · constructor
      · intro h; exact absurd h (by decide)
      · intro h; rw [h23 h2] at h; exact absurd h (by decide)
    · constructor
      · intro h; exact absurd h (by decide)
      · intro h; rw [h3] at h; exact absurd h (by decide)
    · constructor
      · intro _; simpa using h3
      · intro _; rfl
  refine ⟨hroll, fun l => rfl, ?_, ?_⟩
  · intro hc hra he
    refine ⟨hleg hc hra he, ?_⟩
    intro s hs
    rw [hleg hc hra he, hs]
    simp [Dbl.lt]
  · intro c ra e hc hra he h2 h3
    have s2 : odds.commonRare = Dbl.fin (c + ra) := by
      simp only [Odds.commonRare, hc, hra, Option.getD_some, Dbl.add_fin]
      exact fl_of_isDouble _ h2
    have s3 : odds.commonRareEpic = Dbl.fin (c + ra + e) := by
      simp only [Odds.commonRareEpic, s2, he, Option.getD_some, Dbl.add_fin]
      exact fl_of_isDouble _ h3
    rw [hroll, s2, s3, hc]
    simp only [Option.getD_some, Dbl.lt, decide_eq_true_eq]

/-- Witness for C4: with the odds 0.70 / 0.22 / 0.07 / 0.01 the sum of the first three odds
is the double 0.99, and the value 0.99 rolls legendary. -/
theorem rollRarity_double_thresholds_witness :
    wildlifeBooster.odds.commonRareEpic = Dbl.fin (flq (99 / 100)) ∧
      rollRarity wildlifeBooster.odds (flq (99 / 100)) = "legendary" :=
  ⟨by decide!,
   (((rollRarity_double_thresholds wildlifeBooster.odds (flq (99 / 100))).2.2.1
      (Dbl.nonneg_fl _ (by norm_num)) (Dbl.nonneg_fl _ (by norm_num))
      (Dbl.nonneg_fl _ (by norm_num))).2 (flq (99 / 100)) (by decide!)).mpr (le_refl _)⟩

/-- C5: for a non-empty pool, a sampled tier `t` and a random value in `[0,1)`: if some tier
at or below `t` has a card, the drawn card is a card of the pool whose tier is the highest such
tier; if none has, the card is picked from the whole pool; the step-down loop makes at most 10
iterations. -/
theorem drawFromTier_highest_tier (pool : List Card) (t : String) (r : ℚ)
    (ht : t ∈ tiers) (h0 : 0 ≤ r) (h1 : r < 1) :
    ((∃ u ∈ tiers, rarityRank u ≤ rarityRank t ∧ ∃ c ∈ pool, c.rarity = some u) →
      ∃ c u, drawFromTier pool t r = some c ∧ c ∈ pool ∧ c.rarity = some u ∧
        u ∈ tiers ∧ rarityRank u ≤ rarityRank t ∧
        ∀ v ∈ tiers, rarityRank v ≤ rarityRank t → (∃ d ∈ pool, d.rarity = some v) →
          rarityRank v ≤ rarityRank u) ∧
    ((¬ ∃ u ∈ tiers, rarityRank u ≤ rarityRank t ∧ ∃ c ∈ pool, c.rarity = some u) →
      drawFromTier pool t r = pickRandom pool r) ∧
    (stepDown pool 10 t 0).2 ≤ 10 := by
  obtain ⟨hmem, hle, hbetween, hall⟩ := stepDown_resolved pool t ht
  refine ⟨?_, ?_, ?_⟩
  · rintro ⟨u, hu, hul, hcu⟩
    have hne : bucketEmpty pool (stepDown pool 10 t 0).1 = false := by
      by_contra hcon
      have hemp := hall (by simpa using hcon) u hu hul
      rw [(bucketEmpty_false_iff pool u hu).mpr hcu] at hemp
      exact Bool.noConfusion hemp
    cases hb : byRarity pool (stepDown pool 10 t 0).1 with
    | none => simp [bucketEmpty, hb] at hne
    | some b =>
      have hlen : b.length ≠ 0 := by
        simpa [bucketEmpty, hb] using hne
      have hres : resolveBucket pool (stepDown pool 10 t 0).1 = b := by
        simp only [resolveBucket, hb, hlen, ne_eq, not_false_eq_true, if_true]
      obtain ⟨c, hc, hcb⟩ := pickRandom_mem b r (fun h => hlen (by rw [h]; rfl)) h0 h1
      obtain ⟨hcp, hcr⟩ := byRarity_subset pool _ b hb c hcb
      refine ⟨c, (stepDown pool 10 t 0).1, ?_, hcp, hcr, hmem, hle, ?_⟩
      · unfold drawFromTier
        rw [hres]
        exact hc
      · intro v hv hvl hvc
        by_contra hlt
        have hemp := hbetween v hv (rarityRank_lt_of_not_le _ v hmem hv hlt) hvl
        rw [(bucketEmpty_false_iff pool v hv).mpr hvc] at hemp
        exact Bool.noConfusion hemp
  · intro hnone
    have hemp : bucketEmpty pool (stepDown pool 10 t 0).1 = true := by
      by_contra hcon
      have hf : bucketEmpty pool (stepDown pool 10 t 0).1 = false := by simpa using hcon
      exact hnone ⟨_, hmem, hle, (bucketEmpty_false_iff pool _ hmem).mp hf⟩
    have hres : resolveBucket pool (stepDown pool 10 t 0).1 = pool := by
      unfold resolveBucket
      unfold bucketEmpty at hemp
      split
      · rfl
      · rename_i b hb
        rw [hb] at hemp
        have : b.length = 0 := by simpa using hemp
        simp [this]
    unfold drawFromTier
    rw [hres]
  · have := stepDown_tries_le pool 10 t 0
    omega

/-- Witness for C5: in the sample pool the epic bucket is empty, so a sampled legendary stays
legendary while a sampled epic steps down to rare. -/
theorem drawFromTier_highest_tier_witness :
    (stepDown sampleCatalog 10 "epic" 0).2 ≤ 10 ∧
      drawFromTier sampleCatalog "epic" (1 / 2) =
        some (mkCard "Murène" "abyssescourants" "rare" "/cards/murene.png") :=
  ⟨(drawFromTier_highest_tier sampleCatalog "epic" (1 / 2) (by decide) (by norm_num)
      (by norm_num)).2.2, by decide!⟩


/-! ## Collection ledger: auxiliary facts -/

theorem toNat_fin_natCast (n : Nat) : (Dbl.fin (n : ℚ)).toNat = n := by
  simp [Dbl.toNat, ratFloor_eq]

theorem increment_natCast (n : Nat) (h : n + 1 ≤ 2 ^ 53) :
    increment (Dbl.fin (n : ℚ)) = Dbl.fin ((n + 1 : Nat) : ℚ) := by
  have := Dbl.add_natCast n 1 h
  simpa [increment] using this

theorem iterate_increment_natCast (k n : Nat) (h : n + k ≤ 2 ^ 53) :
    increment^[k] (Dbl.fin (n : ℚ)) = Dbl.fin ((n + k : Nat) : ℚ) := by
  induction k generalizing n with
  | zero => rfl
  | succ j ih =>
    rw [Function.iterate_succ_apply, increment_natCast n (by omega), ih (n + 1) (by omega)]
    congr 2
    omega

theorem ownEntry_append (col : Collection) (id k : String) (e : Entry) :
    ownEntry (col ++ [(k, e)]) id =
      match ownEntry col id with
      | some x => some x
      | none => if k = id then some e else none := by
  induction col with
  | nil => simp [ownEntry]
  | cons p rest ih =>
    obtain ⟨k0, e0⟩ := p
    by_cases h : k0 = id
    · simp [ownEntry, h]
    · simp only [List.cons_append, ownEntry, h, if_false]
      exact ih

theorem ownEntry_bump_same (col : Collection) (id : String) (e : Entry)
    (h : ownEntry col id = some e) :
    ownEntry (bump col id) id = some { e with count := increment e.count } := by
  induction col with
  | nil => simp [ownEntry] at h
  | cons p rest ih =>
    obtain ⟨k0, e0⟩ := p
    simp only [ownEntry] at h
    simp only [bump]
    split_ifs at h with hk
    · simp only [hk, if_true, ownEntry]
      simp only [Option.some.injEq] at h
      rw [h]
    · simp only [hk, if_false, ownEntry]
      exact ih h

theorem ownEntry_bump_other (col : Collection) (id other : String) (hne : other ≠ id) :
    ownEntry (bump col id) other = ownEntry col other := by
  induction col with
  | nil => rfl
  | cons p rest ih =>
    obtain ⟨k0, e0⟩ := p
    simp only [bump]
    split_ifs with hk
    · have : ¬ k0 = other := fun h => hne (h.symm.trans hk)
      simp [ownEntry, this]
    · simp only [ownEntry]
      split_ifs
      · rfl
      · exact ih

theorem lookup_eq_inherited (col : Collection) (id : String) :
    lookup col id = Found.inherited ↔ ownEntry col id = none ∧ id ∈ objectPrototypeKeys := by
  unfold lookup
  cases h : ownEntry col id with
  | none =>
    by_cases hk : id ∈ objectPrototypeKeys
    · simp [hk]
    · simp [hk]
  | some e => simp

theorem addCard_of_inherited (col : Collection) (c : Card)
    (h : lookup col (cardId c) = Found.inherited) : addCard col c = col := by
  unfold addCard
  rw [h]

theorem addCard_of_none (col : Collection) (c : Card) (h : ownEntry col (cardId c) = none)
    (hk : cardId c ∉ objectPrototypeKeys) :
    addCard col c = bump (col ++ [(cardId c, newEntry c)]) (cardId c) := by
  unfold addCard lookup
  rw [h]
  simp [hk]

theorem addCard_of_some (col : Collection) (c : Card) (e : Entry)
    (h : ownEntry col (cardId c) = some e) : addCard col c = bump col (cardId c) := by
  unfold addCard lookup
  rw [h]

theorem ownEntry_addCard_same (col : Collection) (c : Card)
    (hl : lookup col (cardId c) ≠ Found.inherited) :
    ownEntry (addCard col c) (cardId c) =
      match ownEntry col (cardId c) with
      | none => some { newEntry c with count := increment (Dbl.fin 0) }
      | some e => some { e with count := increment e.count } := by
  cases h : ownEntry col (cardId c) with
  | none =>
    have hk : cardId c ∉ objectPrototypeKeys := fun hk =>
      hl ((lookup_eq_inherited col _).mpr ⟨h, hk⟩)
    rw [addCard_of_none col c h hk]
    have : ownEntry (col ++ [(cardId c, newEntry c)]) (cardId c) = some (newEntry c) := by
      rw [ownEntry_append, h]; simp
    rw [ownEntry_bump_same _ _ _ this]
    rfl
  | some e =>
    rw [addCard_of_some col c e h]
    exact ownEntry_bump_same _ _ _ h

theorem ownEntry_addCard_other (col : Collection) (c : Card) (id : String)
    (hne : id ≠ cardId c) : ownEntry (addCard col c) id = ownEntry col id := by
  cases h : ownEntry col (cardId c) with
  | none =>
    by_cases hk : cardId c ∈ objectPrototypeKeys
    · rw [addCard_of_inherited col c ((lookup_eq_inherited col _).mpr ⟨h, hk⟩)]
    · rw [addCard_of_none col c h hk, ownEntry_bump_other _ _ _ hne, ownEntry_append]
      have : ¬ cardId c = id := fun h => hne h.symm
      cases ownEntry col id <;> simp [this]
  | some e =>
    rw [addCard_of_some col c e h]
    exact ownEntry_bump_other _ _ _ hne

theorem lookup_addCard_ne_inherited (col : Collection) (c : Card) (id : String)
    (hl : lookup col id ≠ Found.inherited) : lookup (addCard col c) id ≠ Found.inherited := by
  intro hcon
  obtain ⟨h1, h2⟩ := (lookup_eq_inherited _ _).mp hcon
  by_cases hid : id = cardId c
  · subst hid
    rw [ownEntry_addCard_same col c hl] at h1
    cases h : ownEntry col (cardId c) <;> simp [h] at h1
  · rw [ownEntry_addCard_other col c id hid] at h1
    exact hl ((lookup_eq_inherited _ _).mpr ⟨h1, h2⟩)

theorem countAt_addCard (col : Collection) (c : Card) (id : String)
    (hl : lookup col id ≠ Found.inherited) :
    countAt (addCard col c) id =
      if cardId c = id then increment (countAt col id) else countAt col id := by
  by_cases hid : cardId c = id
  · subst hid
    unfold countAt
    rw [ownEntry_addCard_same col c hl]
    cases ownEntry col (cardId c) <;> simp
  · unfold countAt
    rw [ownEntry_addCard_other _ _ _ (fun h => hid h.symm)]
    simp [hid]

theorem countAt_addToCollection (col : Collection) (d : List Card) (id : String)
    (hl : lookup col id ≠ Found.inherited) :
    countAt (addToCollection col d) id = increment^[occurrences d id] (countAt col id) := by
  induction d generalizing col with
  | nil => simp [addToCollection, occurrences]
  | cons c rest ih =>
    have hstep : addToCollection col (c :: rest) = addToCollection (addCard col c) rest := rfl
    rw [hstep, ih _ (lookup_addCard_ne_inherited col c id hl), countAt_addCard col c id hl]
    by_cases hid : cardId c = id
    · have hocc : occurrences (c :: rest) id = occurrences rest id + 1 := by
        simp [occurrences, List.countP_cons, hid]
      rw [hocc, Function.iterate_succ_apply, if_pos hid]
    · have hocc : occurrences (c :: rest) id = occurrences rest id := by
        simp [occurrences, List.countP_cons, hid]
      rw [hocc, if_neg hid]

theorem ownEntry_addToCollection_some (col : Collection) (d : List Card) (id : String)
    (e0 : Entry) (h : ownEntry col id = some e0) :
    ownEntry (addToCollection col d) id =
      some { e0 with count := increment^[occurrences d id] e0.count } := by
  induction d generalizing col e0 with
  | nil => simp [addToCollection, occurrences, h]
  | cons c rest ih =>
    have hstep : addToCollection col (c :: rest) = addToCollection (addCard col c) rest := rfl
    rw [hstep]
    by_cases hid : cardId c = id
    · have hl : lookup col (cardId c) ≠ Found.inherited := by
        intro hcon
        rw [hid] at hcon
        have := ((lookup_eq_inherited _ _).mp hcon).1
        rw [h] at this
        exact Option.noConfusion this
      have h1 : ownEntry (addCard col c) id = some { e0 with count := increment e0.count } := by
        rw [← hid, ownEntry_addCard_same col c hl, hid, h]
      rw [ih _ _ h1]
      have hocc : occurrences (c :: rest) id = occurrences rest id + 1 := by
        simp [occurrences, List.countP_cons, hid]
      rw [hocc, Function.iterate_succ_apply]
    · have h1 : ownEntry (addCard col c) id = some e0 := by
        rw [ownEntry_addCard_other _ _ _ (fun h => hid h.symm), h]
      rw [ih _ _ h1]
      have hocc : occurrences (c :: rest) id = occurrences rest id := by
        simp [occurrences, List.countP_cons, hid]
      rw [hocc]

theorem ownEntry_addToCollection_absent (col : Collection) (d : List Card) (id : String)
    (h0 : occurrences d id = 0) :
    ownEntry (addToCollection col d) id = ownEntry col id := by
  induction d generalizing col with
  | nil => rfl
  | cons c rest ih =>
    have hstep : addToCollection col (c :: rest) = addToCollection (addCard col c) rest := rfl
    rw [hstep]
    by_cases hid : cardId c = id
    · simp [occurrences, List.countP_cons, hid] at h0
    · have h0r : occurrences rest id = 0 := by
        simpa [occurrences, List.countP_cons, hid] using h0
      rw [ih _ h0r, ownEntry_addCard_other _ _ _ (fun h => hid h.symm)]

theorem ownEntry_addToCollection_inherited (col : Collection) (d : List Card) (id : String)
    (hl : lookup col id = Found.inherited) : ownEntry (addToCollection col d) id = none := by
  induction d generalizing col with
  | nil => exact ((lookup_eq_inherited _ _).mp hl).1
  | cons c rest ih =>
    have hstep : addToCollection col (c :: rest) = addToCollection (addCard col c) rest := rfl
    rw [hstep]
    apply ih
    by_cases hid : cardId c = id
    · rw [addCard_of_inherited col c (by rw [hid]; exact hl)]
      exact hl
    · obtain ⟨h1, h2⟩ := (lookup_eq_inherited _ _).mp hl
      rw [lookup_eq_inherited, ownEntry_addCard_other _ _ _ (fun h => hid h.symm)]
      exact ⟨h1, h2⟩

theorem natCounts_count (col : Collection) (hn : NatCounts col) (id : String) (e : Entry)
    (h : ownEntry col id = some e) :
    e.count = Dbl.fin (e.count.toNat : ℚ) ∧ e.count.toNat ≤ ledgerTotal col := by
  induction col with
  | nil => simp [ownEntry] at h
  | cons p rest ih =>
    obtain ⟨k0, e0⟩ := p
    simp only [ownEntry] at h
    by_cases hk : k0 = id
    · simp only [hk, if_true, Option.some.injEq] at h
      subst h
      refine ⟨hn (k0, e0) (List.mem_cons_self _ _), ?_⟩
      simp [ledgerTotal]
    · simp only [hk, if_false] at h
      obtain ⟨a, b⟩ := ih (fun p hp => hn p (List.mem_cons_of_mem _ hp)) h
      refine ⟨a, ?_⟩
      simp only [ledgerTotal, List.map_cons, List.sum_cons] at b ⊢
      omega

theorem ledger_bump (col : Collection) (id : String) (e : Entry) (t : String)
    (h : ownEntry col id = some e) (hn : NatCounts col) (hb : ledgerTotal col + 1 ≤ 2 ^ 53) :
    NatCounts (bump col id) ∧
    ledgerTotal (bump col id) = ledgerTotal col + 1 ∧
    ledgerTier (bump col id) t =
      ledgerTier col t + (if e.rarity.getD "common" = t then 1 else 0) := by
  induction col with
  | nil => simp [ownEntry] at h
  | cons p rest ih =>
    obtain ⟨k0, e0⟩ := p
    have hn0 : e0.count = Dbl.fin (e0.count.toNat : ℚ) := hn (k0, e0) (List.mem_cons_self _ _)
    have hnr : NatCounts rest := fun p hp => hn p (List.mem_cons_of_mem _ hp)
    have htot : ledgerTotal ((k0, e0) :: rest) = e0.count.toNat + ledgerTotal rest := by
      simp [ledgerTotal]
    simp only [ownEntry] at h
    by_cases hk : k0 = id
    · simp only [hk, if_true, Option.some.injEq] at h
      subst h
      have hinc : increment e0.count = Dbl.fin ((e0.count.toNat + 1 : Nat) : ℚ) := by
        rw [hn0, toNat_fin_natCast]
        exact increment_natCast _ (by omega)
      have hnat : (increment e0.count).toNat = e0.count.toNat + 1 := by
        rw [hinc, toNat_fin_natCast]
      simp only [bump, hk, if_true]
      refine ⟨?_, ?_, ?_⟩
      · intro p hp
        rcases List.mem_cons.mp hp with rfl | hp
        · simp only [hinc, toNat_fin_natCast]
        · exact hnr p hp
      · simp only [ledgerTotal, List.map_cons, List.sum_cons, hnat]
        omega
      · by_cases ht : e0.rarity.getD "common" = t
        · simp only [ledgerTier, List.filter_cons, ht, decide_True, if_true, List.map_cons,
            List.sum_cons, hnat]
          omega
        · simp only [ledgerTier, List.filter_cons, ht, decide_False, if_false]
          simp
    · simp only [hk, if_false] at h
      obtain ⟨ih0, ih1, ih2⟩ := ih h hnr (by omega)
      simp only [bump, hk, if_false]
      refine ⟨?_, ?_, ?_⟩
      · intro p hp
        rcases List.mem_cons.mp hp with rfl | hp
        · exact hn0
        · exact ih0 p hp
      · simp only [ledgerTotal, List.map_cons, List.sum_cons] at ih1 ⊢
        rw [ih1]; omega
      · simp only [ledgerTier, List.filter_cons] at ih2 ⊢
        by_cases ht : e0.rarity.getD "common" = t
        · simp only [ht, decide_True, if_true, List.map_cons, List.sum_cons] at ih2 ⊢
          rw [ih2]; omega
        · simp only [ht, decide_False] at ih2 ⊢
          exact ih2

theorem ledger_append (col : Collection) (k : String) (e : Entry) (t : String)
    (h0 : e.count = Dbl.fin 0) (hn : NatCounts col) :
    NatCounts (col ++ [(k, e)]) ∧
    ledgerTotal (col ++ [(k, e)]) = ledgerTotal col ∧
    ledgerTier (col ++ [(k, e)]) t = ledgerTier col t := by
  have hz : e.count.toNat = 0 := by
    rw [h0]
    exact toNat_fin_natCast 0
  refine ⟨?_, ?_, ?_⟩
  · intro p hp
    rcases List.mem_append.mp hp with hp | hp
    · exact hn p hp
    · rw [List.mem_singleton] at hp
      subst hp
      show e.count = Dbl.fin (e.count.toNat : ℚ)
      rw [hz, h0, Nat.cast_zero]
  · simp [ledgerTotal, hz]
  · by_cases ht : e.rarity.getD "common" = t
    · simp [ledgerTier, List.filter_append, List.filter_cons, ht, hz]
    · simp [ledgerTier, List.filter_append, List.filter_cons, ht]

/-- One recorded card, whose identity the ledger can hold, adds one to the ledger total and
one to the tier of the entry stored under its identity afterwards. -/
theorem ledger_addCard (col : Collection) (c : Card) (t : String)
    (hk : cardId c ∉ objectPrototypeKeys) (hn : NatCounts col)
    (hb : ledgerTotal col + 1 ≤ 2 ^ 53) :
    NatCounts (addCard col c) ∧
    ledgerTotal (addCard col c) = ledgerTotal col + 1 ∧
    ledgerTier (addCard col c) t =
      ledgerTier col t +
        (if (match ownEntry col (cardId c) with
              | none => recordedRarity c
              | some e => e.rarity.getD "common") = t then 1 else 0) := by
  cases h : ownEntry col (cardId c) with
  | none =>
    simp only
    rw [addCard_of_none col c h hk]
    have hl : ownEntry (col ++ [(cardId c, newEntry c)]) (cardId c) = some (newEntry c) := by
      rw [ownEntry_append, h]; simp
    obtain ⟨a0, a1, a2⟩ := ledger_append col (cardId c) (newEntry c) t rfl hn
    obtain ⟨b0, b1, b2⟩ := ledger_bump _ _ _ t hl a0 (by rw [a1]; exact hb)
    rw [b1, b2, a1, a2]
    exact ⟨b0, rfl, rfl⟩
  | some e =>
    simp only
    rw [addCard_of_some col c e h]
    exact ledger_bump _ _ _ t h hn hb

theorem consistent_addCard (d : List Card) (col : Collection) (c : Card) (hc : c ∈ d)
    (hk : cardId c ∉ objectPrototypeKeys)
    (hsame : ∀ a ∈ d, ∀ b ∈ d, cardId a = cardId b → recordedRarity a = recordedRarity b)
    (hcol : Consistent d col) : Consistent d (addCard col c) := by
  have hl : lookup col (cardId c) ≠ Found.inherited := fun hcon =>
    hk ((lookup_eq_inherited _ _).mp hcon).2
  intro a ha e he
  by_cases hid : cardId a = cardId c
  · rw [hid, ownEntry_addCard_same col c hl] at he
    cases hlk : ownEntry col (cardId c) with
    | none =>
      rw [hlk] at he
      simp only [Option.some.injEq] at he
      rw [← he]
      simp only [newEntry, Option.getD_some]
      exact (hsame a ha c hc hid).symm
    | some e1 =>
      rw [hlk] at he
      simp only [Option.some.injEq] at he
      rw [← he]
      exact hcol a ha e1 (by rw [hid]; exact hlk)
  · rw [ownEntry_addCard_other _ _ _ hid] at he
    exact hcol a ha e he

theorem ledger_addToCollection (d : List Card)
    (hsame : ∀ a ∈ d, ∀ b ∈ d, cardId a = cardId b → recordedRarity a = recordedRarity b)
    (hkeys : ∀ c ∈ d, cardId c ∉ objectPrototypeKeys)
    (t : String) (l : List Card) (hl : ∀ c ∈ l, c ∈ d) (col : Collection)
    (hn : NatCounts col) (hcol : Consistent d col)
    (hb : ledgerTotal col + l.length ≤ 2 ^ 53) :
    NatCounts (addToCollection col l) ∧
    ledgerTotal (addToCollection col l) = ledgerTotal col + l.length ∧
    ledgerTier (addToCollection col l) t = ledgerTier col t + tierCount l t ∧
    Consistent d (addToCollection col l) := by
  induction l generalizing col with
  | nil => simp [addToCollection, tierCount, hcol, hn]
  | cons c rest ih =>
    have hstep : addToCollection col (c :: rest) = addToCollection (addCard col c) rest := rfl
    have hc : c ∈ d := hl c (List.mem_cons_self _ _)
    have hlen : (c :: rest).length = rest.length + 1 := rfl
    rw [hlen] at hb
    obtain ⟨a0, a1, a2⟩ := ledger_addCard col c t (hkeys c hc) hn (by omega)
    obtain ⟨i0, i1, i2, i3⟩ := ih (fun x hx => hl x (List.mem_cons_of_mem _ hx)) (addCard col c)
      a0 (consistent_addCard d col c hc (hkeys c hc) hsame hcol) (by rw [a1]; omega)
    have htier : (match ownEntry col (cardId c) with
              | none => recordedRarity c
              | some e => e.rarity.getD "common") = recordedRarity c := by
      cases hlk : ownEntry col (cardId c) with
      | none => rfl
      | some e => exact hcol c hc e hlk
    rw [htier] at a2
    rw [hstep]
    refine ⟨i0, ?_, ?_, i3⟩
    · rw [i1, a1, hlen]; omega
    · rw [i2, a2]
      by_cases hr : recordedRarity c = t
      · simp [tierCount, List.countP_cons, hr]; omega
      · simp [tierCount, List.countP_cons, hr]

theorem ledger_recordTimes (d : List Card)
    (hsame : ∀ a ∈ d, ∀ b ∈ d, cardId a = cardId b → recordedRarity a = recordedRarity b)
    (hkeys : ∀ c ∈ d, cardId c ∉ objectPrototypeKeys)
    (t : String) (k : Nat) (col : Collection) (hn : NatCounts col) (hcol : Consistent d col)
    (hb : ledgerTotal col + k * d.length ≤ 2 ^ 53) :
    NatCounts (recordTimes d k col) ∧
    ledgerTotal (recordTimes d k col) = ledgerTotal col + k * d.length ∧
    ledgerTier (recordTimes d k col) t = ledgerTier col t + k * tierCount d t := by
  induction k generalizing col with
  | zero => simp [recordTimes, hn]
  | succ n ih =>
    have hmul : (n + 1) * d.length = n * d.length + d.length := by ring
    rw [hmul] at hb
    obtain ⟨a0, a1, a2, a3⟩ :=
      ledger_addToCollection d hsame hkeys t d (fun _ h => h) col hn hcol (by omega)
    obtain ⟨i0, i1, i2⟩ := ih (addToCollection col d) a0 a3 (by rw [a1]; omega)
    simp only [recordTimes]
    rw [i1, i2, a1, a2]
    refine ⟨i0, ?_, ?_⟩
    · rw [hmul]; omega
    · have : (n + 1) * tierCount d t = n * tierCount d t + tierCount d t := by ring
      rw [this]; omega

theorem ledgerTier_le (col : Collection) (t : String) : ledgerTier col t ≤ ledgerTotal col := by
  induction col with
  | nil => simp [ledgerTier, ledgerTotal]
  | cons p rest ih =>
    simp only [ledgerTier, ledgerTotal, List.filter_cons, List.map_cons, List.sum_cons] at ih ⊢
    split_ifs
    · simp only [List.map_cons, List.sum_cons]; omega
    · omega

theorem byGet_byBump (b : List (String × StatValue)) (r t : String) (n : Dbl) :
    byGet (byBump b r n) t =
      match byGet b t with
      | none => none
      | some v => if r = t then some (StatValue.plus v n) else some v := by
  induction b with
  | nil => rfl
  | cons p rest ih =>
    obtain ⟨k, v⟩ := p
    by_cases hkr : k = r
    · by_cases hkt : k = t
      · have hrt : r = t := hkr.symm.trans hkt
        simp [byBump, byGet, hkr, hrt]
      · have hrt : ¬ r = t := fun h => hkt (hkr.trans h)
        simp only [byBump, hkr, if_true, byGet, hrt, if_false]
        cases byGet rest t <;> simp [hrt]
    · by_cases hkt : k = t
      · have hrt : ¬ r = t := fun h => hkr (hkt.trans h.symm)
        have htr : ¬ t = r := fun h => hrt h.symm
        subst hkt
        simp [byBump, byGet, hrt, htr]
      · simp only [byBump, hkr, if_false, byGet, hkt]
        exact ih

theorem byGet_append_of_some (b : List (String × StatValue)) (t : String) (v : StatValue)
    (x : String × StatValue) (h : byGet b t = some v) : byGet (b ++ [x]) t = some v := by
  induction b with
  | nil => simp [byGet] at h
  | cons p rest ih =>
    obtain ⟨k, w⟩ := p
    by_cases hk : k = t
    · simpa [byGet, hk] using h
    · simp only [byGet, hk, if_false] at h
      simp only [List.cons_append, byGet, hk, if_false]
      exact ih h

theorem byGet_byAdd (b : List (String × StatValue)) (r t : String) (n : Dbl) (v : StatValue)
    (h : byGet b t = some v) :
    byGet (byAdd b r n) t = some (if r = t then StatValue.plus v n else v) := by
  unfold byAdd
  cases hr : byGet b r with
  | none =>
    have hrt : ¬ r = t := by
      intro e
      rw [e, h] at hr
      exact Option.noConfusion hr
    simp only [hrt, if_false]
    split_ifs
    · exact h
    · exact byGet_append_of_some b t v _ h
    · rw [byGet_byBump, byGet_append_of_some b t v _ h]
      simp [hrt]
  | some w =>
    simp only
    rw [byGet_byBump, h]
    split_ifs <;> rfl

theorem foldl_statsStep (col : Collection) (st : Stats) (t : String) (total v : Nat)
    (hn : NatCounts col) (htot : st.total = Dbl.fin (total : ℚ))
    (h : byGet st.by_ t = some (StatValue.num (Dbl.fin (v : ℚ))))
    (hb : total + ledgerTotal col ≤ 2 ^ 53) (hv : v + ledgerTier col t ≤ 2 ^ 53) :
    (col.foldl statsStep st).total = Dbl.fin ((total + ledgerTotal col : Nat) : ℚ) ∧
    byGet (col.foldl statsStep st).by_ t =
      some (StatValue.num (Dbl.fin ((v + ledgerTier col t : Nat) : ℚ))) := by
  induction col generalizing st total v with
  | nil => simp [ledgerTotal, ledgerTier, h, htot]
  | cons p rest ih =>
    have hp : p.2.count = Dbl.fin (p.2.count.toNat : ℚ) := hn p (List.mem_cons_self _ _)
    have hnr : NatCounts rest := fun q hq => hn q (List.mem_cons_of_mem _ hq)
    have e1 : ledgerTotal (p :: rest) = p.2.count.toNat + ledgerTotal rest := by
      simp [ledgerTotal]
    rw [e1] at hb
    have htot1 : (statsStep st p).total = Dbl.fin ((total + p.2.count.toNat : Nat) : ℚ) := by
      simp only [statsStep]
      rw [htot, hp, toNat_fin_natCast]
      exact Dbl.add_natCast _ _ (by omega)
    have hb1 := byGet_byAdd st.by_ (p.2.rarity.getD "common") t p.2.count _ h
    simp only [List.foldl_cons]
    by_cases hr : p.2.rarity.getD "common" = t
    · have e2 : ledgerTier (p :: rest) t = p.2.count.toNat + ledgerTier rest t := by
        simp [ledgerTier, List.filter_cons, hr]
      rw [e2] at hv
      have hby : byGet (statsStep st p).by_ t =
          some (StatValue.num (Dbl.fin ((v + p.2.count.toNat : Nat) : ℚ))) := by
        simp only [statsStep]
        rw [hb1, if_pos hr]
        simp only [StatValue.plus]
        rw [hp, toNat_fin_natCast, Dbl.add_natCast _ _ (by omega)]
      obtain ⟨i1, i2⟩ := ih (statsStep st p) _ _ hnr htot1 hby (by omega) (by omega)
      have n1 : total + p.2.count.toNat + ledgerTotal rest =
          total + (p.2.count.toNat + ledgerTotal rest) := by omega
      have n2 : v + p.2.count.toNat + ledgerTier rest t =
          v + (p.2.count.toNat + ledgerTier rest t) := by omega
      rw [i1, i2, e1, e2, n1, n2]
      exact ⟨rfl, rfl⟩
    · have e2 : ledgerTier (p :: rest) t = ledgerTier rest t := by
        simp [ledgerTier, List.filter_cons, hr]
      rw [e2] at hv
      have hby : byGet (statsStep st p).by_ t = some (StatValue.num (Dbl.fin (v : ℚ))) := by
        simp only [statsStep]
        rw [hb1, if_neg hr]
      obtain ⟨i1, i2⟩ := ih (statsStep st p) _ _ hnr htot1 hby (by omega) (by omega)
      have n1 : total + p.2.count.toNat + ledgerTotal rest =
          total + (p.2.count.toNat + ledgerTotal rest) := by omega
      rw [i1, i2, e1, e2, n1]
      exact ⟨rfl, rfl⟩

/-! ## Collection ledger: claims C6 and C7 -/

theorem lookup_addToCollection_ne_inherited (col : Collection) (d : List Card) (id : String)
    (hl : lookup col id ≠ Found.inherited) :
    lookup (addToCollection col d) id ≠ Found.inherited := by
  induction d generalizing col with
  | nil => exact hl
  | cons c rest ih => exact ih _ (lookup_addCard_ne_inherited col c id hl)

/-- C6 (counterexample): a card whose id is `toString` is not recorded. On the empty ledger
`col["toString"]` is the function inherited from `Object.prototype`, so no entry is created
and the ledger handed to `saveCollection` is still empty: the count under the identity stays 0
although one card of the draw has it. And a count of `2^53` does not grow: recording the
sample draw, which holds Trilobite twice, leaves it at `2^53`. -/
theorem addToCollection_skips_inherited_id :
    cardId inheritedIdCard = "toString" ∧
    occurrences [inheritedIdCard] "toString" = 1 ∧
    addToCollection [] [inheritedIdCard] = [] ∧
    countAt (addToCollection [] [inheritedIdCard]) "toString" = Dbl.fin 0 ∧
    occurrences sampleDraw "Trilobite|/cards/trilobite.png" = 2 ∧
    countAt saturatedLedger "Trilobite|/cards/trilobite.png" = Dbl.fin 9007199254740992 ∧
    countAt (addToCollection saturatedLedger sampleDraw) "Trilobite|/cards/trilobite.png" =
      Dbl.fin 9007199254740992 := by
  refine ⟨by decide, by decide, by decide, by decide, by decide, by decide, by decide!⟩

/-- C6 (amended): for an identity that `col[id]` does not resolve to a member inherited from
`Object.prototype` (it is an own key of the ledger, or no name of `objectPrototypeKeys`), the
count stored after `addToCollection(d)` is the previous count (0 if absent) incremented once
per card of `d` with that identity, each increment an addition of doubles, and recording `d`
twice increments twice as often; when the previous count is a natural number `n` and the sum
stays within `2^53`, the count is `n` plus the number of those cards (twice that number after
two recordings). An identity that resolves to an inherited member is never stored. An
identity that does not occur in `d` keeps its entry; an entry that already existed keeps its
id, name, image and rarity. The identity of a card is its `id` when present, and
`name + "|" + image` otherwise. -/
theorem addToCollection_adds_counts_unless_inherited (col : Collection) (d : List Card)
    (id : String) :
    (lookup col id ≠ Found.inherited →
      countAt (addToCollection col d) id = increment^[occurrences d id] (countAt col id) ∧
      countAt (addToCollection (addToCollection col d) d) id =
        increment^[2 * occurrences d id] (countAt col id) ∧
      ∀ n : Nat, countAt col id = Dbl.fin (n : ℚ) →
        (n + occurrences d id ≤ 2 ^ 53 →
          countAt (addToCollection col d) id = Dbl.fin ((n + occurrences d id : Nat) : ℚ)) ∧
        (n + 2 * occurrences d id ≤ 2 ^ 53 →
          countAt (addToCollection (addToCollection col d) d) id =
            Dbl.fin ((n + 2 * occurrences d id : Nat) : ℚ))) ∧
    (lookup col id = Found.inherited → ownEntry (addToCollection col d) id = none) ∧
    (occurrences d id = 0 → ownEntry (addToCollection col d) id = ownEntry col id) ∧
    (∀ e0, ownEntry col id = some e0 →
      ownEntry (addToCollection col d) id =
        some { e0 with count := increment^[occurrences d id] e0.count }) ∧
    (∀ (c : Card) (i : String), c.id = some i → cardId c = i) ∧
    (∀ (c : Card) (nm im : String), c.id = none → c.name = some nm → c.image = some im →
      cardId c = nm ++ "|" ++ im) := by
  refine ⟨?_, ownEntry_addToCollection_inherited col d id,
    ownEntry_addToCollection_absent col d id,
    fun e0 h => ownEntry_addToCollection_some col d id e0 h, ?_, ?_⟩
  · intro hl
    have h1 := countAt_addToCollection col d id hl
    have h2 : countAt (addToCollection (addToCollection col d) d) id =
        increment^[2 * occurrences d id] (countAt col id) := by
      rw [countAt_addToCollection _ d id (lookup_addToCollection_ne_inherited col d id hl), h1,
        ← Function.iterate_add_apply]
      congr 1
      omega
    refine ⟨h1, h2, ?_⟩
    intro n hn
    constructor
    · intro hb
      rw [h1, hn]
      exact iterate_increment_natCast _ n hb
    · intro hb
      rw [h2, hn]
      exact iterate_increment_natCast _ n hb
  · intro c i h
    simp [cardId, h]
  · intro c nm im h1 h2 h3
    simp [cardId, h1, h2, h3]

/-- Witness for C6: recording the sample draw (Trilobite twice) on a ledger that holds
Trilobite with count 7 gives count 9. -/
theorem addToCollection_adds_counts_unless_inherited_witness :
    countAt (addToCollection
        [("Trilobite|/cards/trilobite.png",
          { id := "Trilobite|/cards/trilobite.png", name := some "Trilobite",
            image := some "/cards/trilobite.png", rarity := some "common",
            count := Dbl.fin 7 })]
        sampleDraw) "Trilobite|/cards/trilobite.png" = Dbl.fin ((7 + 2 : Nat) : ℚ) :=
  (((addToCollection_adds_counts_unless_inherited
      [("Trilobite|/cards/trilobite.png",
        { id := "Trilobite|/cards/trilobite.png", name := some "Trilobite",
          image := some "/cards/trilobite.png", rarity := some "common",
          count := Dbl.fin 7 })]
      sampleDraw "Trilobite|/cards/trilobite.png").1 (by decide)).2.2 7 (by
        simp [countAt, ownEntry])).1 (by
        have : occurrences sampleDraw "Trilobite|/cards/trilobite.png" = 2 := by decide
        rw [this]
        norm_num)

theorem recordTimes_single (c : Card) (k : Nat) (e : Entry) :
    recordTimes [c] k [(cardId c, e)] =
      [(cardId c, { e with count := increment^[k] e.count })] := by
  induction k generalizing e with
  | zero => rfl
  | succ n ih =>
    have h1 : addToCollection [(cardId c, e)] [c] =
        [(cardId c, { e with count := increment e.count })] := by
      simp [addToCollection, addCard, lookup, ownEntry, bump]
    simp only [recordTimes]
    rw [h1, ih, Function.iterate_succ_apply]

theorem recordTimes_single_empty (c : Card) (hk : cardId c ∉ objectPrototypeKeys) (k : Nat) :
    recordTimes [c] (k + 1) [] =
      [(cardId c, { newEntry c with count := increment^[k + 1] (Dbl.fin 0) })] := by
  have h1 : addToCollection [] [c] =
      [(cardId c, { newEntry c with count := increment (Dbl.fin 0) })] := by
    simp [addToCollection, addCard, lookup, ownEntry, bump, hk, newEntry]
  simp only [recordTimes]
  rw [h1, recordTimes_single, Function.iterate_succ_apply]

/-- C7 (counterexample): the draw result made of one card whose id is `toString`, recorded
once on the empty ledger: nothing is stored, so `computeStats` returns the total 0 and 0
under common, where the claim gives `1 * 1 = 1` for both. And the draw result made of one
Trilobite, recorded `2^53 + 1` times: the count stops at `2^53`, and so does the total. -/
theorem computeStats_misses_inherited_id :
    [inheritedIdCard].length = 1 ∧
    tierCount [inheritedIdCard] "common" = 1 ∧
    recordTimes [inheritedIdCard] 1 [] = [] ∧
    (computeStats (recordTimes [inheritedIdCard] 1 [])).total = Dbl.fin 0 ∧
    byGet (computeStats (recordTimes [inheritedIdCard] 1 [])).by_ "common" =
      some (StatValue.num (Dbl.fin 0)) ∧
    (computeStats (recordTimes [mkCard "Trilobite" "abyssescourants" "common"
        "/cards/trilobite.png"] (2 ^ 53 + 1) [])).total = Dbl.fin (2 ^ 53) := by
  refine ⟨by decide, by decide, by decide, by decide, by decide, ?_⟩
  have hk : cardId (mkCard "Trilobite" "abyssescourants" "common" "/cards/trilobite.png") ∉
      objectPrototypeKeys := by decide
  have h1 : increment^[2 ^ 53] (Dbl.fin ((0 : Nat) : ℚ)) = Dbl.fin ((0 + 2 ^ 53 : Nat) : ℚ) :=
    iterate_increment_natCast (2 ^ 53) 0 (by norm_num)
  have h2 : increment (Dbl.fin ((0 + 2 ^ 53 : Nat) : ℚ)) = Dbl.fin 9007199254740992 := by
    decide!
  have h3 : increment^[2 ^ 53 + 1] (Dbl.fin 0) = Dbl.fin 9007199254740992 := by
    rw [Function.iterate_succ_apply']
    rw [Nat.cast_zero] at h1
    rw [h1, h2]
  rw [recordTimes_single_empty _ hk, h3]
  have h4 : (2 : ℚ) ^ 53 = 9007199254740992 := by norm_num
  rw [h4]
  decide!

/-- C7 (amended): if cards of `d` with the same identity are recorded under the same rarity,
no identity of a card of `d` is a name of `Object.prototype`, and `k * length d` is at most
`2^53`, then after `k` calls of `addToCollection(d)` on an empty ledger `computeStats` returns
the total `k * length d` and, under each of the four tiers, `k` times the number of cards of
that tier in `d` (every tier is a key of the result, also when its value is 0). -/
theorem computeStats_after_records_plain (d : List Card) (k : Nat)
    (hsame : ∀ a ∈ d, ∀ b ∈ d, cardId a = cardId b → recordedRarity a = recordedRarity b)
    (hkeys : ∀ c ∈ d, cardId c ∉ objectPrototypeKeys)
    (hb : k * d.length ≤ 2 ^ 53) :
    (computeStats (recordTimes d k [])).total = Dbl.fin ((k * d.length : Nat) : ℚ) ∧
    ∀ t ∈ tiers,
      byGet (computeStats (recordTimes d k [])).by_ t =
        some (StatValue.num (Dbl.fin ((k * tierCount d t : Nat) : ℚ))) := by
  have hcons : Consistent d [] := by
    intro c _ e he
    simp [ownEntry] at he
  have hnat : NatCounts [] := by
    intro p hp
    simp at hp
  have key : ∀ t ∈ tiers,
      (computeStats (recordTimes d k [])).total = Dbl.fin ((k * d.length : Nat) : ℚ) ∧
      byGet (computeStats (recordTimes d k [])).by_ t =
        some (StatValue.num (Dbl.fin ((k * tierCount d t : Nat) : ℚ))) := by
    intro t ht
    have h0 : byGet emptyStats.by_ t = some (StatValue.num (Dbl.fin ((0 : Nat) : ℚ))) := by
      simp only [tiers, List.mem_cons, List.mem_singleton, List.not_mem_nil, or_false] at ht
      rcases ht with rfl | rfl | rfl | rfl <;> simp [byGet, emptyStats]
    obtain ⟨r0, r1, r2⟩ := ledger_recordTimes d hsame hkeys t k [] hnat hcons (by
      simpa [ledgerTotal] using hb)
    have e1 : ledgerTotal (recordTimes d k []) = k * d.length := by
      rw [r1]; simp [ledgerTotal]
    have e2 : ledgerTier (recordTimes d k []) t = k * tierCount d t := by
      rw [r2]; simp [ledgerTier]
    have hle := ledgerTier_le (recordTimes d k []) t
    obtain ⟨s1, s2⟩ := foldl_statsStep (recordTimes d k []) emptyStats t 0 0 r0
      (by simp [emptyStats]) h0 (by omega) (by omega)
    unfold computeStats
    rw [s1, s2, e1, e2]
    simp
  exact ⟨(key "common" (by decide)).1, fun t ht => (key t ht).2⟩

/-- Witness for C7: three commons, one rare and one epic recorded five times give total 25
and 15 under common. -/
theorem computeStats_after_records_plain_witness :
    (computeStats (recordTimes sampleDraw 5 [])).total = Dbl.fin 25 ∧
      byGet (computeStats (recordTimes sampleDraw 5 [])).by_ "common" =
        some (StatValue.num (Dbl.fin 15)) :=
  ⟨(computeStats_after_records_plain sampleDraw 5 (by decide) (by decide)
      (by decide)).1.trans (by simp [sampleDraw]),
   ((computeStats_after_records_plain sampleDraw 5 (by decide) (by decide)
      (by decide)).2 "common" (by decide)).trans (by
        have : tierCount sampleDraw "common" = 3 := by decide
        rw [this]
        norm_num)⟩

/-! ## Reveal sequencer: auxiliary facts -/

theorem modifyAt_length {α : Type} (f : α → α) (r : Nat) (l : List α) :
    (modifyAt f r l).length = l.length := by
  induction l generalizing r with
  | nil => cases r <;> rfl
  | cons x xs ih => cases r <;> simp [modifyAt, ih]

theorem modifyAt_getElem? {α : Type} (f : α → α) (r x : Nat) (l : List α) :
    (modifyAt f r l)[x]? = if x = r then (l[x]?).map f else l[x]? := by
  induction l generalizing r x with
  | nil => cases r <;> simp [modifyAt]
  | cons y ys ih =>
    cases r with
    | zero =>
      cases x with
      | zero => simp [modifyAt]
      | succ x => simp [modifyAt]
    | succ r =>
      cases x with
      | zero => simp [modifyAt]
      | succ x => simp [modifyAt, ih]

@[simp] theorem updCard_active (s : State) (r : Nat) (f : CardObj → CardObj) :
    (s.updCard r f).active = s.active := rfl

@[simp] theorem updCard_index (s : State) (r : Nat) (f : CardObj → CardObj) :
    (s.updCard r f).index = s.index := rfl

@[simp] theorem updCard_drawn (s : State) (r : Nat) (f : CardObj → CardObj) :
    (s.updCard r f).drawn = s.drawn := rfl

@[simp] theorem updCard_cardObjs (s : State) (r : Nat) (f : CardObj → CardObj) :
    (s.updCard r f).cardObjs = s.cardObjs := rfl

@[simp] theorem updCard_isRevealing (s : State) (r : Nat) (f : CardObj → CardObj) :
    (s.updCard r f).isRevealing = s.isRevealing := rfl

@[simp] theorem updCard_cards (s : State) (r : Nat) (f : CardObj → CardObj) :
    (s.updCard r f).cards = modifyAt f r s.cards := rfl

@[simp] theorem updCard_textureCache (s : State) (r : Nat) (f : CardObj → CardObj) :
    (s.updCard r f).textureCache = s.textureCache := rfl

@[simp] theorem updCard_endActionsHidden (s : State) (r : Nat) (f : CardObj → CardObj) :
    (s.updCard r f).endActionsHidden = s.endActionsHidden := rfl

@[simp] theorem updCard_pending (s : State) (r : Nat) (f : CardObj → CardObj) :
    (s.updCard r f).pending = s.pending := rfl

@[simp] theorem updCard_log (s : State) (r : Nat) (f : CardObj → CardObj) :
    (s.updCard r f).log = s.log := rfl

@[simp] theorem showEndButtons_active (s : State) :
    (showEndButtons s).active = s.active := rfl

@[simp] theorem showEndButtons_index (s : State) :
    (showEndButtons s).index = s.index := rfl

@[simp] theorem showEndButtons_drawn (s : State) :
    (showEndButtons s).drawn = s.drawn := rfl

@[simp] theorem showEndButtons_cardObjs (s : State) :
    (showEndButtons s).cardObjs = s.cardObjs := rfl

@[simp] theorem showEndButtons_isRevealing (s : State) :
    (showEndButtons s).isRevealing = s.isRevealing := rfl

@[simp] theorem showEndButtons_cards (s : State) :
    (showEndButtons s).cards = s.cards := rfl

@[simp] theorem showEndButtons_textureCache (s : State) :
    (showEndButtons s).textureCache = s.textureCache := rfl

@[simp] theorem showEndButtons_endActionsHidden (s : State) :
    (showEndButtons s).endActionsHidden = false := rfl

@[simp] theorem showEndButtons_pending (s : State) :
    (showEndButtons s).pending = s.pending := rfl

@[simp] theorem showEndButtons_log (s : State) :
    (showEndButtons s).log = s.log ++ [Effect.showEndButtons] := rfl

@[simp] theorem rafTween_active (s : State) (ms : Nat) (t : Task) :
    (rafTween s ms t).active = s.active := rfl

@[simp] theorem rafTween_index (s : State) (ms : Nat) (t : Task) :
    (rafTween s ms t).index = s.index := rfl

@[simp] theorem rafTween_drawn (s : State) (ms : Nat) (t : Task) :
    (rafTween s ms t).drawn = s.drawn := rfl

@[simp] theorem rafTween_cardObjs (s : State) (ms : Nat) (t : Task) :
    (rafTween s ms t).cardObjs = s.cardObjs := rfl

@[simp] theorem rafTween_isRevealing (s : State) (ms : Nat) (t : Task) :
    (rafTween s ms t).isRevealing = s.isRevealing := rfl

@[simp] theorem rafTween_cards (s : State) (ms : Nat) (t : Task) :
    (rafTween s ms t).cards = s.cards := rfl

@[simp] theorem rafTween_textureCache (s : State) (ms : Nat) (t : Task) :
    (rafTween s ms t).textureCache = s.textureCache := rfl

@[simp] theorem rafTween_endActionsHidden (s : State) (ms : Nat) (t : Task) :
    (rafTween s ms t).endActionsHidden = s.endActionsHidden := rfl

@[simp] theorem rafTween_pending (s : State) (ms : Nat) (t : Task) :
    (rafTween s ms t).pending = s.pending ++ [t] := rfl

@[simp] theorem rafTween_log (s : State) (ms : Nat) (t : Task) :
    (rafTween s ms t).log = s.log ++ [Effect.tween ms t.cur] := rfl

@[simp] theorem incrIndex_active (s : State) :
    (incrIndex s).active = s.active := rfl

@[simp] theorem incrIndex_index (s : State) :
    (incrIndex s).index = s.index + 1 := rfl

@[simp] theorem incrIndex_drawn (s : State) :
    (incrIndex s).drawn = s.drawn := rfl

@[simp] theorem incrIndex_cardObjs (s : State) :
    (incrIndex s).cardObjs = s.cardObjs := rfl

@[simp] theorem incrIndex_isRevealing (s : State) :
    (incrIndex s).isRevealing = s.isRevealing := rfl

@[simp] theorem incrIndex_cards (s : State) :
    (incrIndex s).cards = s.cards := rfl

@[simp] theorem incrIndex_textureCache (s : State) :
    (incrIndex s).textureCache = s.textureCache := rfl

@[simp] theorem incrIndex_endActionsHidden (s : State) :
    (incrIndex s).endActionsHidden = s.endActionsHidden := rfl

@[simp] theorem incrIndex_pending (s : State) :
    (incrIndex s).pending = s.pending := rfl

@[simp] theorem incrIndex_log (s : State) :
    (incrIndex s).log = s.log := rfl

@[simp] theorem playSfx_active (s : State) (cue : String) :
    (playSfx s cue).active = s.active := rfl

@[simp] theorem playSfx_index (s : State) (cue : String) :
    (playSfx s cue).index = s.index := rfl

@[simp] theorem playSfx_drawn (s : State) (cue : String) :
    (playSfx s cue).drawn = s.drawn := rfl

@[simp] theorem playSfx_cardObjs (s : State) (cue : String) :
    (playSfx s cue).cardObjs = s.cardObjs := rfl

@[simp] theorem playSfx_isRevealing (s : State) (cue : String) :
    (playSfx s cue).isRevealing = s.isRevealing := rfl

@[simp] theorem playSfx_cards (s : State) (cue : String) :
    (playSfx s cue).cards = s.cards := rfl

@[simp] theorem playSfx_textureCache (s : State) (cue : String) :
    (playSfx s cue).textureCache = s.textureCache := rfl

@[simp] theorem playSfx_endActionsHidden (s : State) (cue : String) :
    (playSfx s cue).endActionsHidden = s.endActionsHidden := rfl

@[simp] theorem playSfx_pending (s : State) (cue : String) :
    (playSfx s cue).pending = s.pending := rfl

@[simp] theorem playSfx_log (s : State) (cue : String) :
    (playSfx s cue).log = s.log ++ [Effect.sfx cue] := rfl

@[simp] theorem warnMissing_active (s : State) (cur : Nat) :
    (warnMissing s cur).active = s.active := rfl

@[simp] theorem warnMissing_index (s : State) (cur : Nat) :
    (warnMissing s cur).index = s.index := rfl

@[simp] theorem warnMissing_drawn (s : State) (cur : Nat) :
    (warnMissing s cur).drawn = s.drawn := rfl

@[simp] theorem warnMissing_cardObjs (s : State) (cur : Nat) :
    (warnMissing s cur).cardObjs = s.cardObjs := rfl

@[simp] theorem warnMissing_isRevealing (s : State) (cur : Nat) :
    (warnMissing s cur).isRevealing = s.isRevealing := rfl

@[simp] theorem warnMissing_cards (s : State) (cur : Nat) :
    (warnMissing s cur).cards = s.cards := rfl

@[simp] theorem warnMissing_textureCache (s : State) (cur : Nat) :
    (warnMissing s cur).textureCache = s.textureCache := rfl

@[simp] theorem warnMissing_endActionsHidden (s : State) (cur : Nat) :
    (warnMissing s cur).endActionsHidden = s.endActionsHidden := rfl

@[simp] theorem warnMissing_pending (s : State) (cur : Nat) :
    (warnMissing s cur).pending = s.pending := rfl

@[simp] theorem warnMissing_log (s : State) (cur : Nat) :
    (warnMissing s cur).log = s.log ++ [Effect.warn cur] := rfl

@[simp] theorem cacheTexture_active (s : State) (url : String) :
    (cacheTexture s url).active = s.active := rfl

@[simp] theorem cacheTexture_index (s : State) (url : String) :
    (cacheTexture s url).index = s.index := rfl

@[simp] theorem cacheTexture_drawn (s : State) (url : String) :
    (cacheTexture s url).drawn = s.drawn := rfl

@[simp] theorem cacheTexture_cardObjs (s : State) (url : String) :
    (cacheTexture s url).cardObjs = s.cardObjs := rfl

@[simp] theorem cacheTexture_isRevealing (s : State) (url : String) :
    (cacheTexture s url).isRevealing = s.isRevealing := rfl

@[simp] theorem cacheTexture_cards (s : State) (url : String) :
    (cacheTexture s url).cards = s.cards := rfl

@[simp] theorem cacheTexture_textureCache (s : State) (url : String) :
    (cacheTexture s url).textureCache = s.textureCache ++ [url] := rfl

@[simp] theorem cacheTexture_endActionsHidden (s : State) (url : String) :
    (cacheTexture s url).endActionsHidden = s.endActionsHidden := rfl

@[simp] theorem cacheTexture_pending (s : State) (url : String) :
    (cacheTexture s url).pending = s.pending := rfl

@[simp] theorem cacheTexture_log (s : State) (url : String) :
    (cacheTexture s url).log = s.log := rfl

@[simp] theorem startLoad_active (s : State) (url : String) (cur : Nat) :
    (startLoad s url cur).active = s.active := rfl

@[simp] theorem startLoad_index (s : State) (url : String) (cur : Nat) :
    (startLoad s url cur).index = s.index := rfl

@[simp] theorem startLoad_drawn (s : State) (url : String) (cur : Nat) :
    (startLoad s url cur).drawn = s.drawn := rfl

@[simp] theorem startLoad_cardObjs (s : State) (url : String) (cur : Nat) :
    (startLoad s url cur).cardObjs = s.cardObjs := rfl

@[simp] theorem startLoad_isRevealing (s : State) (url : String) (cur : Nat) :
    (startLoad s url cur).isRevealing = s.isRevealing := rfl

@[simp] theorem startLoad_cards (s : State) (url : String) (cur : Nat) :
    (startLoad s url cur).cards = s.cards := rfl

@[simp] theorem startLoad_textureCache (s : State) (url : String) (cur : Nat) :
    (startLoad s url cur).textureCache = s.textureCache := rfl

@[simp] theorem startLoad_endActionsHidden (s : State) (url : String) (cur : Nat) :
    (startLoad s url cur).endActionsHidden = s.endActionsHidden := rfl

@[simp] theorem startLoad_pending (s : State) (url : String) (cur : Nat) :
    (startLoad s url cur).pending = s.pending ++ [Task.load cur url] := rfl

@[simp] theorem startLoad_log (s : State) (url : String) (cur : Nat) :
    (startLoad s url cur).log = s.log ++ [Effect.loadStart url] := rfl

@[simp] theorem setRevealing_active (s : State) :
    (setRevealing s).active = s.active := rfl

@[simp] theorem setRevealing_index (s : State) :
    (setRevealing s).index = s.index := rfl

@[simp] theorem setRevealing_drawn (s : State) :
    (setRevealing s).drawn = s.drawn := rfl

@[simp] theorem setRevealing_cardObjs (s : State) :
    (setRevealing s).cardObjs = s.cardObjs := rfl

@[simp] theorem setRevealing_isRevealing (s : State) :
    (setRevealing s).isRevealing = true := rfl

@[simp] theorem setRevealing_cards (s : State) :
    (setRevealing s).cards = s.cards := rfl

@[simp] theorem setRevealing_textureCache (s : State) :
    (setRevealing s).textureCache = s.textureCache := rfl

@[simp] theorem setRevealing_endActionsHidden (s : State) :
    (setRevealing s).endActionsHidden = s.endActionsHidden := rfl

@[simp] theorem setRevealing_pending (s : State) :
    (setRevealing s).pending = s.pending := rfl

@[simp] theorem setRevealing_log (s : State) :
    (setRevealing s).log = s.log := rfl

@[simp] theorem dequeue_active (s : State) (i : Nat) :
    (dequeue s i).active = s.active := rfl

@[simp] theorem dequeue_index (s : State) (i : Nat) :
    (dequeue s i).index = s.index := rfl

@[simp] theorem dequeue_drawn (s : State) (i : Nat) :
    (dequeue s i).drawn = s.drawn := rfl

@[simp] theorem dequeue_cardObjs (s : State) (i : Nat) :
    (dequeue s i).cardObjs = s.cardObjs := rfl

@[simp] theorem dequeue_isRevealing (s : State) (i : Nat) :
    (dequeue s i).isRevealing = s.isRevealing := rfl

@[simp] theorem dequeue_cards (s : State) (i : Nat) :
    (dequeue s i).cards = s.cards := rfl

@[simp] theorem dequeue_textureCache (s : State) (i : Nat) :
    (dequeue s i).textureCache = s.textureCache := rfl

@[simp] theorem dequeue_endActionsHidden (s : State) (i : Nat) :
    (dequeue s i).endActionsHidden = s.endActionsHidden := rfl

@[simp] theorem dequeue_pending (s : State) (i : Nat) :
    (dequeue s i).pending = s.pending.eraseIdx i := rfl

@[simp] theorem dequeue_log (s : State) (i : Nat) :
    (dequeue s i).log = s.log := rfl

@[simp] theorem showNext_active (s : State) :
    (showNext s).active = s.active := by
  unfold showNext; split <;> rfl

@[simp] theorem showNext_index (s : State) :
    (showNext s).index = s.index := by
  unfold showNext; split <;> rfl

@[simp] theorem showNext_drawn (s : State) :
    (showNext s).drawn = s.drawn := by
  unfold showNext; split <;> rfl

@[simp] theorem showNext_cardObjs (s : State) :
    (showNext s).cardObjs = s.cardObjs := by
  unfold showNext; split <;> rfl

@[simp] theorem showNext_isRevealing (s : State) :
    (showNext s).isRevealing = s.isRevealing := by
  unfold showNext; split <;> rfl

@[simp] theorem showNext_textureCache (s : State) :
    (showNext s).textureCache = s.textureCache := by
  unfold showNext; split <;> rfl

@[simp] theorem showNext_endActionsHidden (s : State) :
    (showNext s).endActionsHidden = s.endActionsHidden := by
  unfold showNext; split <;> rfl

@[simp] theorem showNext_pending (s : State) :
    (showNext s).pending = s.pending := by
  unfold showNext; split <;> rfl

@[simp] theorem showNext_log (s : State) :
    (showNext s).log = s.log := by
  unfold showNext; split <;> rfl

@[simp] theorem signalEnd_active (s : State) :
    (signalEnd s).active = s.active := by
  unfold signalEnd; split <;> rfl

@[simp] theorem signalEnd_index (s : State) :
    (signalEnd s).index = s.index := by
  unfold signalEnd; split <;> rfl

@[simp] theorem signalEnd_drawn (s : State) :
    (signalEnd s).drawn = s.drawn := by
  unfold signalEnd; split <;> rfl

@[simp] theorem signalEnd_cardObjs (s : State) :
    (signalEnd s).cardObjs = s.cardObjs := by
  unfold signalEnd; split <;> rfl

@[simp] theorem signalEnd_isRevealing (s : State) :
    (signalEnd s).isRevealing = s.isRevealing := by
  unfold signalEnd; split <;> rfl

@[simp] theorem signalEnd_cards (s : State) :
    (signalEnd s).cards = s.cards := by
  unfold signalEnd; split <;> rfl

@[simp] theorem signalEnd_textureCache (s : State) :
    (signalEnd s).textureCache = s.textureCache := by
  unfold signalEnd; split <;> rfl

@[simp] theorem signalEnd_pending (s : State) :
    (signalEnd s).pending = s.pending := by
  unfold signalEnd; split <;> rfl

@[simp] theorem finishRevealMove_active (s : State) (cur : Nat) :
    (finishRevealMove s cur).active = s.active := rfl

@[simp] theorem finishRevealMove_index (s : State) (cur : Nat) :
    (finishRevealMove s cur).index = s.index := rfl

@[simp] theorem finishRevealMove_drawn (s : State) (cur : Nat) :
    (finishRevealMove s cur).drawn = s.drawn := rfl

@[simp] theorem finishRevealMove_cardObjs (s : State) (cur : Nat) :
    (finishRevealMove s cur).cardObjs = s.cardObjs := rfl

@[simp] theorem finishRevealMove_isRevealing (s : State) (cur : Nat) :
    (finishRevealMove s cur).isRevealing = s.isRevealing := rfl

@[simp] theorem finishRevealMove_cards (s : State) (cur : Nat) :
    (finishRevealMove s cur).cards = s.cards := rfl

@[simp] theorem finishRevealMove_textureCache (s : State) (cur : Nat) :
    (finishRevealMove s cur).textureCache = s.textureCache := rfl

@[simp] theorem finishRevealMove_endActionsHidden (s : State) (cur : Nat) :
    (finishRevealMove s cur).endActionsHidden = s.endActionsHidden := rfl

@[simp] theorem finishRevealMove_pending (s : State) (cur : Nat) :
    (finishRevealMove s cur).pending = s.pending ++ [Task.settle cur] := rfl

@[simp] theorem finishRevealMove_log (s : State) (cur : Nat) :
    (finishRevealMove s cur).log = s.log ++ [Effect.tween 320 cur] := rfl

@[simp] theorem onLoad_active (s : State) (cur : Nat) :
    (onLoad s cur).active = s.active := by
  simp [onLoad, Task.cur]

@[simp] theorem onLoad_index (s : State) (cur : Nat) :
    (onLoad s cur).index = s.index := by
  simp [onLoad, Task.cur]

@[simp] theorem onLoad_drawn (s : State) (cur : Nat) :
    (onLoad s cur).drawn = s.drawn := by
  simp [onLoad, Task.cur]

@[simp] theorem onLoad_cardObjs (s : State) (cur : Nat) :
    (onLoad s cur).cardObjs = s.cardObjs := by
  simp [onLoad, Task.cur]

@[simp] theorem onLoad_isRevealing (s : State) (cur : Nat) :
    (onLoad s cur).isRevealing = s.isRevealing := by
  simp [onLoad, Task.cur]

@[simp] theorem onLoad_cards (s : State) (cur : Nat) :
    (onLoad s cur).cards = modifyAt (fun o => { o with artwork := Artwork.real, isRevealed := true }) cur s.cards := by
  simp [onLoad, Task.cur]

@[simp] theorem onLoad_textureCache (s : State) (cur : Nat) :
    (onLoad s cur).textureCache = s.textureCache := by
  simp [onLoad, Task.cur]

@[simp] theorem onLoad_endActionsHidden (s : State) (cur : Nat) :
    (onLoad s cur).endActionsHidden = s.endActionsHidden := by
  simp [onLoad, Task.cur]

@[simp] theorem onLoad_pending (s : State) (cur : Nat) :
    (onLoad s cur).pending = s.pending ++ [Task.flipBack cur] := by
  simp [onLoad, Task.cur]

@[simp] theorem onLoad_log (s : State) (cur : Nat) :
    (onLoad s cur).log = s.log ++ [Effect.sfx (sfxFor (s.rarityOf cur)), Effect.tween 220 cur] := by
  simp [onLoad, Task.cur]

@[simp] theorem onError_active (s : State) (cur : Nat) :
    (onError s cur).active = s.active := by
  simp [onError, Task.cur]

@[simp] theorem onError_index (s : State) (cur : Nat) :
    (onError s cur).index = s.index := by
  simp [onError, Task.cur]

@[simp] theorem onError_drawn (s : State) (cur : Nat) :
    (onError s cur).drawn = s.drawn := by
  simp [onError, Task.cur]

@[simp] theorem onError_cardObjs (s : State) (cur : Nat) :
    (onError s cur).cardObjs = s.cardObjs := by
  simp [onError, Task.cur]

@[simp] theorem onError_isRevealing (s : State) (cur : Nat) :
    (onError s cur).isRevealing = s.isRevealing := by
  simp [onError, Task.cur]

@[simp] theorem onError_cards (s : State) (cur : Nat) :
    (onError s cur).cards = modifyAt (fun o => { o with artwork := Artwork.fallbackTint, isRevealed := true }) cur s.cards := by
  simp [onError, Task.cur]

@[simp] theorem onError_textureCache (s : State) (cur : Nat) :
    (onError s cur).textureCache = s.textureCache := by
  simp [onError, Task.cur]

@[simp] theorem onError_endActionsHidden (s : State) (cur : Nat) :
    (onError s cur).endActionsHidden = s.endActionsHidden := by
  simp [onError, Task.cur]

@[simp] theorem onError_pending (s : State) (cur : Nat) :
    (onError s cur).pending = s.pending ++ [Task.flipBack cur] := by
  simp [onError, Task.cur]

@[simp] theorem onError_log (s : State) (cur : Nat) :
    (onError s cur).log = s.log ++ [Effect.warn cur, Effect.tween 220 cur] := by
  simp [onError, Task.cur]

@[simp] theorem settleDone_active (s : State) (cur : Nat) :
    (settleDone s cur).active = s.active := by
  simp [settleDone]

@[simp] theorem settleDone_index (s : State) (cur : Nat) :
    (settleDone s cur).index = s.index + 1 := by
  simp [settleDone]

@[simp] theorem settleDone_drawn (s : State) (cur : Nat) :
    (settleDone s cur).drawn = s.drawn := by
  simp [settleDone]

@[simp] theorem settleDone_cardObjs (s : State) (cur : Nat) :
    (settleDone s cur).cardObjs = s.cardObjs := by
  simp [settleDone]

@[simp] theorem settleDone_isRevealing (s : State) (cur : Nat) :
    (settleDone s cur).isRevealing = false := by
  simp [settleDone]

@[simp] theorem settleDone_textureCache (s : State) (cur : Nat) :
    (settleDone s cur).textureCache = s.textureCache := by
  simp [settleDone]

@[simp] theorem settleDone_pending (s : State) (cur : Nat) :
    (settleDone s cur).pending = s.pending := by
  simp [settleDone]


theorem settleDone_log (s : State) (cur : Nat) :
    (settleDone s cur).log =
      if s.index + 1 ≥ s.cardObjs.length then s.log ++ [Effect.showEndButtons] else s.log := by
  simp only [settleDone, signalEnd]
  split_ifs with h1 h2 h2 <;> simp at h1 h2 ⊢ <;> omega


theorem beginLoop_frame (drawn : List Card) (s : State) (i : Nat) :
    (beginLoop s drawn i).pending = s.pending ∧
    (beginLoop s drawn i).isRevealing = s.isRevealing ∧
    (beginLoop s drawn i).active = s.active ∧
    (beginLoop s drawn i).index = s.index ∧
    (beginLoop s drawn i).log = s.log ∧
    (beginLoop s drawn i).cardObjs.length = s.cardObjs.length + drawn.length := by
  induction drawn generalizing s i with
  | nil => simp [beginLoop]
  | cons c rest ih =>
    obtain ⟨h1, h2, h3, h4, h5, h6⟩ := ih (beginCard s c i) (i + 1)
    simp only [beginLoop]
    refine ⟨h1, h2, h3, h4, h5, ?_⟩
    rw [h6]
    simp [beginCard, createCard]
    omega

theorem removeFromScene_frame (refs : List Nat) (s : State) :
    (removeFromScene s refs).pending = s.pending ∧
    (removeFromScene s refs).log = s.log := by
  induction refs generalizing s with
  | nil => simp [removeFromScene]
  | cons r rest ih =>
    obtain ⟨h1, h2⟩ := ih (s.updCard r (fun o => { o with inScene := false }))
    simp only [removeFromScene]
    exact ⟨h1, h2⟩

theorem beginReveal_frame (s0 : State) (drawn : List Card) :
    (beginReveal (clearRevealedCards s0) drawn).pending = s0.pending ∧
    (beginReveal (clearRevealedCards s0) drawn).isRevealing = false ∧
    (beginReveal (clearRevealedCards s0) drawn).active = true ∧
    (beginReveal (clearRevealedCards s0) drawn).index = 0 ∧
    (beginReveal (clearRevealedCards s0) drawn).log = s0.log ∧
    (beginReveal (clearRevealedCards s0) drawn).cardObjs.length = drawn.length := by
  unfold beginReveal
  obtain ⟨h1, h2, h3, h4, h5, h6⟩ := beginLoop_frame drawn
    { clearRevealedCards s0 with active := true, index := 0, drawn := drawn, cardObjs := [] } 0
  obtain ⟨r1, r2⟩ := removeFromScene_frame s0.cardObjs s0
  rw [h1, h2, h3, h4, h5, h6]
  simp [clearRevealedCards, r1, r2]

theorem revealNextCard_of_isRevealing (s : State) (h : s.isRevealing = true) :
    revealNextCard s = s := by
  simp [revealNextCard, h]

/-- The three ways a call of `revealNextCard` can go. -/
theorem revealNextCard_cases (s : State) :
    revealNextCard s = s ∨
    ∃ cur, s.active = true ∧ s.isRevealing = false ∧ s.cardObjs[s.index]? = some cur ∧
      revealNextCard s = rafTween (setRevealing s) 220 (Task.flipOut cur) := by
  cases ha : s.active <;> cases hr : s.isRevealing <;>
    cases hc : s.cardObjs[s.index]? <;> simp [revealNextCard, ha, hr, hc]

theorem revealNextCard_idem (s : State) :
    revealNextCard (revealNextCard s) = revealNextCard s := by
  rcases revealNextCard_cases s with h | ⟨cur, _, _, _, h⟩
  · rw [h, h]
  · rw [h]
    exact revealNextCard_of_isRevealing _ rfl

theorem revealNextCard_accepted (s : State) (cur : Nat) (ha : s.active = true)
    (hr : s.isRevealing = false) (hc : s.cardObjs[s.index]? = some cur) :
    revealNextCard s = rafTween (setRevealing s) 220 (Task.flipOut cur) := by
  simp [revealNextCard, ha, hr, hc]

theorem fire_single (s : State) (t : Task) (ok : Bool) (i : Nat) (hp : s.pending = [t])
    (hi : s.pending[i]? ≠ none) :
    fire i ok s = runTask (dequeue s 0) ok t ∧ (dequeue s 0).pending = [] := by
  have hi0 : i = 0 := by
    rw [hp] at hi
    cases i with
    | zero => rfl
    | succ j => simp at hi
  subst hi0
  constructor
  · simp [fire, hp]
  · simp [hp]

theorem oneInFlight_revealNextCard (s : State) (h : OneInFlight s) :
    OneInFlight (revealNextCard s) := by
  rcases revealNextCard_cases s with hsame | ⟨cur, _, hrev, hc, hr⟩
  · rw [hsame]; exact h
  · have hpend : s.pending = [] := by
      cases hp : s.pending with
      | nil => rfl
      | cons t rest =>
        have := (h.2 t (by rw [hp]; exact List.mem_cons_self _ _)).1
        rw [hrev] at this
        exact Bool.noConfusion this
    rw [hr]
    constructor
    · simp [hpend]
    · intro t ht
      simp only [rafTween_pending, setRevealing_pending, hpend, List.nil_append,
        List.mem_singleton] at ht
      subst ht
      exact ⟨rfl, by simpa [Task.cur] using hc⟩

theorem oneInFlight_runTask (s : State) (t : Task) (ok : Bool) (hp : s.pending = [])
    (hr : s.isRevealing = true) (hc : s.cardObjs[s.index]? = some t.cur) :
    OneInFlight (runTask s ok t) := by
  cases t with
  | flipOut cur =>
    simp only [runTask, loadTextureCached]
    split
    · exact ⟨by simp [hp], by simp [hp]⟩
    · split_ifs
      · exact ⟨by simp [hp], by simp [hp]⟩
      · exact ⟨by simp [hp], by simpa [hp, hr, Task.cur] using hc⟩
      · exact ⟨by simp [hp], by simpa [hp, hr, Task.cur] using hc⟩
  | load cur url =>
    simp only [runTask]
    split_ifs
    · exact ⟨by simp [hp], by simpa [hp, hr, Task.cur] using hc⟩
    · exact ⟨by simp [hp], by simpa [hp, hr, Task.cur] using hc⟩
  | flipBack cur =>
    simp only [runTask]
    exact ⟨by simp [hp], by simpa [hp, hr, Task.cur] using hc⟩
  | settle cur =>
    simp only [runTask]
    exact ⟨by simp [hp], by simp [hp]⟩

theorem oneInFlight_fire (s : State) (i : Nat) (ok : Bool) (h : OneInFlight s) :
    OneInFlight (fire i ok s) := by
  cases hg : s.pending[i]? with
  | none => simpa [fire, hg] using h
  | some t =>
    have hmem : t ∈ s.pending := List.getElem?_mem hg
    have hp : s.pending = [t] := by
      cases hl : s.pending with
      | nil => rw [hl] at hmem; simp at hmem
      | cons a rest =>
        have hlen := h.1
        rw [hl] at hlen hmem
        simp only [List.length_cons] at hlen
        have hrest : rest = [] := List.length_eq_zero.mp (by omega)
        subst hrest
        simp only [List.mem_singleton] at hmem
        rw [hmem]
    obtain ⟨hf, hd⟩ := fire_single s t ok i hp (by rw [hg]; simp)
    obtain ⟨hr, hc⟩ := h.2 t hmem
    rw [hf]
    exact oneInFlight_runTask (dequeue s 0) t ok hd (by simpa using hr) (by simpa using hc)

theorem oneInFlight_run (evs : List Event) (s : State) (h : OneInFlight s) :
    OneInFlight (run evs s) := by
  induction evs generalizing s with
  | nil => exact h
  | cons e rest ih =>
    have hstep : run (e :: rest) s = run rest (step s e) := rfl
    rw [hstep]
    apply ih
    cases e with
    | advance => exact oneInFlight_revealNextCard s h
    | fire i ok => exact oneInFlight_fire s i ok h


theorem realUrlOf_of_cards_eq (a b : State) (h : b.cards = a.cards) (x : Nat) :
    b.realUrlOf x = a.realUrlOf x := by
  unfold State.realUrlOf
  rw [h]

theorem realUrlOf_of_cards_modify (a b : State) (f : CardObj → CardObj) (r : Nat)
    (h : b.cards = modifyAt f r a.cards) (hf : ∀ o, (f o).realUrl = o.realUrl) (x : Nat) :
    b.realUrlOf x = a.realUrlOf x := by
  unfold State.realUrlOf
  rw [h, modifyAt_getElem?]
  split_ifs
  · cases a.cards[x]? <;> simp [hf]
  · rfl

theorem realUrlOf_updCard (s : State) (r x : Nat) (f : CardObj → CardObj)
    (hf : ∀ o, (f o).realUrl = o.realUrl) :
    (s.updCard r f).realUrlOf x = s.realUrlOf x :=
  realUrlOf_of_cards_modify s _ f r rfl hf x

theorem endSignals_of_log (a b : State) (e : Effect) (he : e ≠ Effect.showEndButtons)
    (h : b.log = a.log ++ [e]) : endSignals b = endSignals a := by
  unfold endSignals
  rw [h, List.count_append]
  simp [List.count_singleton, he]

theorem carried_refl (a : State) : Carried a a :=
  ⟨rfl, rfl, rfl, rfl, fun _ => rfl, rfl⟩

theorem carried_trans {a b c : State} (h1 : Carried a b) (h2 : Carried b c) : Carried a c := by
  obtain ⟨a1, a2, a3, a4, a5, a6⟩ := h1
  obtain ⟨b1, b2, b3, b4, b5, b6⟩ := h2
  exact ⟨b1.trans a1, b2.trans a2, b3.trans a3, b4.trans a4,
    fun x => (b5 x).trans (a5 x), b6.trans a6⟩

theorem carried_dequeue (s : State) (i : Nat) : Carried s (dequeue s i) :=
  ⟨rfl, rfl, rfl, rfl, fun _ => rfl, rfl⟩

theorem carried_cacheTexture (s : State) (u : String) : Carried s (cacheTexture s u) :=
  ⟨rfl, rfl, rfl, rfl, fun _ => rfl, rfl⟩

theorem carried_rafTween (s : State) (ms : Nat) (t : Task) : Carried s (rafTween s ms t) :=
  ⟨rfl, rfl, rfl, rfl, fun _ => rfl,
    endSignals_of_log s _ (Effect.tween ms t.cur) (by simp) rfl⟩

theorem carried_startLoad (s : State) (u : String) (cur : Nat) :
    Carried s (startLoad s u cur) :=
  ⟨rfl, rfl, rfl, rfl, fun _ => rfl,
    endSignals_of_log s _ (Effect.loadStart u) (by simp) rfl⟩

theorem carried_finishRevealMove (s : State) (cur : Nat) :
    Carried s (finishRevealMove s cur) :=
  carried_rafTween s 320 (Task.settle cur)

theorem carried_onLoad (s : State) (cur : Nat) : Carried s (onLoad s cur) := by
  refine ⟨by simp, by simp, by simp, by simp, ?_, ?_⟩
  · exact realUrlOf_of_cards_modify s _ _ cur (onLoad_cards s cur) (fun _ => rfl)
  · unfold endSignals
    rw [onLoad_log, List.count_append]
    simp [List.count_cons]

theorem carried_onError (s : State) (cur : Nat) : Carried s (onError s cur) := by
  refine ⟨by simp, by simp, by simp, by simp, ?_, ?_⟩
  · exact realUrlOf_of_cards_modify s _ _ cur (onError_cards s cur) (fun _ => rfl)
  · unfold endSignals
    rw [onError_log, List.count_append]
    simp [List.count_cons]

theorem realUrlOf_settleDone (s : State) (cur x : Nat) :
    (settleDone s cur).realUrlOf x = s.realUrlOf x := by
  have h1 : ∀ a : State, (showNext a).realUrlOf x = a.realUrlOf x := by
    intro a
    unfold showNext
    split
    · rfl
    · exact realUrlOf_updCard a _ x _ (fun _ => rfl)
  have h2 : (settleDone s cur).realUrlOf x =
      (showNext (incrIndex (s.updCard cur (fun o => { o with settled := true })))).realUrlOf x :=
    realUrlOf_of_cards_eq _ _ (by simp [settleDone]) x
  rw [h2, h1]
  exact (realUrlOf_of_cards_eq _ _ rfl x).trans (realUrlOf_updCard s cur x _ (fun _ => rfl))

theorem endSignals_settleDone (s : State) (cur : Nat) :
    endSignals (settleDone s cur) =
      endSignals s + (if s.index + 1 ≥ s.cardObjs.length then 1 else 0) := by
  unfold endSignals
  rw [settleDone_log]
  split_ifs
  · rw [List.count_append]; simp
  · rfl

theorem drain_step (fuel : Nat) (ok : Bool) (s : State) (t : Task) (hp : s.pending = [t]) :
    drain (fuel + 1) ok s = drain fuel ok (runTask (dequeue s 0) ok t) := by
  simp [drain, hp, fire]

theorem drain_done (fuel : Nat) (ok : Bool) (s : State) (hp : s.pending = []) :
    drain fuel ok s = s := by
  cases fuel <;> simp [drain, hp]

/-- From the pending completion of the return flip, the settle runs to its end. -/
theorem drain_from_flipBack (fuel : Nat) (ok : Bool) (x : State) (cur : Nat)
    (hp : x.pending = [Task.flipBack cur]) :
    ∃ y, Carried x y ∧ y.pending = [] ∧
      drain (fuel + 2) ok x = settleDone y cur := by
  refine ⟨dequeue (finishRevealMove (dequeue x 0) cur) 0, ?_, ?_, ?_⟩
  · exact carried_trans (carried_trans (carried_dequeue x 0) (carried_finishRevealMove _ cur))
      (carried_dequeue _ 0)
  · simp [hp]
  · rw [drain_step _ ok x _ hp]
    simp only [runTask]
    rw [drain_step _ ok _ (Task.settle cur) (by simp [hp])]
    simp only [runTask]
    exact drain_done _ ok _ (by simp [hp])

/-- From the pending completion of the first flip of a card with a truthy artwork reference,
the load (either outcome), the return flip and the settle run to their end. -/
theorem drain_from_flipOut (ok : Bool) (x : State) (cur : Nat) (u : String)
    (hp : x.pending = [Task.flipOut cur]) (hu : x.realUrlOf cur = some u) (hne : u ≠ "") :
    ∃ y, Carried x y ∧ y.pending = [] ∧ drain 4 ok x = settleDone y cur := by
  rw [drain_step 3 ok x _ hp]
  have hd : (dequeue x 0).pending = [] := by simp [hp]
  have hu1 : (dequeue x 0).realUrlOf cur = some u := hu
  simp only [runTask, hu1, loadTextureCached, hne, if_false]
  by_cases hc : u ∈ (dequeue x 0).textureCache
  · simp only [hc, if_true]
    obtain ⟨y, hy1, hy2, hy3⟩ := drain_from_flipBack 1 ok (onLoad (dequeue x 0) cur) cur
      (by rw [onLoad_pending, hd, List.nil_append])
    exact ⟨y, carried_trans (carried_trans (carried_dequeue x 0) (carried_onLoad _ cur)) hy1,
      hy2, hy3⟩
  · simp only [hc, if_false]
    rw [drain_step 2 ok _ (Task.load cur u) (by rw [startLoad_pending, hd, List.nil_append])]
    have hd2 : (dequeue (startLoad (dequeue x 0) u cur) 0).pending = [] := by
      rw [dequeue_pending, startLoad_pending, hd]; rfl
    have hcar : Carried x (dequeue (startLoad (dequeue x 0) u cur) 0) :=
      carried_trans (carried_trans (carried_dequeue x 0) (carried_startLoad _ u cur))
        (carried_dequeue _ 0)
    cases ok with
    | true =>
      simp only [runTask, if_true]
      obtain ⟨y, hy1, hy2, hy3⟩ := drain_from_flipBack 0 true
        (onLoad (cacheTexture (dequeue (startLoad (dequeue x 0) u cur) 0) u) cur) cur
        (by rw [onLoad_pending, cacheTexture_pending, hd2, List.nil_append])
      exact ⟨y, carried_trans (carried_trans (carried_trans hcar (carried_cacheTexture _ u))
        (carried_onLoad _ cur)) hy1, hy2, hy3⟩
    | false =>
      simp only [runTask, Bool.false_eq_true, if_false]
      obtain ⟨y, hy1, hy2, hy3⟩ := drain_from_flipBack 0 false
        (onError (dequeue (startLoad (dequeue x 0) u cur) 0) cur) cur
        (by rw [onError_pending, hd2, List.nil_append])
      exact ⟨y, carried_trans (carried_trans hcar (carried_onError _ cur)) hy1, hy2, hy3⟩


/-- A complete advance of a ready session with a current item: the session is ready again,
the index is one more, and session end has been signalled iff the index reached the number
of card objects. -/
theorem completeAdvance_ready (ok : Bool) (s : State) (hR : Ready s)
    (hi : s.index < s.cardObjs.length) :
    Ready (completeAdvance ok s) ∧
    (completeAdvance ok s).index = s.index + 1 ∧
    (completeAdvance ok s).cardObjs = s.cardObjs ∧
    endSignals (completeAdvance ok s) =
      endSignals s + (if s.index + 1 ≥ s.cardObjs.length then 1 else 0) := by
  obtain ⟨ha, hr, hp, hurl⟩ := hR
  have hc : s.cardObjs[s.index]? = some (s.cardObjs[s.index]) := List.getElem?_eq_getElem hi
  obtain ⟨u, hu, hne⟩ := hurl _ (List.getElem_mem hi)
  have hacc := revealNextCard_accepted s _ ha hr hc
  have hcar0 : Carried (setRevealing s) (rafTween (setRevealing s) 220
      (Task.flipOut (s.cardObjs[s.index]))) := carried_rafTween _ _ _
  obtain ⟨y, hy, hyp, hdr⟩ := drain_from_flipOut ok
    (rafTween (setRevealing s) 220 (Task.flipOut (s.cardObjs[s.index]))) (s.cardObjs[s.index]) u
    (by rw [rafTween_pending, setRevealing_pending, hp, List.nil_append])
    (by rw [hcar0.2.2.2.2.1]; exact hu) hne
  obtain ⟨c1, c2, c3, _, c5, c6⟩ := carried_trans hcar0 hy
  have hca : completeAdvance ok s = settleDone y (s.cardObjs[s.index]) := by
    unfold completeAdvance
    rw [hacc, hdr]
  rw [hca]
  refine ⟨⟨?_, ?_, ?_, ?_⟩, ?_, ?_, ?_⟩
  · rw [settleDone_active, c1]; exact ha
  · exact settleDone_isRevealing _ _
  · rw [settleDone_pending]; exact hyp
  · intro r hrm
    rw [settleDone_cardObjs, c2] at hrm
    obtain ⟨v, hv, hvne⟩ := hurl r hrm
    exact ⟨v, by rw [realUrlOf_settleDone, c5]; exact hv, hvne⟩
  · rw [settleDone_index, c3]; rfl
  · rw [settleDone_cardObjs, c2]; rfl
  · rw [endSignals_settleDone, c6, c3, c2]
    rfl

theorem advances_ready (oks : List Bool) (s : State) (hR : Ready s)
    (hi : s.index + oks.length ≤ s.cardObjs.length) :
    Ready (advances oks s) ∧
    (advances oks s).index = s.index + oks.length ∧
    (advances oks s).cardObjs = s.cardObjs ∧
    endSignals (advances oks s) =
      endSignals s +
        (if 0 < oks.length ∧ s.index + oks.length = s.cardObjs.length then 1 else 0) := by
  induction oks generalizing s with
  | nil => simp [advances, hR]
  | cons ok rest ih =>
    simp only [List.length_cons] at hi
    obtain ⟨r1, r2, r3, r4⟩ := completeAdvance_ready ok s hR (by omega)
    obtain ⟨i1, i2, i3, i4⟩ := ih (completeAdvance ok s) r1 (by rw [r2, r3]; omega)
    have hstep : advances (ok :: rest) s = advances rest (completeAdvance ok s) := rfl
    rw [hstep]
    refine ⟨i1, ?_, ?_, ?_⟩
    · rw [i2, r2]; simp only [List.length_cons]; omega
    · rw [i3, r3]
    · rw [i4, r4, r2, r3]
      simp only [List.length_cons]
      split_ifs <;> omega

theorem beginCard_cardObjs (s : State) (data : Card) (i : Nat) :
    (beginCard s data i).cardObjs = s.cardObjs ++ [s.cards.length] := rfl

theorem beginCard_realUrlOf_old (s : State) (data : Card) (i r : Nat) (hr : r < s.cards.length) :
    (beginCard s data i).realUrlOf r = s.realUrlOf r := by
  have h : (beginCard s data i).cards =
      modifyAt (fun o => { o with visible := decide (i = 0) }) s.cards.length
        (s.cards ++ [{ realUrl := data.image, rarity := data.rarity.getD "common",
                       isRevealed := false, visible := true, inScene := true,
                       artwork := Artwork.question, settled := false }]) := rfl
  unfold State.realUrlOf
  rw [h, modifyAt_getElem?, if_neg (by omega), List.getElem?_append_left hr]

theorem beginCard_realUrlOf_new (s : State) (data : Card) (i : Nat) :
    (beginCard s data i).realUrlOf s.cards.length = data.image := by
  have h : (beginCard s data i).cards =
      modifyAt (fun o => { o with visible := decide (i = 0) }) s.cards.length
        (s.cards ++ [{ realUrl := data.image, rarity := data.rarity.getD "common",
                       isRevealed := false, visible := true, inScene := true,
                       artwork := Artwork.question, settled := false }]) := rfl
  unfold State.realUrlOf
  rw [h, modifyAt_getElem?, if_pos rfl]
  simp

theorem realUrlOf_some_lt (s : State) (r : Nat) (u : String) (h : s.realUrlOf r = some u) :
    r < s.cards.length := by
  unfold State.realUrlOf at h
  by_contra hge
  rw [List.getElem?_eq_none (by omega)] at h
  simp at h

theorem beginLoop_urls (drawn : List Card) (s : State) (i : Nat)
    (hart : ∀ c ∈ drawn, hasArtworkRef c)
    (hs : ∀ r ∈ s.cardObjs, ∃ u, s.realUrlOf r = some u ∧ u ≠ "") :
    ∀ r ∈ (beginLoop s drawn i).cardObjs,
      ∃ u, (beginLoop s drawn i).realUrlOf r = some u ∧ u ≠ "" := by
  induction drawn generalizing s i with
  | nil => simpa [beginLoop] using hs
  | cons c rest ih =>
    simp only [beginLoop]
    apply ih (beginCard s c i) (i + 1) (fun d hd => hart d (List.mem_cons_of_mem _ hd))
    intro r hr
    rw [beginCard_cardObjs, List.mem_append, List.mem_singleton] at hr
    rcases hr with hr | hr
    · obtain ⟨u, hu, hne⟩ := hs r hr
      exact ⟨u, by rw [beginCard_realUrlOf_old s c i r (realUrlOf_some_lt s r u hu)]; exact hu,
        hne⟩
    · obtain ⟨u, hu, hne⟩ := hart c (List.mem_cons_self _ _)
      exact ⟨u, by rw [hr, beginCard_realUrlOf_new]; exact hu, hne⟩

theorem beginReveal_ready (s0 : State) (drawn : List Card) (hp : s0.pending = [])
    (hart : ∀ c ∈ drawn, hasArtworkRef c) :
    Ready (beginReveal (clearRevealedCards s0) drawn) := by
  obtain ⟨h1, h2, h3, _, _, _⟩ := beginReveal_frame s0 drawn
  refine ⟨h3, h2, by rw [h1, hp], ?_⟩
  unfold beginReveal
  exact beginLoop_urls drawn _ 0 hart (by simp)

theorem loadTextureCached_frame (s : State) (url : Option String) (cur : Nat) :
    (loadTextureCached s url cur).index = s.index ∧
    (loadTextureCached s url cur).cardObjs = s.cardObjs := by
  unfold loadTextureCached
  split
  · exact ⟨rfl, rfl⟩
  · split_ifs <;> simp

theorem runTask_frame (s : State) (ok : Bool) (t : Task) :
    (runTask s ok t).cardObjs = s.cardObjs ∧
    ((runTask s ok t).index = s.index ∨
      ((runTask s ok t).index = s.index + 1 ∧ ∃ cur, t = Task.settle cur)) := by
  cases t with
  | flipOut cur =>
    simp only [runTask]
    exact ⟨(loadTextureCached_frame _ _ _).2, Or.inl (loadTextureCached_frame _ _ _).1⟩
  | load cur url =>
    simp only [runTask]
    split_ifs <;> simp
  | flipBack cur => simp [runTask]
  | settle cur => simp [runTask]

theorem revealNextCard_frame (s : State) :
    (revealNextCard s).cardObjs = s.cardObjs ∧ (revealNextCard s).index = s.index := by
  rcases revealNextCard_cases s with h | ⟨cur, _, _, _, h⟩ <;> rw [h] <;> simp

/-- One event moves the index by nothing, or by one when it is a settle completion. -/
theorem step_index (s : State) (e : Event) :
    (step s e).cardObjs = s.cardObjs ∧
    ((step s e).index = s.index ∨
      ((step s e).index = s.index + 1 ∧
        ∃ i ok cur, e = Event.fire i ok ∧ s.pending[i]? = some (Task.settle cur))) := by
  cases e with
  | advance => exact ⟨(revealNextCard_frame s).1, Or.inl (revealNextCard_frame s).2⟩
  | fire i ok =>
    simp only [step, fire]
    cases hg : s.pending[i]? with
    | none => exact ⟨rfl, Or.inl rfl⟩
    | some t =>
      simp only
      obtain ⟨h1, h2⟩ := runTask_frame (dequeue s i) ok t
      refine ⟨h1, ?_⟩
      rcases h2 with h2 | ⟨h2, cur, hcur⟩
      · exact Or.inl h2
      · exact Or.inr ⟨h2, i, ok, cur, rfl, hcur ▸ hg⟩

theorem bounded_step (n : Nat) (s : State) (e : Event) (h : Bounded n s) :
    Bounded n (step s e) := by
  obtain ⟨hlen, hidx, hone⟩ := h
  obtain ⟨hc, hi⟩ := step_index s e
  have hone1 : OneInFlight (step s e) := by
    cases e with
    | advance => exact oneInFlight_revealNextCard s hone
    | fire i ok => exact oneInFlight_fire s i ok hone
  refine ⟨by rw [hc]; exact hlen, ?_, hone1⟩
  rcases hi with hi | ⟨hi, i, ok, cur, _, hget⟩
  · rw [hi]; exact hidx
  · have hmem : Task.settle cur ∈ s.pending := List.getElem?_mem hget
    have hcur := (hone.2 _ hmem).2
    have hlt : s.index < s.cardObjs.length := by
      by_contra hge
      rw [List.getElem?_eq_none (by omega)] at hcur
      simp at hcur
    rw [hi]; omega

theorem bounded_run (n : Nat) (evs : List Event) (s : State) (h : Bounded n s) :
    Bounded n (run evs s) := by
  induction evs generalizing s with
  | nil => exact h
  | cons e rest ih => exact ih (step s e) (bounded_step n s e h)

/-- With the flag set and no callback pending, no event changes the state: nothing will
ever clear the flag. -/
theorem stalled_forever (s : State) (hr : s.isRevealing = true) (hp : s.pending = [])
    (evs : List Event) : run evs s = s := by
  induction evs with
  | nil => rfl
  | cons e rest ih =>
    have hstep : run (e :: rest) s = run rest (step s e) := rfl
    have hs : step s e = s := by
      cases e with
      | advance => exact revealNextCard_of_isRevealing s hr
      | fire i ok => simp [step, fire, hp]
    rw [hstep, hs, ih]


/-! ## Reveal sequencer: claims C8 to C10 -/

/-- C8: while `isRevealing` is set, `revealNextCard` (and the reveal branch of the pointer
handler) returns the state unchanged: no field of `revealState` changes and no tween, load or
sound is started. Hence a second call in immediate succession never adds anything to the
first, an accepted call followed by a second one starts exactly one flip, and in every state
of a session that began with nothing pending at most one callback is in flight, for the
current item. -/
theorem revealNextCard_noop_while_revealing (s : State) (h : s.isRevealing = true) :
    revealNextCard s = s ∧
    (∀ hit : Bool, pointerdownReveal hit s = s) ∧
    (∀ s1 : State, revealNextCard (revealNextCard s1) = revealNextCard s1) ∧
    (∀ (s1 : State) (cur : Nat), s1.active = true → s1.isRevealing = false →
      s1.cardObjs[s1.index]? = some cur →
      (revealNextCard (revealNextCard s1)).log = s1.log ++ [Effect.tween 220 cur] ∧
      (revealNextCard (revealNextCard s1)).pending = s1.pending ++ [Task.flipOut cur]) ∧
    (∀ (s0 : State) (drawn : List Card) (evs : List Event), s0.pending = [] →
      OneInFlight (run evs (beginReveal (clearRevealedCards s0) drawn))) := by
  refine ⟨revealNextCard_of_isRevealing s h, ?_, revealNextCard_idem, ?_, ?_⟩
  · intro hit
    simp [pointerdownReveal, h]
  · intro s1 cur ha hr hc
    rw [revealNextCard_idem, revealNextCard_accepted s1 cur ha hr hc]
    exact ⟨rfl, rfl⟩
  · intro s0 drawn evs hp
    apply oneInFlight_run
    obtain ⟨h1, _, _, _, _, _⟩ := beginReveal_frame s0 drawn
    constructor
    · rw [h1, hp]; exact Nat.zero_le _
    · intro t ht
      rw [h1, hp] at ht
      simp at ht

/-- Witness for C8: after a first accepted advance on a fresh session the flag is set, and a
second advance changes nothing. -/
theorem revealNextCard_noop_while_revealing_witness :
    (revealNextCard (beginReveal State.idle sampleDraw)).isRevealing = true ∧
      revealNextCard (revealNextCard (beginReveal State.idle sampleDraw)) =
        revealNextCard (beginReveal State.idle sampleDraw) :=
  ⟨by decide,
   (revealNextCard_noop_while_revealing (revealNextCard (beginReveal State.idle sampleDraw))
      (by decide)).1⟩

/-- C9: for a non-empty draw result of `n` cards with artwork references, in a session that
begins with nothing pending: after `j ≤ n` complete advances (each load with either outcome)
the index is `j`, nothing is in flight, and session end has been signalled once if `j = n`
and not at all if `j < n`; after the `n`-th, calls of `revealNextCard` change nothing; in every
state of the session the index is at most `n`, and an event changes the index only by adding
one, on a settle completion. -/
theorem reveal_completes_after_all_advances (s0 : State) (drawn : List Card)
    (hne : drawn ≠ []) (hp : s0.pending = []) (hart : ∀ c ∈ drawn, hasArtworkRef c) :
    (∀ oks : List Bool, oks.length ≤ drawn.length →
      (advances oks (beginReveal (clearRevealedCards s0) drawn)).index = oks.length ∧
      (advances oks (beginReveal (clearRevealedCards s0) drawn)).isRevealing = false ∧
      (advances oks (beginReveal (clearRevealedCards s0) drawn)).pending = [] ∧
      endSignals (advances oks (beginReveal (clearRevealedCards s0) drawn)) =
        endSignals s0 + (if oks.length = drawn.length then 1 else 0)) ∧
    (∀ oks : List Bool, oks.length = drawn.length → ∀ k : Nat,
      (revealNextCard^[k]) (advances oks (beginReveal (clearRevealedCards s0) drawn)) =
        advances oks (beginReveal (clearRevealedCards s0) drawn)) ∧
    (∀ evs : List Event,
      (run evs (beginReveal (clearRevealedCards s0) drawn)).index ≤ drawn.length) ∧
    (∀ (evs : List Event) (e : Event),
      (step (run evs (beginReveal (clearRevealedCards s0) drawn)) e).index =
          (run evs (beginReveal (clearRevealedCards s0) drawn)).index ∨
      ((step (run evs (beginReveal (clearRevealedCards s0) drawn)) e).index =
          (run evs (beginReveal (clearRevealedCards s0) drawn)).index + 1 ∧
        ∃ i ok cur, e = Event.fire i ok ∧
          (run evs (beginReveal (clearRevealedCards s0) drawn)).pending[i]? =
            some (Task.settle cur))) := by
  obtain ⟨f1, f2, f3, f4, f5, f6⟩ := beginReveal_frame s0 drawn
  have hready := beginReveal_ready s0 drawn hp hart
  have hpos : 0 < drawn.length := List.length_pos.mpr hne
  have hsig : endSignals (beginReveal (clearRevealedCards s0) drawn) = endSignals s0 := by
    unfold endSignals; rw [f5]
  have hadv : ∀ oks : List Bool, oks.length ≤ drawn.length →
      Ready (advances oks (beginReveal (clearRevealedCards s0) drawn)) ∧
      (advances oks (beginReveal (clearRevealedCards s0) drawn)).index = oks.length ∧
      (advances oks (beginReveal (clearRevealedCards s0) drawn)).cardObjs.length =
        drawn.length ∧
      endSignals (advances oks (beginReveal (clearRevealedCards s0) drawn)) =
        endSignals s0 + (if oks.length = drawn.length then 1 else 0) := by
    intro oks hle
    obtain ⟨a1, a2, a3, a4⟩ := advances_ready oks _ hready (by rw [f4, f6]; omega)
    refine ⟨a1, by rw [a2, f4]; omega, by rw [a3, f6], ?_⟩
    rw [a4, hsig, f4, f6]
    split_ifs <;> omega
  refine ⟨?_, ?_, ?_, ?_⟩
  · intro oks hle
    obtain ⟨⟨_, r2, r3, _⟩, a2, _, a4⟩ := hadv oks hle
    exact ⟨a2, r2, r3, a4⟩
  · intro oks hlen k
    obtain ⟨_, a2, a3, _⟩ := hadv oks (le_of_eq hlen)
    apply Function.iterate_fixed
    have hnone : (advances oks (beginReveal (clearRevealedCards s0) drawn)).cardObjs[
        (advances oks (beginReveal (clearRevealedCards s0) drawn)).index]? = none :=
      List.getElem?_eq_none (by rw [a2, a3, hlen])
    rcases revealNextCard_cases (advances oks (beginReveal (clearRevealedCards s0) drawn))
      with hsame | ⟨cur, _, _, hc, _⟩
    · exact hsame
    · rw [hnone] at hc
      exact Option.noConfusion hc
  · intro evs
    have hb : Bounded drawn.length (beginReveal (clearRevealedCards s0) drawn) := by
      refine ⟨f6, by rw [f4]; exact Nat.zero_le _, ?_, ?_⟩
      · rw [f1, hp]; exact Nat.zero_le _
      · intro t ht
        rw [f1, hp] at ht
        simp at ht
    exact (bounded_run _ evs _ hb).2.1
  · intro evs e
    exact (step_index _ e).2

/-- Witness for C9: the sample draw of five cards, revealed with loads that succeed or fail:
the index is 5 and session end has been signalled exactly once. -/
theorem reveal_completes_after_all_advances_witness :
    (advances [true, false, true, true, false]
        (beginReveal (clearRevealedCards State.idle) sampleDraw)).index = 5 ∧
      endSignals (advances [true, false, true, true, false]
        (beginReveal (clearRevealedCards State.idle) sampleDraw)) = 1 :=
  ⟨((reveal_completes_after_all_advances State.idle sampleDraw (by decide) rfl
      (by
        intro c hc
        simp only [sampleDraw, List.mem_cons, List.mem_singleton, List.not_mem_nil,
          or_false] at hc
        rcases hc with rfl | rfl | rfl | rfl | rfl <;> exact ⟨_, rfl, by decide⟩)).1
      [true, false, true, true, false] (by decide)).1,
   by decide⟩

/-- C10 (the code at the failing input): a card whose image reference is the empty string,
or is missing, is never revealed. After the accepted advance and the completion of the first
flip, `loadTextureCached` has returned without calling either callback: nothing is pending,
`isRevealing` is still set, the card is not marked revealed, the index is 0, session end is
not signalled, and no later event changes the state. -/
theorem reveal_stalls_without_artwork :
    ((stalledState blankImageCard).isRevealing = true ∧
      (stalledState blankImageCard).pending = [] ∧
      (stalledState blankImageCard).index = 0 ∧
      (stalledState blankImageCard).cards.map (fun o => o.isRevealed) = [false] ∧
      endSignals (stalledState blankImageCard) = 0 ∧
      ∀ evs : List Event, run evs (stalledState blankImageCard) = stalledState blankImageCard) ∧
    ((stalledState noImageCard).isRevealing = true ∧
      (stalledState noImageCard).pending = [] ∧
      (stalledState noImageCard).index = 0 ∧
      (stalledState noImageCard).cards.map (fun o => o.isRevealed) = [false] ∧
      endSignals (stalledState noImageCard) = 0 ∧
      ∀ evs : List Event, run evs (stalledState noImageCard) = stalledState noImageCard) :=
  ⟨⟨by decide, by decide, by decide, by decide, by decide,
      stalled_forever _ (by decide) (by decide)⟩,
   ⟨by decide, by decide, by decide, by decide, by decide,
      stalled_forever _ (by decide) (by decide)⟩⟩

/-- The sibling path of C10: when the loader reports a failure for a card with an artwork
reference, the card is marked revealed, the index advances and the flag is cleared. -/
theorem loader_failure_still_reveals :
    (completeAdvance false (beginReveal State.idle sampleDraw)).index = 1 ∧
    (completeAdvance false (beginReveal State.idle sampleDraw)).isRevealing = false ∧
    (completeAdvance false (beginReveal State.idle sampleDraw)).pending = [] ∧
    ((completeAdvance false (beginReveal State.idle sampleDraw)).cards.map
      (fun o => o.isRevealed)) = [true, false, false, false, false] := by
  decide

/-! ## Collection grid: claim C11 -/

theorem Dbl.sub_fin (a b : ℚ) : Dbl.sub (Dbl.fin b) (Dbl.fin a) = fl (b - a) := by
  simp only [Dbl.sub, Dbl.neg, Dbl.add_fin, sub_eq_add_neg]

theorem fl_zero : fl 0 = Dbl.fin 0 := by
  unfold fl
  rw [flq_zero, if_neg (not_le.mpr overflowBound_pos),
    if_neg (not_le.mpr (by linarith [overflowBound_pos]))]

/-- The sign of a rounded difference of doubles is the sign of the exact difference: a
multiple of the smallest positive double does not round to 0 unless it is 0. -/
theorem fl_sign (z : ℚ) (hz : ∃ k : Int, z * (unitsInOne : ℚ) = (k : ℚ)) :
    ((fl z).keepsOrder = true ↔ z ≤ 0) ∧ (fl z = Dbl.fin 0 ↔ z = 0) := by
  have hU := unitsInOne_pos
  have hB := overflowBound_pos
  have hpos : ∀ y : ℚ, 0 < y → (∃ k : Int, y * (unitsInOne : ℚ) = (k : ℚ)) → 0 < flq y := by
    intro y hy ⟨k, hk⟩
    have hk1 : (1 : ℚ) ≤ (k : ℚ) := by
      have hkpos : (0 : ℚ) < (k : ℚ) := by rw [← hk]; exact mul_pos hy hU
      have : (0 : Int) < k := by exact_mod_cast hkpos
      exact_mod_cast this
    have hge : 1 / (unitsInOne : ℚ) ≤ y := by
      rw [div_le_iff₀ hU, hk]
      exact hk1
    have := flq_mono _ _ hge
    rw [flq_unit] at this
    have hu : 0 < 1 / (unitsInOne : ℚ) := div_pos one_pos hU
    linarith
  rcases lt_trichotomy z 0 with hneg | hzero | hgt
  · have hfl : flq z < 0 := by
      have h1 := hpos (-z) (by linarith) (by
        obtain ⟨k, hk⟩ := hz
        exact ⟨-k, by push_cast; linarith⟩)
      rw [flq_neg] at h1
      linarith
    have hne : z ≠ 0 := ne_of_lt hneg
    unfold fl
    rw [if_neg (by linarith)]
    split_ifs with h2
    · simp [Dbl.keepsOrder, hne, le_of_lt hneg]
    · simp only [Dbl.keepsOrder, decide_eq_true_eq, Dbl.fin.injEq]
      exact ⟨⟨fun _ => le_of_lt hneg, fun _ => le_of_lt hfl⟩,
        ⟨fun h => absurd h (ne_of_lt hfl), fun h => absurd h hne⟩⟩
  · rw [hzero, fl_zero]
    simp [Dbl.keepsOrder]
  · have hfl : 0 < flq z := hpos z hgt hz
    have hne : z ≠ 0 := ne_of_gt hgt
    unfold fl
    split_ifs with h1 h2
    · simp [Dbl.keepsOrder, hne, not_le.mpr hgt]
    · linarith
    · simp only [Dbl.keepsOrder, decide_eq_true_eq, Dbl.fin.injEq]
      exact ⟨⟨fun h => absurd h (not_le.mpr hfl), fun h => absurd h (not_le.mpr hgt)⟩,
        ⟨fun h => absurd h (ne_of_gt hfl), fun h => absurd h hne⟩⟩

theorem sub_sign (a b : ℚ) (ha : IsDouble a) (hb : IsDouble b) :
    ((Dbl.sub (Dbl.fin b) (Dbl.fin a)).keepsOrder = true ↔ b ≤ a) ∧
    (Dbl.sub (Dbl.fin b) (Dbl.fin a) = Dbl.fin 0 ↔ a = b) := by
  obtain ⟨ka, hka⟩ := flq_units_int a ha.1
  obtain ⟨kb, hkb⟩ := flq_units_int b hb.1
  have hz : ∃ k : Int, (b - a) * (unitsInOne : ℚ) = (k : ℚ) :=
    ⟨kb - ka, by push_cast; rw [sub_mul, hka, hkb]⟩
  obtain ⟨h1, h2⟩ := fl_sign (b - a) hz
  rw [Dbl.sub_fin]
  constructor
  · rw [h1]
    constructor <;> intro h <;> linarith
  · rw [h2]
    constructor
    · intro h; linarith
    · intro h; rw [h]; ring

theorem isDouble_natCast (n : Nat) (h : n ≤ 2 ^ 53) : IsDouble (n : ℚ) := by
  have hb : ((2 ^ 53 : Nat) : ℚ) < (overflowBound : ℚ) := by
    unfold overflowBound
    exact_mod_cast Nat.pow_lt_pow_right (by norm_num) (by norm_num)
  have hn : (n : ℚ) ≤ ((2 ^ 53 : Nat) : ℚ) := by exact_mod_cast h
  have h0 : (0 : ℚ) ≤ (n : ℚ) := Nat.cast_nonneg n
  exact ⟨flq_natCast n h, by linarith [overflowBound_pos], by linarith⟩

theorem claimedRank_le_four (r : Option String) : claimedRank r ≤ 4 := by
  unfold claimedRank
  split_ifs <;> omega

/-- On a rarity that is no name of `Object.prototype`, `rarityRank` is the rank of the
claim. -/
theorem entryRank_of_plain (e : Entry) (h : ∀ r, e.rarity = some r → r ∉ objectPrototypeKeys) :
    entryRank e = RankValue.number (claimedRank e.rarity) := by
  unfold entryRank
  cases hr : e.rarity with
  | none => simp [claimedRank]
  | some r =>
    have hk := h r hr
    simp only [rarityRank, hk, if_false, claimedRank, Option.some.injEq]
    by_cases h1 : r = "common"
    · subst h1; simp
    · by_cases h2 : r = "rare"
      · subst h2; simp
      · by_cases h3 : r = "epic"
        · subst h3; simp
        · by_cases h4 : r = "legendary"
          · subst h4; simp
          · simp [h1, h2, h3, h4]

/-- The comparison of two counts that are not NaN: `b - a` keeps `a` before `b` exactly when
`a < b` is false. -/
theorem sub_keepsOrder (a b : Dbl) (ha : a.NotNaN) (hb : b.NotNaN) :
    (Dbl.sub b a).keepsOrder = true ↔ Dbl.lt a b = false := by
  cases a <;> cases b
  case fin.fin x y =>
    rw [(sub_sign x y ha hb).1]
    simp only [Dbl.lt, decide_eq_false_iff_not, not_lt]
  all_goals first
    | exact ha.elim
    | exact hb.elim
    | simp [Dbl.sub, Dbl.neg, Dbl.add, Dbl.keepsOrder, Dbl.lt]

theorem Dbl.lt_irrefl (a : Dbl) : Dbl.lt a a = false := by
  cases a <;> simp [Dbl.lt]

theorem Dbl.lt_total (a b : Dbl) : Dbl.lt a b = false ∨ Dbl.lt b a = false := by
  cases a <;> cases b <;> simp [Dbl.lt]
  exact le_total _ _

theorem Dbl.not_lt_trans (a b c : Dbl) (hb : b.NotNaN) (h1 : Dbl.lt a b = false)
    (h2 : Dbl.lt b c = false) : Dbl.lt a c = false := by
  cases a <;> cases b <;> cases c <;> first | exact hb.elim | (simp [Dbl.lt] at h1 h2 ⊢)
  exact le_trans h2 h1

theorem sortCompare_rarity_keeps (lc : String → String → Int) (a b : Entry)
    (ha : PlainEntry a) (hb : PlainEntry b) :
    (sortCompare lc "rarity" a b).keepsOrder = true ↔ RarityOrdered a b := by
  have h1 : ¬ ("rarity" = "name") := by decide
  have h2 : ¬ ("rarity" = "count") := by decide
  obtain ⟨hra, hca⟩ := ha
  obtain ⟨hrb, hcb⟩ := hb
  have hrank := sub_sign ((claimedRank a.rarity : Nat) : ℚ) ((claimedRank b.rarity : Nat) : ℚ)
    (isDouble_natCast _ (le_trans (claimedRank_le_four _) (by norm_num)))
    (isDouble_natCast _ (le_trans (claimedRank_le_four _) (by norm_num)))
  have hcount := sub_keepsOrder a.count b.count hca hcb
  simp only [sortCompare, h1, h2, if_false, RarityOrdered, entryRank_of_plain a hra,
    entryRank_of_plain b hrb, RankValue.toNumber]
  split_ifs with h
  · have hne : claimedRank a.rarity ≠ claimedRank b.rarity := by
      intro heq
      apply h
      rw [hrank.2]
      exact_mod_cast heq
    rw [hrank.1]
    constructor
    · intro hle
      left
      have : claimedRank b.rarity ≤ claimedRank a.rarity := by exact_mod_cast hle
      omega
    · rintro (hgt | ⟨heq, _⟩)
      · exact_mod_cast le_of_lt hgt
      · exact absurd heq hne
  · have heq : claimedRank a.rarity = claimedRank b.rarity := by
      have := hrank.2.mp (not_not.mp h)
      exact_mod_cast this
    rw [hcount]
    constructor
    · intro hle; right; exact ⟨heq, hle⟩
    · rintro (hgt | ⟨_, hc⟩)
      · omega
      · exact hc

theorem rarityOrdered_total (a b : Entry) : RarityOrdered a b ∨ RarityOrdered b a := by
  unfold RarityOrdered
  rcases Nat.lt_trichotomy (claimedRank a.rarity) (claimedRank b.rarity) with h | h | h
  · right; left; exact h
  · rcases Dbl.lt_total a.count b.count with hc | hc
    · left; right; exact ⟨h, hc⟩
    · right; right; exact ⟨h.symm, hc⟩
  · left; left; exact h

theorem rarityOrdered_trans (a b c : Entry) (hb : b.count.NotNaN) (h1 : RarityOrdered a b)
    (h2 : RarityOrdered b c) : RarityOrdered a c := by
  unfold RarityOrdered at *
  rcases h1 with h1 | ⟨h1, c1⟩ <;> rcases h2 with h2 | ⟨h2, c2⟩
  · left; omega
  · left; omega
  · left; omega
  · right; exact ⟨by omega, Dbl.not_lt_trans _ _ _ hb c1 c2⟩

theorem arraySort_perm {α : Type} (cmp : α → α → Dbl) (items : List α) :
    (arraySort cmp items).Perm items :=
  List.perm_insertionSort _ items

theorem orderedInsert_pairwise {α : Type} (r : α → α → Prop) [DecidableRel r] (dom : α → Prop)
    (htotal : ∀ a b, dom a → dom b → r a b ∨ r b a)
    (htrans : ∀ a b c, dom a → dom b → dom c → r a b → r b c → r a c)
    (a : α) (ha : dom a) (l : List α) (hl : ∀ x ∈ l, dom x) (hs : l.Pairwise r) :
    (l.orderedInsert r a).Pairwise r := by
  induction l with
  | nil => simp
  | cons b rest ih =>
    have hb : dom b := hl b (List.mem_cons_self _ _)
    have hrest : ∀ x ∈ rest, dom x := fun x hx => hl x (List.mem_cons_of_mem _ hx)
    obtain ⟨hbr, hsr⟩ := List.pairwise_cons.mp hs
    simp only [List.orderedInsert]
    split_ifs with hab
    · refine List.pairwise_cons.mpr ⟨?_, hs⟩
      intro x hx
      rcases List.mem_cons.mp hx with rfl | hx
      · exact hab
      · exact htrans a b x ha hb (hrest x hx) hab (hbr x hx)
    · have hba : r b a := (htotal a b ha hb).resolve_left hab
      refine List.pairwise_cons.mpr ⟨?_, ih hrest hsr⟩
      intro x hx
      rcases (List.mem_orderedInsert r).mp hx with rfl | hx
      · exact hba
      · exact hbr x hx

/-- When the comparator decides a relation that is total and transitive on the items, the
sorted list is ordered by it. -/
theorem arraySort_sorted {α : Type} (cmp : α → α → Dbl) (items : List α) (dom : α → Prop)
    (hdom : ∀ x ∈ items, dom x)
    (htotal : ∀ a b, dom a → dom b →
      (cmp a b).keepsOrder = true ∨ (cmp b a).keepsOrder = true)
    (htrans : ∀ a b c, dom a → dom b → dom c →
      (cmp a b).keepsOrder = true → (cmp b c).keepsOrder = true → (cmp a c).keepsOrder = true) :
    (arraySort cmp items).Pairwise (fun a b => (cmp a b).keepsOrder = true) := by
  unfold arraySort
  induction items with
  | nil => simp
  | cons a rest ih =>
    have hrest : ∀ x ∈ rest, dom x := fun x hx => hdom x (List.mem_cons_of_mem _ hx)
    simp only [List.insertionSort]
    apply orderedInsert_pairwise _ dom htotal htrans a (hdom a (List.mem_cons_self _ _))
    · intro x hx
      exact hrest x ((List.perm_insertionSort _ rest).subset hx)
    · exact ih hrest

/-- Stability: the items that satisfy `p`, when any two of them compare as `≤ 0`, come out
of the sort in the order they had. -/
theorem arraySort_stable {α : Type} (cmp : α → α → Dbl) (items : List α) (p : α → Bool)
    (hp : ∀ a ∈ items, ∀ b ∈ items, p a = true → p b = true → (cmp a b).keepsOrder = true) :
    (arraySort cmp items).filter p = items.filter p := by
  have hsub : List.Sublist (items.filter p) (arraySort cmp items) := by
    apply List.sublist_insertionSort
    · rw [List.pairwise_iff_forall_sublist]
      intro a b hab
      have ha : a ∈ items.filter p := hab.subset (by simp)
      have hb : b ∈ items.filter p := hab.subset (by simp)
      exact hp a (List.mem_filter.mp ha).1 b (List.mem_filter.mp hb).1 (List.mem_filter.mp ha).2
        (List.mem_filter.mp hb).2
    · exact List.filter_sublist items
  have hsub2 : List.Sublist (items.filter p) ((arraySort cmp items).filter p) := by
    have := hsub.filter p
    rwa [List.filter_filter, show (fun a => p a && p a) = p from by funext a; simp] at this
  have hlen : ((arraySort cmp items).filter p).length = (items.filter p).length :=
    ((arraySort_perm cmp items).filter p).length_eq
  exact (hsub2.eq_of_length hlen.symm).symm

theorem plainEntry_mkEntry (name rarity : String) (n : Nat) (hr : rarity ∉ objectPrototypeKeys)
    (hn : n ≤ 2 ^ 53) : PlainEntry (mkEntry name rarity (n : ℚ)) := by
  refine ⟨?_, isDouble_natCast n hn⟩
  intro r h
  simp only [mkEntry, Option.some.injEq] at h
  rw [← h]
  exact hr

/-- C11 (counterexample): a ledger of an entry whose rarity is `constructor`, an unknown
rarity of rank 1 by the claim, followed by a legendary entry, rank 4. `rarityRank` returns the
function that the table inherits from `Object.prototype`, the comparator returns NaN, and the
sort leaves the two entries as they are: the entry of rank 1 precedes the entry of rank 4. -/
theorem renderCollection_keeps_inherited_rarity_first :
    claimedRank (mkEntry "Drake" "constructor" 1).rarity = 1 ∧
    claimedRank (mkEntry "Kraken" "legendary" 1).rarity = 4 ∧
    ¬ RarityOrdered (mkEntry "Drake" "constructor" 1) (mkEntry "Kraken" "legendary" 1) ∧
    entryRank (mkEntry "Drake" "constructor" 1) = RankValue.inherited "constructor" ∧
    ∀ lc : String → String → Int,
      sortCompare lc "rarity" (mkEntry "Drake" "constructor" 1)
          (mkEntry "Kraken" "legendary" 1) = Dbl.nan ∧
      renderCollection lc (some "rarity")
          [("a", mkEntry "Drake" "constructor" 1), ("b", mkEntry "Kraken" "legendary" 1)] =
        [mkEntry "Drake" "constructor" 1, mkEntry "Kraken" "legendary" 1] := by
  refine ⟨by decide, by decide, ?_, by decide, ?_⟩
  · simp [RarityOrdered, claimedRank, mkEntry]
  · intro lc
    have h : sortCompare lc "rarity" (mkEntry "Drake" "constructor" 1)
        (mkEntry "Kraken" "legendary" 1) = Dbl.nan := by
      have e1 : entryRank (mkEntry "Drake" "constructor" 1) = RankValue.inherited "constructor" := by
        decide
      have e2 : entryRank (mkEntry "Kraken" "legendary" 1) = RankValue.number 4 := by decide
      have h1 : ¬ ("rarity" = "name") := by decide
      have h2 : ¬ ("rarity" = "count") := by decide
      simp only [sortCompare, h1, h2, if_false, e1, e2, RankValue.toNumber]
      have h3 : Dbl.sub (Dbl.fin ((4 : Nat) : ℚ)) Dbl.nan = Dbl.nan := rfl
      rw [h3]
      simp
    refine ⟨h, ?_⟩
    simp only [renderCollection, arraySort, Option.getD_some, List.map_cons, List.map_nil,
      List.insertionSort, List.orderedInsert, h, Dbl.keepsOrder, if_true]

/-- C11 (amended): for a collection whose entries have a rarity that is no name of
`Object.prototype` and a count that is not NaN, the order `renderCollection` produces in rarity mode is
the stable sort of the entries by the rank of the claim (legendary 4, epic 3, rare 2, common or
unknown 1) descending, then count descending: it is a permutation of the entries; of two
entries the earlier one has the higher rank, or the same rank and at least the count; and the
entries of any one rank and count keep their prior relative order. The absent selector value
means rarity mode. For {common x3, legendary x1} the legendary entry comes first for either
insertion order. -/
theorem renderCollection_rarity_order_plain (lc : String → String → Int) (col : Collection)
    (hplain : ∀ p ∈ col, PlainEntry p.2) :
    (renderCollection lc (some "rarity") col).Perm (col.map (fun p => p.2)) ∧
    (renderCollection lc (some "rarity") col).Pairwise RarityOrdered ∧
    (∀ (k : Nat) (n : Dbl),
      (renderCollection lc (some "rarity") col).filter
          (fun e => decide (claimedRank e.rarity = k ∧ e.count = n)) =
        (col.map (fun p => p.2)).filter
          (fun e => decide (claimedRank e.rarity = k ∧ e.count = n))) ∧
    renderCollection lc none col = renderCollection lc (some "rarity") col ∧
    renderCollection lc (some "rarity")
        [("a", mkEntry "Trilobite" "common" 3), ("b", mkEntry "Kraken" "legendary" 1)] =
      [mkEntry "Kraken" "legendary" 1, mkEntry "Trilobite" "common" 3] ∧
    renderCollection lc (some "rarity")
        [("b", mkEntry "Kraken" "legendary" 1), ("a", mkEntry "Trilobite" "common" 3)] =
      [mkEntry "Kraken" "legendary" 1, mkEntry "Trilobite" "common" 3] := by
  have hmem : ∀ e ∈ col.map (fun p => p.2), PlainEntry e := by
    intro e he
    obtain ⟨p, hp, rfl⟩ := List.mem_map.mp he
    exact hplain p hp
  have hc : PlainEntry (mkEntry "Trilobite" "common" 3) := by
    have := plainEntry_mkEntry "Trilobite" "common" 3 (by decide) (by norm_num)
    simpa using this
  have hl : PlainEntry (mkEntry "Kraken" "legendary" 1) := by
    have := plainEntry_mkEntry "Kraken" "legendary" 1 (by decide) (by norm_num)
    simpa using this
  have hcl : ¬ RarityOrdered (mkEntry "Trilobite" "common" 3) (mkEntry "Kraken" "legendary" 1) := by
    simp [RarityOrdered, claimedRank, mkEntry]
  have hlc : RarityOrdered (mkEntry "Kraken" "legendary" 1) (mkEntry "Trilobite" "common" 3) := by
    simp [RarityOrdered, claimedRank, mkEntry]
  refine ⟨arraySort_perm _ _, ?_, ?_, rfl, ?_, ?_⟩
  · have hs := arraySort_sorted (sortCompare lc "rarity") (col.map (fun p => p.2)) PlainEntry
      hmem
      (fun a b ha hb => by
        rw [sortCompare_rarity_keeps lc a b ha hb, sortCompare_rarity_keeps lc b a hb ha]
        exact rarityOrdered_total a b)
      (fun a b c ha hb hc h1 h2 => by
        rw [sortCompare_rarity_keeps lc _ _ ha hc]
        rw [sortCompare_rarity_keeps lc _ _ ha hb] at h1
        rw [sortCompare_rarity_keeps lc _ _ hb hc] at h2
        exact rarityOrdered_trans a b c hb.2 h1 h2)
    have hperm := arraySort_perm (sortCompare lc "rarity") (col.map (fun p => p.2))
    exact hs.imp_of_mem (fun {a b} ha hb h =>
      (sortCompare_rarity_keeps lc a b (hmem a (hperm.subset ha)) (hmem b (hperm.subset hb))).mp h)
  · intro k n
    apply arraySort_stable (sortCompare lc "rarity")
    intro a ha b hb pa pb
    simp only [decide_eq_true_eq] at pa pb
    rw [sortCompare_rarity_keeps lc a b (hmem a ha) (hmem b hb)]
    right
    exact ⟨by omega, by rw [pa.2, pb.2]; exact Dbl.lt_irrefl n⟩
  · have h1 : ¬ (sortCompare lc "rarity" (mkEntry "Trilobite" "common" 3)
        (mkEntry "Kraken" "legendary" 1)).keepsOrder = true :=
      fun h => hcl ((sortCompare_rarity_keeps lc _ _ hc hl).mp h)
    simp only [renderCollection, arraySort, Option.getD_some, List.map_cons, List.map_nil,
      List.insertionSort, List.orderedInsert, h1, if_false]
    rfl
  · have h1 : (sortCompare lc "rarity" (mkEntry "Kraken" "legendary" 1)
        (mkEntry "Trilobite" "common" 3)).keepsOrder = true :=
      (sortCompare_rarity_keeps lc _ _ hl hc).mpr hlc
    simp only [renderCollection, arraySort, Option.getD_some, List.map_cons, List.map_nil,
      List.insertionSort, List.orderedInsert, h1, if_true]

/-- Witness for C11: a ledger of three plain entries, rare x2, legendary x1 and epic x5, is
rendered legendary, epic, rare. -/
theorem renderCollection_rarity_order_plain_witness :
    (renderCollection (fun _ _ => 0) (some "rarity")
        [("a", mkEntry "Murène" "rare" 2), ("b", mkEntry "Kraken" "legendary" 1),
         ("c", mkEntry "Nautile" "epic" 5)]).Pairwise RarityOrdered ∧
      renderCollection (fun _ _ => 0) (some "rarity")
        [("a", mkEntry "Murène" "rare" 2), ("b", mkEntry "Kraken" "legendary" 1),
         ("c", mkEntry "Nautile" "epic" 5)] =
      [mkEntry "Kraken" "legendary" 1, mkEntry "Nautile" "epic" 5, mkEntry "Murène" "rare" 2] :=
  ⟨(renderCollection_rarity_order_plain (fun _ _ => 0)
      [("a", mkEntry "Murène" "rare" 2), ("b", mkEntry "Kraken" "legendary" 1),
       ("c", mkEntry "Nautile" "epic" 5)]
      (by
        intro p hp
        simp only [List.mem_cons, List.mem_singleton, List.not_mem_nil, or_false] at hp
        rcases hp with rfl | rfl | rfl
        · simpa using plainEntry_mkEntry "Murène" "rare" 2 (by decide) (by norm_num)
        · simpa using plainEntry_mkEntry "Kraken" "legendary" 1 (by decide) (by norm_num)
        · simpa using plainEntry_mkEntry "Nautile" "epic" 5 (by decide) (by norm_num))).2.1,
   by decide!⟩

/-! ## Persisted blob: claim C12 -/

theorem addToCollectionOn_mapping (m : Collection) (d : List Card) :
    addToCollectionOn (Parsed.mapping m) d = Except.ok (Parsed.mapping (addToCollection m d)) := by
  induction d generalizing m with
  | nil => rfl
  | cons c rest ih =>
    have hstep : addToCollection m (c :: rest) = addToCollection (addCard m c) rest := rfl
    simp only [addToCollectionOn, addCardOn, ih, hstep]

/-- A card whose identity names a function that the loaded value inherits is skipped without
an exception: `toString` on the number 5, `trim` on the string `"abc"`; a character of a
loaded string raises on line 166. -/
theorem addToCollectionOn_inherited_member :
    addToCollectionOn (Parsed.num 5) [inheritedIdCard] = Except.ok (Parsed.num 5) ∧
    addToCollectionOn (Parsed.str "abc") [{ inheritedIdCard with id := some "trim" }] =
      Except.ok (Parsed.str "abc") ∧
    addToCollectionOn (Parsed.str "abc") [{ inheritedIdCard with id := some "1" }] =
      Except.error (JsError.typeError 166) ∧
    addToCollectionOn (Parsed.str "") [{ inheritedIdCard with id := some "length" }] =
      Except.error (JsError.typeError 164) := by
  exact ⟨rfl, rfl, rfl, rfl⟩

/-- C12 (the code at the failing input): an absent item, a text that is not JSON and the
JSON text `null` load as the empty mapping, but the JSON number `5`, the string `"abc"` and
the boolean `true` are returned as they are, not as the empty mapping; and recording the
sample draw on the loaded number, boolean or string raises a `TypeError` at the creation of
the first entry (line 164). -/
theorem loadCollection_keeps_non_mappings :
    loadCollection Blob.absent = Parsed.mapping [] ∧
    loadCollection Blob.invalid = Parsed.mapping [] ∧
    loadCollection (Blob.valid Parsed.null) = Parsed.mapping [] ∧
    loadCollection (Blob.valid (Parsed.num 5)) = Parsed.num 5 ∧
    loadCollection (Blob.valid (Parsed.str "abc")) = Parsed.str "abc" ∧
    loadCollection (Blob.valid (Parsed.bool true)) = Parsed.bool true ∧
    loadCollection (Blob.valid (Parsed.num 5)) ≠ Parsed.mapping [] ∧
    addToCollectionOn (loadCollection (Blob.valid (Parsed.num 5))) sampleDraw =
      Except.error (JsError.typeError 164) ∧
    addToCollectionOn (loadCollection (Blob.valid (Parsed.bool true))) sampleDraw =
      Except.error (JsError.typeError 164) ∧
    addToCollectionOn (loadCollection (Blob.valid (Parsed.str "abc"))) sampleDraw =
      Except.error (JsError.typeError 164) := by
  refine ⟨rfl, rfl, rfl, rfl, rfl, rfl, ?_, rfl, rfl, rfl⟩
  intro h
  exact Parsed.noConfusion h

/-! ## Abort and restart: claims C13 and C14 -/

theorem loadTextureCached_fields (s : State) (url : Option String) (cur : Nat) :
    revealFields (loadTextureCached s url cur) = revealFields s := by
  unfold loadTextureCached
  split
  · rfl
  · split_ifs <;> simp [revealFields]

/-- What running a callback does to the fields of `revealState`: nothing, except for a
settle completion, which adds one to the index and clears `isRevealing`. -/
theorem runTask_fields (s : State) (ok : Bool) (t : Task) :
    ((∀ cur, t ≠ Task.settle cur) → revealFields (runTask s ok t) = revealFields s) ∧
    (∀ cur, t = Task.settle cur →
      revealFields (runTask s ok t) = (s.active, s.index + 1, s.drawn, s.cardObjs, false)) := by
  cases t with
  | flipOut cur =>
    refine ⟨fun _ => ?_, fun c h => Task.noConfusion h⟩
    exact loadTextureCached_fields _ _ _
  | load cur url =>
    refine ⟨fun _ => ?_, fun c h => Task.noConfusion h⟩
    simp only [runTask]
    split_ifs <;> simp [revealFields]
  | flipBack cur =>
    refine ⟨fun _ => ?_, fun c h => Task.noConfusion h⟩
    simp [runTask, revealFields]
  | settle cur =>
    refine ⟨fun h => absurd rfl (h cur), fun c _ => ?_⟩
    simp [runTask, revealFields]

theorem fire_fields (s : State) (i : Nat) (ok : Bool) (t : Task) (ht : s.pending[i]? = some t) :
    ((∀ cur, t ≠ Task.settle cur) → revealFields (fire i ok s) = revealFields s) ∧
    (∀ cur, t = Task.settle cur →
      revealFields (fire i ok s) = (s.active, s.index + 1, s.drawn, s.cardObjs, false)) := by
  have hf : fire i ok s = runTask (dequeue s i) ok t := by simp [fire, ht]
  rw [hf]
  exact runTask_fields (dequeue s i) ok t

theorem clearRevealedCards_pending (s : State) :
    (clearRevealedCards s).pending = s.pending :=
  (removeFromScene_frame s.cardObjs s).1

/-- C13, counterexample: the settle completion of the first card is pending when
`clearRevealedCards` runs; when it fires afterwards the index goes from 0 to 1, so the fields
of `revealState` are not what they were before it, and likewise when a new session has
begun in between. -/
theorem late_settle_changes_fields :
    midSettle.pending = [Task.settle 0] ∧
    (clearRevealedCards midSettle).pending = [Task.settle 0] ∧
    revealFields (clearRevealedCards midSettle) = (false, 0, [], [], false) ∧
    revealFields (fire 0 true (clearRevealedCards midSettle)) = (false, 1, [], [], false) ∧
    revealFields (fire 0 true (clearRevealedCards midSettle)) ≠
      revealFields (clearRevealedCards midSettle) ∧
    revealFields (fire 0 true (beginReveal (clearRevealedCards midSettle) sampleDraw)) ≠
      revealFields (beginReveal (clearRevealedCards midSettle) sampleDraw) := by
  refine ⟨by decide, by decide, by decide, by decide, by decide, by decide⟩

/-- C13, amended: a continuation that was pending when `clearRevealedCards` ran is still
pending afterwards, also after a new session has begun; when it fires late, a flip, load or
return-flip completion leaves the five fields of `revealState` as they were, and a settle
completion leaves `active`, `drawn` and `cardObjs` as they were, adds one to `index` and
sets `isRevealing` to false. -/
theorem late_continuation_fields (s0 : State) (d : List Card) (i : Nat) (ok : Bool) (t : Task)
    (ht : s0.pending[i]? = some t) :
    (clearRevealedCards s0).pending[i]? = some t ∧
    (beginReveal (clearRevealedCards s0) d).pending[i]? = some t ∧
    ((∀ cur, t ≠ Task.settle cur) →
      revealFields (fire i ok (clearRevealedCards s0)) = revealFields (clearRevealedCards s0) ∧
      revealFields (fire i ok (beginReveal (clearRevealedCards s0) d)) =
        revealFields (beginReveal (clearRevealedCards s0) d)) ∧
    (∀ cur, t = Task.settle cur →
      revealFields (fire i ok (clearRevealedCards s0)) =
        ((clearRevealedCards s0).active, (clearRevealedCards s0).index + 1,
          (clearRevealedCards s0).drawn, (clearRevealedCards s0).cardObjs, false) ∧
      revealFields (fire i ok (beginReveal (clearRevealedCards s0) d)) =
        ((beginReveal (clearRevealedCards s0) d).active,
          (beginReveal (clearRevealedCards s0) d).index + 1,
          (beginReveal (clearRevealedCards s0) d).drawn,
          (beginReveal (clearRevealedCards s0) d).cardObjs, false)) := by
  have h1 : (clearRevealedCards s0).pending[i]? = some t := by
    rw [clearRevealedCards_pending]; exact ht
  have h2 : (beginReveal (clearRevealedCards s0) d).pending[i]? = some t := by
    rw [(beginReveal_frame s0 d).1]; exact ht
  refine ⟨h1, h2, fun hn => ⟨?_, ?_⟩, fun cur hc => ⟨?_, ?_⟩⟩
  · exact (fire_fields _ i ok t h1).1 hn
  · exact (fire_fields _ i ok t h2).1 hn
  · exact (fire_fields _ i ok t h1).2 cur hc
  · exact (fire_fields _ i ok t h2).2 cur hc

/-- Witness for C13 amended: the pending settle completion of `midSettle`, fired after the
abort, leaves `active`, `drawn` and `cardObjs` idle and moves the index to 1. -/
theorem late_continuation_fields_witness :
    midSettle.pending[0]? = some (Task.settle 0) ∧
      revealFields (fire 0 true (clearRevealedCards midSettle)) =
        ((clearRevealedCards midSettle).active, (clearRevealedCards midSettle).index + 1,
          (clearRevealedCards midSettle).drawn, (clearRevealedCards midSettle).cardObjs, false) :=
  ⟨by decide,
   ((late_continuation_fields midSettle sampleDraw 0 true (Task.settle 0) (by decide)).2.2.2 0
      rfl).1⟩

theorem modifyAt_append_length {α : Type} (f : α → α) (l : List α) (x : α) :
    modifyAt f l.length (l ++ [x]) = l ++ [f x] := by
  induction l with
  | nil => rfl
  | cons y ys ih => simp [modifyAt, ih]

theorem beginCard_cards (s : State) (data : Card) (i : Nat) :
    (beginCard s data i).cards = s.cards ++ [newCardObj data i] := by
  have h : (beginCard s data i).cards =
      modifyAt (fun o => { o with visible := decide (i = 0) }) s.cards.length
        (s.cards ++ [{ realUrl := data.image, rarity := data.rarity.getD "common",
                       isRevealed := false, visible := true, inScene := true,
                       artwork := Artwork.question, settled := false }]) := rfl
  rw [h, modifyAt_append_length]
  rfl

theorem beginCard_drawn (s : State) (data : Card) (i : Nat) :
    (beginCard s data i).drawn = s.drawn := rfl

/-- The card objects of a session after the loop of `beginReveal`: the old references, then
one fresh reference per drawn card, in order, each to the object built for that card. -/
theorem beginLoop_spec (drawn : List Card) (s : State) (i : Nat) :
    (beginLoop s drawn i).drawn = s.drawn ∧
    (beginLoop s drawn i).cardObjs = s.cardObjs ++ List.range' s.cards.length drawn.length ∧
    (beginLoop s drawn i).cards.length = s.cards.length + drawn.length ∧
    (∀ r, r < s.cards.length → (beginLoop s drawn i).cards[r]? = s.cards[r]?) ∧
    (∀ j d, drawn[j]? = some d →
      (beginLoop s drawn i).cards[s.cards.length + j]? = some (newCardObj d (i + j))) := by
  induction drawn generalizing s i with
  | nil => simp [beginLoop]
  | cons c rest ih =>
    obtain ⟨h0, h1, h2, h3, h4⟩ := ih (beginCard s c i) (i + 1)
    have hlen : (beginCard s c i).cards.length = s.cards.length + 1 := by
      rw [beginCard_cards]; simp
    simp only [beginLoop]
    refine ⟨by rw [h0, beginCard_drawn], ?_, ?_, ?_, ?_⟩
    · rw [h1, beginCard_cardObjs, hlen, List.length_cons, List.range'_succ, List.append_assoc]
      rfl
    · rw [h2, hlen, List.length_cons]; omega
    · intro r hr
      rw [h3 r (by omega), beginCard_cards, List.getElem?_append_left hr]
    · intro j d hj
      cases j with
      | zero =>
        simp only [List.getElem?_cons_zero, Option.some.injEq] at hj
        subst hj
        rw [Nat.add_zero, h3 _ (by omega), beginCard_cards]
        simp
      | succ k =>
        simp only [List.getElem?_cons_succ] at hj
        have := h4 k d hj
        rw [hlen] at this
        rw [show s.cards.length + (k + 1) = s.cards.length + 1 + k by omega,
          show i + (k + 1) = i + 1 + k by omega]
        exact this

theorem removeFromScene_cards (refs : List Nat) (s : State) (r : Nat) :
    (removeFromScene s refs).cards[r]? =
      (s.cards[r]?).map (fun o => if r ∈ refs then { o with inScene := false } else o) := by
  induction refs generalizing s with
  | nil => simp [removeFromScene]
  | cons r0 rest ih =>
    simp only [removeFromScene]
    rw [ih, updCard_cards, modifyAt_getElem?]
    by_cases h0 : r = r0
    · subst h0
      cases s.cards[r]? with
      | none => simp
      | some o => by_cases hr : r ∈ rest <;> simp [hr]
    · cases s.cards[r]? with
      | none => simp [h0]
      | some o => by_cases hr : r ∈ rest <;> simp [h0, hr]

theorem removeFromScene_length (refs : List Nat) (s : State) :
    (removeFromScene s refs).cards.length = s.cards.length := by
  induction refs generalizing s with
  | nil => rfl
  | cons r0 rest ih =>
    simp only [removeFromScene]
    rw [ih, updCard_cards, modifyAt_length]

theorem clearRevealedCards_cards (s : State) :
    (clearRevealedCards s).cards = (removeFromScene s s.cardObjs).cards := rfl

theorem beginReveal_spec (c : State) (drawn : List Card) :
    (beginReveal c drawn).drawn = drawn ∧
    (beginReveal c drawn).cardObjs = List.range' c.cards.length drawn.length ∧
    (beginReveal c drawn).cards.length = c.cards.length + drawn.length ∧
    (∀ r, r < c.cards.length → (beginReveal c drawn).cards[r]? = c.cards[r]?) ∧
    (∀ j d, drawn[j]? = some d →
      (beginReveal c drawn).cards[c.cards.length + j]? = some (newCardObj d j)) := by
  have h := beginLoop_spec drawn
    { c with active := true, index := 0, drawn := drawn, cardObjs := [] } 0
  simpa [beginReveal] using h

/-- C14: `clearRevealedCards` resets the five fields of `revealState` to their idle values
and takes every previous item out of the scene; after the following start of a reveal on a
new draw result, `cardObjs` holds exactly one item per drawn card, in draw order, built from
that card, visible only at position 0; and no previous item is in `cardObjs` or in the scene.
References of the state are references to existing card objects. -/
theorem clear_then_begin (s : State) (drawn : List Card)
    (hvalid : ∀ r ∈ s.cardObjs, r < s.cards.length) :
    revealFields (clearRevealedCards s) = (false, 0, [], [], false) ∧
    (∀ r ∈ s.cardObjs, ∃ o, (clearRevealedCards s).cards[r]? = some o ∧ o.inScene = false) ∧
    (beginReveal (clearRevealedCards s) drawn).active = true ∧
    (beginReveal (clearRevealedCards s) drawn).index = 0 ∧
    (beginReveal (clearRevealedCards s) drawn).isRevealing = false ∧
    (beginReveal (clearRevealedCards s) drawn).drawn = drawn ∧
    (beginReveal (clearRevealedCards s) drawn).cardObjs.length = drawn.length ∧
    (∀ j d, drawn[j]? = some d →
      ∃ r, (beginReveal (clearRevealedCards s) drawn).cardObjs[j]? = some r ∧
        (beginReveal (clearRevealedCards s) drawn).cards[r]? = some (newCardObj d j)) ∧
    (∀ r ∈ s.cardObjs,
      r ∉ (beginReveal (clearRevealedCards s) drawn).cardObjs ∧
      ∃ o, (beginReveal (clearRevealedCards s) drawn).cards[r]? = some o ∧
        o.inScene = false) := by
  have hclr : ∀ r ∈ s.cardObjs,
      ∃ o, (clearRevealedCards s).cards[r]? = some o ∧ o.inScene = false := by
    intro r hr
    have hlt := hvalid r hr
    refine ⟨{ s.cards[r] with inScene := false }, ?_, rfl⟩
    rw [clearRevealedCards_cards, removeFromScene_cards, List.getElem?_eq_getElem hlt]
    simp [hr]
  have hclen : (clearRevealedCards s).cards.length = s.cards.length := by
    rw [clearRevealedCards_cards, removeFromScene_length]
  obtain ⟨_, f2, f3, f4, _, f6⟩ := beginReveal_frame s drawn
  obtain ⟨b0, b1, _, b3, b4⟩ := beginReveal_spec (clearRevealedCards s) drawn
  rw [hclen] at b1 b3 b4
  refine ⟨rfl, hclr, f3, f4, f2, b0, f6, ?_, ?_⟩
  · intro j d hj
    have hjlt : j < drawn.length := by
      by_contra hge
      rw [List.getElem?_eq_none (by omega)] at hj
      exact Option.noConfusion hj
    refine ⟨s.cards.length + j, ?_, b4 j d hj⟩
    rw [b1, List.getElem?_range' _ _ hjlt]
    simp
  · intro r hr
    have hlt := hvalid r hr
    constructor
    · rw [b1]
      intro hmem
      have := (List.mem_range'_1.mp hmem).1
      omega
    · obtain ⟨o, ho, hs⟩ := hclr r hr
      exact ⟨o, by rw [b3 r hlt]; exact ho, hs⟩

/-- Witness for C14: the session `midSettle` on the sample draw is aborted and a new reveal
begins on the first two cards of the sample draw. -/
theorem clear_then_begin_witness :
    revealFields (clearRevealedCards midSettle) = (false, 0, [], [], false) ∧
      (beginReveal (clearRevealedCards midSettle) (sampleDraw.take 2)).cardObjs = [5, 6] ∧
      ((beginReveal (clearRevealedCards midSettle) (sampleDraw.take 2)).cards.map
        (fun o => (o.inScene, o.visible))) =
        [(false, true), (false, false), (false, false), (false, false), (false, false),
         (true, true), (true, false)] :=
  ⟨(clear_then_begin midSettle (sampleDraw.take 2) (by decide)).1, by decide, by decide⟩

/-! ## Opening a booster: claim C15 -/

/-- A session whose reveal is active without any card object, with nothing pending, does not
move: every event leaves it as it is. -/
theorem sessionStep_stuck (ss : Session) (ha : ss.reveal.active = true)
    (hc : ss.reveal.cardObjs = []) (hp : ss.reveal.pending = [])
    (hs : ss.switchPending = false) (e : SessionEvent) : sessionStep ss e = ss := by
  cases e with
  | pointerdown hitCard hitBooster =>
    have hr : pointerdownReveal hitCard ss.reveal = ss.reveal := by
      unfold pointerdownReveal
      split_ifs
      · rfl
      · simp [hc]
    simp only [sessionStep, pointerdown, ha, if_true, hr]
  | boosterBtn cfg => simp [sessionStep, boosterBtnClick, ha]
  | fire i ok =>
    have hf : fire i ok ss.reveal = ss.reveal := by simp [fire, hp]
    simp only [sessionStep, hf]
  | switchDone => simp [sessionStep, hs]

theorem runSession_stuck (ss : Session) (ha : ss.reveal.active = true)
    (hc : ss.reveal.cardObjs = []) (hp : ss.reveal.pending = [])
    (hs : ss.switchPending = false) (evs : List SessionEvent) : runSession evs ss = ss := by
  induction evs with
  | nil => rfl
  | cons e rest ih =>
    have hstep : runSession (e :: rest) ss = runSession rest (sessionStep ss e) := rfl
    rw [hstep, sessionStep_stuck ss ha hc hp hs e, ih]

/-- When no catalog card has the current booster, the callback of the cinematic leaves the
reveal active with no card object and the end buttons hidden. -/
theorem cinematicDone_empty_draw (catalog : List Card) (rnd : Nat → ℚ) (ss : Session)
    (hnone : ¬ ∃ c ∈ catalog, c.booster = some ss.currentBooster.id) :
    ∃ ss2, cinematicDone catalog rnd ss = Except.ok ss2 ∧
      ss2.reveal.active = true ∧ ss2.reveal.cardObjs = [] ∧ ss2.reveal.drawn = [] ∧
      ss2.reveal.index = 0 ∧ ss2.reveal.endActionsHidden = true ∧
      ss2.reveal.pending = ss.reveal.pending ∧ ss2.reveal.log = ss.reveal.log ∧
      ss2.isOpening = false ∧ ss2.switchPending = ss.switchPending := by
  have hnil : basePool catalog ss.currentBooster.id = [] := by
    by_contra hne
    exact hnone ((basePool_ne_nil_iff catalog ss.currentBooster.id).mp hne)
  have hdraw : openBooster catalog rnd 5 ss.currentBooster.id ss.currentBooster.odds
      ss.currentBooster.pool = [] := by
    simp [openBooster, hnil]
  refine ⟨_, by simp only [cinematicDone, hdraw, definedCards]; rfl, ?_⟩
  refine ⟨rfl, rfl, rfl, rfl, rfl, ?_, ?_, rfl, rfl⟩
  · exact (removeFromScene_frame ss.reveal.cardObjs ss.reveal).1
  · exact (removeFromScene_frame ss.reveal.cardObjs ss.reveal).2

/-- C15 (the code at the failing input): booster `wildlife` is opened from the shop with a
catalog that has no card of this booster. After the callback of the cinematic the reveal is
active, there is no card object, nothing is pending, the end buttons are hidden and session
end has never been signalled; no pointer press, booster button, callback or switch completion
changes this state. -/
theorem empty_draw_leaves_session_stuck :
    ∃ ss2, cinematicDone sampleCatalog (constStream (1 / 2))
        (openBooster3D (Session.atShop wildlifeBooster)) = Except.ok ss2 ∧
      ss2.reveal.active = true ∧ ss2.reveal.cardObjs = [] ∧ ss2.reveal.pending = [] ∧
      ss2.reveal.endActionsHidden = true ∧ endSignals ss2.reveal = 0 ∧
      ss2.isOpening = false ∧ ss2.cinematicPending = false ∧ ss2.switchPending = false ∧
      openBooster3D ss2 = ss2 ∧
      ∀ evs : List SessionEvent, runSession evs ss2 = ss2 := by
  refine ⟨_, rfl, rfl, rfl, rfl, rfl, rfl, rfl, rfl, rfl, rfl, ?_⟩
  exact runSession_stuck _ rfl rfl rfl rfl

end Booster
